import Mathlib

/-!
# PhysicsFS 7z archiver: file index, folder cache and file handles

A shallow embedding of `physfs_archiver_7z_upstream.c`.  Machine integers are
natural numbers reduced modulo their width where the C arithmetic can wrap.
A C string is the list of its bytes before the terminating NUL.  Pointers into
`archive->files` and `archive->folders` are positions in the corresponding
lists; a NULL pointer is `none`.  The 7z decoder (`SzArEx_Extract`) and the
enumeration callback are parameters of the operations that call them.
-/

namespace SZ

/-! ## Machine integers -/

/-- Number of values of `size_t` and of `PHYSFS_uint64`. -/
def SIZE_MOD : Nat := 2 ^ 64

/-- Number of values of `PHYSFS_uint32`. -/
def UINT32_MOD : Nat := 2 ^ 32

/-- The cast to `PHYSFS_sint64` of a 64-bit unsigned value. -/
def toSint64 (n : Nat) : Int :=
  if n % SIZE_MOD < 2 ^ 63 then ((n % SIZE_MOD : Nat) : Int)
  else ((n % SIZE_MOD : Nat) : Int) - (SIZE_MOD : Int)

/-! ## C strings (libc) -/

/-- The bytes of an ASCII literal, for writing paths in examples. -/
def cstr (s : String) : List Nat := s.toList.map Char.toNat

/-- Libc `strcmp`: the sign of the first differing pair of bytes compared as
`unsigned char`; the end of a string is its NUL terminator, below every
byte of a string. -/
def strcmp : List Nat → List Nat → Int
  | [], [] => 0
  | [], _ :: _ => -1
  | _ :: _, [] => 1
  | a :: as, b :: bs => if a < b then -1 else if b < a then 1 else strcmp as bs

/-- Libc `strncmp`: as `strcmp`, over at most `n` bytes. -/
def strncmp : List Nat → List Nat → Nat → Int
  | _, _, 0 => 0
  | [], [], _ + 1 => 0
  | [], _ :: _, _ + 1 => -1
  | _ :: _, [], _ + 1 => 1
  | a :: as, b :: bs, n + 1 =>
    if a < b then -1 else if b < a then 1 else strncmp as bs n

/-- Libc `strchr`: the suffix starting at the first occurrence of `c`, or NULL. -/
def strchr : List Nat → Nat → Option (List Nat)
  | [], _ => none
  | a :: as, c => if a = c then some (a :: as) else strchr as c

/-- Libc `strlen`. -/
def strlen (s : List Nat) : Nat := s.length

/-- The byte `'/'`. -/
def SLASH : Nat := 47

/-! ## Error codes and decoder result codes -/

/-- The `PHYSFS_ErrorCode` values this archiver sets. -/
inductive PHYSFS_ErrorCode where
  | PHYSFS_ERR_OTHER_ERROR
  | PHYSFS_ERR_OUT_OF_MEMORY
  | PHYSFS_ERR_UNSUPPORTED
  | PHYSFS_ERR_PAST_EOF
  | PHYSFS_ERR_INVALID_ARGUMENT
  | PHYSFS_ERR_NOT_FOUND
  | PHYSFS_ERR_NOT_A_FILE
  | PHYSFS_ERR_READ_ONLY
  | PHYSFS_ERR_CORRUPT
  | PHYSFS_ERR_IO
  | PHYSFS_ERR_APP_CALLBACK
  deriving DecidableEq, Repr

open PHYSFS_ErrorCode

/-- Result codes `SRes` of the LZMA SDK (7zTypes.h). -/
def SZ_OK : Int := 0
def SZ_ERROR_DATA : Int := 1
def SZ_ERROR_MEM : Int := 2
def SZ_ERROR_CRC : Int := 3
def SZ_ERROR_UNSUPPORTED : Int := 4
def SZ_ERROR_PARAM : Int := 5
def SZ_ERROR_INPUT_EOF : Int := 6
def SZ_ERROR_OUTPUT_EOF : Int := 7
def SZ_ERROR_READ : Int := 8
def SZ_ERROR_WRITE : Int := 9
def SZ_ERROR_PROGRESS : Int := 10
def SZ_ERROR_FAIL : Int := 11
def SZ_ERROR_THREAD : Int := 12
def SZ_ERROR_ARCHIVE : Int := 16
def SZ_ERROR_NO_ARCHIVE : Int := 17

/-- The function `sz_err`: the error code it passes to `PHYSFS_setErrorCode`
(`none` when it sets nothing) and its return value, which is `rc`. -/
def sz_err (rc : Int) : Option PHYSFS_ErrorCode × Int :=
  if rc = SZ_OK then (none, rc)
  else if rc = SZ_ERROR_DATA then (some PHYSFS_ERR_CORRUPT, rc)
  else if rc = SZ_ERROR_MEM then (some PHYSFS_ERR_OUT_OF_MEMORY, rc)
  else if rc = SZ_ERROR_CRC then (some PHYSFS_ERR_CORRUPT, rc)
  else if rc = SZ_ERROR_UNSUPPORTED then (some PHYSFS_ERR_UNSUPPORTED, rc)
  else if rc = SZ_ERROR_PARAM then (some PHYSFS_ERR_INVALID_ARGUMENT, rc)
  else if rc = SZ_ERROR_INPUT_EOF then (some PHYSFS_ERR_PAST_EOF, rc)
  else if rc = SZ_ERROR_OUTPUT_EOF then (some PHYSFS_ERR_PAST_EOF, rc)
  else if rc = SZ_ERROR_READ then (some PHYSFS_ERR_IO, rc)
  else if rc = SZ_ERROR_WRITE then (some PHYSFS_ERR_IO, rc)
  else if rc = SZ_ERROR_PROGRESS then (some PHYSFS_ERR_OTHER_ERROR, rc)
  else if rc = SZ_ERROR_FAIL then (some PHYSFS_ERR_OTHER_ERROR, rc)
  else if rc = SZ_ERROR_THREAD then (some PHYSFS_ERR_OTHER_ERROR, rc)
  else if rc = SZ_ERROR_ARCHIVE then (some PHYSFS_ERR_CORRUPT, rc)
  else if rc = SZ_ERROR_NO_ARCHIVE then (some PHYSFS_ERR_OTHER_ERROR, rc)
  else (some PHYSFS_ERR_OTHER_ERROR, rc)

/-! ## Data model -/

/-- The SDK type `CNtfsFileTime`. -/
structure CNtfsFileTime where
  Low : Nat
  High : Nat
  deriving DecidableEq, Repr

/-- The struct `CSzFileItem`. -/
structure CSzFileItem where
  MTime : CNtfsFileTime
  Size : Nat
  IsDir : Bool
  MTimeDefined : Bool
  deriving DecidableEq, Repr

/-- The struct `SZfolder`: `cache` is `none` for a NULL pointer, otherwise the
bytes of the buffer it points to. -/
structure SZfolder where
  index : Nat
  references : Nat
  cache : Option (List Nat)
  size : Nat
  deriving DecidableEq, Repr

/-- The struct `SZfile`: `folder` is the position of the linked folder in
`archive->folders`, `none` for NULL. -/
structure SZfile where
  index : Nat
  folder : Option Nat
  item : CSzFileItem
  offset : Nat
  position : Nat
  name : List Nat
  deriving DecidableEq, Repr

/-- The struct `SZarchive`: the two arrays; `files.length` is `db.NumFiles`. -/
structure SZarchive where
  files : List SZfile
  folders : List SZfolder
  deriving DecidableEq, Repr

/-- What the decoder database `CSzArEx` holds for one member: its name (after
the UTF-16 to UTF-8 conversion), `SzArEx_GetFileSize`, `SzArEx_IsDir`,
`MTime.Vals`, `SzBitWithVals_Check` on `MTime`, and `FileToFolder`. -/
structure DbFile where
  name : List Nat
  Size : Nat
  IsDir : Bool
  MTime : CNtfsFileTime
  MTimeDefined : Bool
  FileToFolder : Nat
  deriving DecidableEq, Repr

/-- The decoder database `CSzArEx`, as far as the archiver reads it:
`NumFiles` is `Files.length`. -/
structure CSzArEx where
  Files : List DbFile
  NumFolders : Nat
  deriving DecidableEq, Repr

/-! ## File index -/

/-- The comparison `sz_file_cmp_stdlib`. -/
def sz_file_cmp_stdlib (name : List Nat) (file : SZfile) : Int :=
  strcmp name file.name

/-- The comparison `sz_file_cmp`, on the two array elements it is given. -/
def sz_file_cmp (one two : SZfile) : Int :=
  strcmp one.name two.name

/-- Libc `bsearch`, the loop: halve `[lo, hi)` until the comparison is 0. -/
def bsearchLoop {κ α : Type} (key : κ) (base : List α) (compar : κ → α → Int) :
    Nat → Nat → Nat → Option Nat
  | 0, _, _ => none
  | fuel + 1, lo, hi =>
    if lo < hi then
      let idx := (lo + hi) / 2
      match base[idx]? with
      | none => none
      | some p =>
        let comparison := compar key p
        if comparison < 0 then bsearchLoop key base compar fuel lo idx
        else if comparison > 0 then bsearchLoop key base compar fuel (idx + 1) hi
        else some idx
    else none

/-- Libc `bsearch` over `nmemb` elements: the position of the element found,
`none` for NULL.  The interval shrinks at every step, so `nmemb + 1` steps
suffice. -/
def bsearch {κ α : Type} (key : κ) (base : List α) (nmemb : Nat)
    (compar : κ → α → Int) : Option Nat :=
  bsearchLoop key base compar (nmemb + 1) 0 nmemb

/-- The function `sz_find_file`: the position of the entry found; `none` is the
NULL return, with which it sets `PHYSFS_ERR_NOT_FOUND`. -/
def sz_find_file (archive : SZarchive) (name : List Nat) : Option Nat :=
  bsearch name archive.files archive.files.length sz_file_cmp_stdlib

/-- The function `sz_file_init`: the `SZfile` it writes to slot `fileIndex`;
`none` when `fileIndex` is not an index of the database. -/
def sz_file_init (db : CSzArEx) (fileIndex : Nat) : Option SZfile :=
  match db.Files[fileIndex]? with
  | none => none
  | some m =>
    some
      { index := fileIndex
        folder := if m.FileToFolder ≠ UINT32_MOD - 1 then some m.FileToFolder else none
        item := { MTime := m.MTime, Size := m.Size, IsDir := m.IsDir,
                  MTimeDefined := m.MTimeDefined }
        position := 0
        offset := SIZE_MOD - 1
        name := m.name }

/-- Modelled from the spec: `__PHYSFS_sort` (physfs.c) is not among the sources;
the spec says the index "sorts entries by path using byte-wise (ordinal)
string comparison".  It is given the comparison callback and orders the array
so that the callback is never positive on an earlier and a later element. -/
def __PHYSFS_sort {α : Type} (cmpfn : α → α → Int) (entries : List α) : List α :=
  entries.insertionSort (fun a b => cmpfn a b ≤ 0)

/-- The loop of `sz_files_init`: the slots written for the given indices, `none`
when some `sz_file_init` fails. -/
def sz_files_init_loop (db : CSzArEx) : List Nat → Option (List SZfile)
  | [] => some []
  | fileIndex :: rest =>
    match sz_file_init db fileIndex with
    | none => none
    | some file =>
      match sz_files_init_loop db rest with
      | none => none
      | some files => some (file :: files)

/-- The function `sz_files_init`: initialise every slot, then sort the array;
`none` is the return value 0. -/
def sz_files_init (db : CSzArEx) (archive : SZarchive) : Option SZarchive :=
  match sz_files_init_loop db (List.range db.Files.length) with
  | none => none
  | some files => some { archive with files := __PHYSFS_sort sz_file_cmp files }

/-! ## Folder cache and file handles -/

/-- The 64-bit unsigned difference `a - b`. -/
def sub64 (a b : Nat) : Nat := (a % SIZE_MOD + SIZE_MOD - b % SIZE_MOD) % SIZE_MOD

/-- What `SzArEx_Extract` returns and leaves in the variables it is given by
address: `*blockIndex`, `*tempBuf`, `*outBufferSize`, `*offset` and
`*outSizeProcessed`. -/
structure ExtractResult where
  res : Int
  blockIndex : Nat
  tempBuf : Option (List Nat)
  outBufferSize : Nat
  offset : Nat
  outSizeProcessed : Nat
  deriving DecidableEq, Repr

/-- The decoder entry point `SzArEx_Extract` for a fixed database and stream: a
function of `fileIndex` and of the values `*blockIndex`, `*tempBuf`,
`*outBufferSize` and `*offset` hold on entry (`*outSizeProcessed` is the local
`fileSize`, 0 on entry). -/
abbrev Decoder := Nat → Nat → Option (List Nat) → Nat → Nat → ExtractResult

/-- What a call did to the caller's output buffer: nothing, a copy of bytes of
the cached folder, or a `memcpy` whose source range is not inside the cached
folder (the bytes copied are then not determined by the archive state). -/
inductive OutBuf where
  | untouched
  | copied (bytes : List Nat)
  | outside
  deriving DecidableEq, Repr

/-- The source of `memcpy(outBuf, cache + start, n)`. -/
def memcpy (cache : Option (List Nat)) (start n : Nat) : OutBuf :=
  match cache with
  | none => OutBuf.outside
  | some bytes =>
    if start + n ≤ bytes.length then OutBuf.copied ((bytes.drop start).take n)
    else OutBuf.outside

/-- Outcome of `SZ_read`: return value, error code set (if any), effect on
`outBuf`, and whether `SzArEx_Extract` was called. -/
structure ReadResult where
  ret : Int
  err : Option PHYSFS_ErrorCode
  outBuf : OutBuf
  extracted : Bool
  deriving DecidableEq, Repr

/-- The tail of `SZ_read` after the cache test: copy from the folder cache and
advance the position. -/
def SZ_read_copy (archive : SZarchive) (io : Nat) (file : SZfile)
    (cache : Option (List Nat)) (wantedSize : Nat) (extracted : Bool) :
    ReadResult × SZarchive :=
  ({ ret := toSint64 wantedSize
     err := none
     outBuf := memcpy cache ((file.offset + file.position) % SIZE_MOD) wantedSize
     extracted := extracted },
   { archive with
     files := archive.files.set io
       { file with position := (file.position + wantedSize) % SIZE_MOD } })

/-- The middle of `SZ_read`: decompress the folder unless it is cached, check the
decoder's answer, then copy. -/
def SZ_read_fill (extract : Decoder) (archive : SZarchive) (io fi : Nat) (file : SZfile)
    (folder : SZfolder) (wantedSize : Nat) : ReadResult × SZarchive :=
  match folder.cache with
  | none =>
    let r := extract file.index folder.index folder.cache folder.size file.offset
    let folder1 : SZfolder :=
      { folder with index := r.blockIndex, cache := r.tempBuf, size := r.outBufferSize }
    let file1 : SZfile := { file with offset := r.offset }
    let archive1 : SZarchive :=
      { files := archive.files.set io file1, folders := archive.folders.set fi folder1 }
    let rc := sz_err r.res
    if rc.2 ≠ SZ_OK then
      ({ ret := -1, err := rc.1, outBuf := OutBuf.untouched, extracted := true }, archive1)
    else if wantedSize > r.outSizeProcessed then
      ({ ret := -1, err := some PHYSFS_ERR_OTHER_ERROR, outBuf := OutBuf.untouched,
         extracted := true }, archive1)
    else if file.item.Size ≠ r.outSizeProcessed then
      ({ ret := -1, err := some PHYSFS_ERR_OTHER_ERROR, outBuf := OutBuf.untouched,
         extracted := true }, archive1)
    else SZ_read_copy archive1 io file1 folder1.cache wantedSize true
  | some _ => SZ_read_copy archive io file folder.cache wantedSize false

/-- The function `SZ_read` on the handle whose `opaque` is slot `io` of
`archive->files`.  `none` stands for a dereference of a pointer that is NULL or
outside its array (no handle made by `SZ_openRead` has one). -/
def SZ_read (extract : Decoder) (archive : SZarchive) (io : Nat) (len : Nat) :
    Option (ReadResult × SZarchive) :=
  match archive.files[io]? with
  | none => none
  | some file =>
    let wantedSize := len % SIZE_MOD
    let remainingSize := sub64 file.item.Size file.position
    if wantedSize = 0 then
      some ({ ret := 0, err := none, outBuf := OutBuf.untouched, extracted := false }, archive)
    else if remainingSize = 0 then
      some ({ ret := 0, err := some PHYSFS_ERR_PAST_EOF, outBuf := OutBuf.untouched,
              extracted := false }, archive)
    else
      let wantedSize := if wantedSize > remainingSize then remainingSize else wantedSize
      match file.folder with
      | none => none
      | some fi =>
        match archive.folders[fi]? with
        | none => none
        | some folder => some (SZ_read_fill extract archive io fi file folder wantedSize)

/-- The function `SZ_tell`. -/
def SZ_tell (archive : SZarchive) (io : Nat) : Option Int :=
  match archive.files[io]? with
  | none => none
  | some file => some (toSint64 file.position)

/-- Outcome of `SZ_seek`: return value and error code set (if any). -/
structure SeekResult where
  ret : Int
  err : Option PHYSFS_ErrorCode
  deriving DecidableEq, Repr

/-- The function `SZ_seek`. -/
def SZ_seek (archive : SZarchive) (io : Nat) (offset : Nat) :
    Option (SeekResult × SZarchive) :=
  match archive.files[io]? with
  | none => none
  | some file =>
    if offset > file.item.Size then
      some ({ ret := 0, err := some PHYSFS_ERR_PAST_EOF }, archive)
    else
      some ({ ret := 1, err := none },
            { archive with files := archive.files.set io { file with position := offset } })

/-- Outcome of `SZ_openRead`: the handle (the slot its `opaque` points to),
`none` for NULL, and the error code set. -/
structure OpenResult where
  io : Option Nat
  err : Option PHYSFS_ErrorCode
  deriving DecidableEq, Repr

/-- The function `SZ_openRead`; `mallocOk` tells whether the allocation of the
handle object succeeds.  `none` stands for a folder link outside the folder
array. -/
def SZ_openRead (mallocOk : Bool) (archive : SZarchive) (path : List Nat) :
    Option (OpenResult × SZarchive) :=
  match sz_find_file archive path with
  | none => some ({ io := none, err := some PHYSFS_ERR_NOT_FOUND }, archive)
  | some pos =>
    match archive.files[pos]? with
    | none => none
    | some file =>
      match file.folder with
      | none => some ({ io := none, err := some PHYSFS_ERR_NOT_A_FILE }, archive)
      | some fi =>
        match archive.folders[fi]? with
        | none => none
        | some folder =>
          let archive1 : SZarchive :=
            { files := archive.files.set pos { file with position := 0 }
              folders := archive.folders.set fi
                { folder with references := (folder.references + 1) % UINT32_MOD } }
          if mallocOk then some ({ io := some pos, err := none }, archive1)
          else some ({ io := none, err := some PHYSFS_ERR_OUT_OF_MEMORY }, archive1)

/-- The function `SZ_destroy`. -/
def SZ_destroy (archive : SZarchive) (io : Nat) : Option SZarchive :=
  match archive.files[io]? with
  | none => none
  | some file =>
    match file.folder with
    | none => some archive
    | some fi =>
      match archive.folders[fi]? with
      | none => none
      | some folder =>
        let references := if folder.references > 0 then folder.references - 1 else folder.references
        let folder1 : SZfolder := { folder with references := references }
        let folder2 : SZfolder := if references = 0 then { folder1 with cache := none } else folder1
        some { archive with folders := archive.folders.set fi folder2 }

/-! ## Enumeration -/

/-- The enum `PHYSFS_EnumerateCallbackResult`. -/
inductive PHYSFS_EnumerateCallbackResult where
  | PHYSFS_ENUM_ERROR
  | PHYSFS_ENUM_STOP
  | PHYSFS_ENUM_OK
  deriving DecidableEq, Repr

open PHYSFS_EnumerateCallbackResult

/-- A `PHYSFS_EnumerateCallback` with its `callbackdata` of type `σ`: given the
data and the name, it answers and leaves new data.  (`origdir` is handed through
unchanged and is part of the callback here.) -/
abbrev PHYSFS_EnumerateCallback (σ : Type) :=
  σ → List Nat → PHYSFS_EnumerateCallbackResult × σ

/-- The function `doEnumCallback`; `smallAlloc n` tells whether
`__PHYSFS_smallAlloc(n)` succeeds. -/
def doEnumCallback {σ : Type} (smallAlloc : Nat → Bool) (cb : PHYSFS_EnumerateCallback σ)
    (callbackdata : σ) (str : List Nat) (flen : Nat) : PHYSFS_EnumerateCallbackResult × σ :=
  if smallAlloc (flen + 1) then cb callbackdata (str.take flen)
  else (PHYSFS_ENUM_ERROR, callbackdata)

/-- Outcome of `SZ_enumerateFiles`: return value, error code set (if any) and
the callback data afterwards. -/
structure EnumResult (σ : Type) where
  retval : PHYSFS_EnumerateCallbackResult
  err : Option PHYSFS_ErrorCode
  callbackdata : σ

/-- The `while (file < lastFile)` loop of `SZ_enumerateFiles` over the slots from
`file` to the end of the array.  `none` stands for `strchr` starting beyond the
terminator of `fname` (when `fname` is shorter than `dlen_inc`). -/
def SZ_enumerateFiles_loop {σ : Type} (smallAlloc : Nat → Bool) (dname : List Nat)
    (dlen dlen_inc : Nat) (cb : PHYSFS_EnumerateCallback σ) :
    List SZfile → PHYSFS_EnumerateCallbackResult → Option PHYSFS_ErrorCode → σ →
      Option (EnumResult σ)
  | [], retval, err, callbackdata => some ⟨retval, err, callbackdata⟩
  | file :: rest, retval, err, callbackdata =>
    let fname := file.name
    if strncmp dname fname dlen ≠ 0 then some ⟨retval, err, callbackdata⟩
    else if strlen fname < dlen_inc then none
    else
      let dirNameEnd := fname.drop dlen_inc
      if (strchr dirNameEnd SLASH).isSome then
        SZ_enumerateFiles_loop smallAlloc dname dlen dlen_inc cb rest retval err callbackdata
      else
        let r := doEnumCallback smallAlloc cb callbackdata dirNameEnd (strlen dirNameEnd)
        let err1 := if r.1 = PHYSFS_ENUM_ERROR then some PHYSFS_ERR_APP_CALLBACK else err
        SZ_enumerateFiles_loop smallAlloc dname dlen dlen_inc cb rest r.1 err1 r.2

/-- The function `SZ_enumerateFiles`. -/
def SZ_enumerateFiles {σ : Type} (smallAlloc : Nat → Bool) (archive : SZarchive)
    (dname : List Nat) (cb : PHYSFS_EnumerateCallback σ) (callbackdata : σ) :
    Option (EnumResult σ) :=
  let dlen := strlen dname
  let dlen_inc := dlen + (if dlen > 0 then 1 else 0)
  let file : Option Nat :=
    if dlen ≠ 0 then
      match sz_find_file archive dname with
      | none => none
      | some pos => some (pos + 1)
    else some 0
  match file with
  | none => some ⟨PHYSFS_ENUM_ERROR, some PHYSFS_ERR_NOT_FOUND, callbackdata⟩
  | some start =>
    SZ_enumerateFiles_loop smallAlloc dname dlen dlen_inc cb (archive.files.drop start)
      PHYSFS_ENUM_OK none callbackdata

/-! ## Metadata, write operations and opening an archive -/

/-- The function `sz_filetime_to_unix_timestamp`: the 64-bit FILETIME assembled
from `Low` and `High`, divided by the ticks per second, minus the seconds between
1601 and 1970 in unsigned 64-bit arithmetic, returned as `PHYSFS_sint64`. -/
def sz_filetime_to_unix_timestamp (ft : CNtfsFileTime) : Int :=
  let FILETIME_NANOTICKS_PER_SECOND : Nat := 10000000
  let FILETIME_UNIX_DIFF : Nat := 11644473600
  let filetime : Nat := ft.Low ||| ((ft.High % SIZE_MOD) <<< 32) % SIZE_MOD
  toSint64 (sub64 (filetime / FILETIME_NANOTICKS_PER_SECOND) FILETIME_UNIX_DIFF)

/-- The enum `PHYSFS_FileType`. -/
inductive PHYSFS_FileType where
  | PHYSFS_FILETYPE_REGULAR
  | PHYSFS_FILETYPE_DIRECTORY
  | PHYSFS_FILETYPE_SYMLINK
  | PHYSFS_FILETYPE_OTHER
  deriving DecidableEq, Repr

open PHYSFS_FileType

/-- The struct `PHYSFS_Stat`. -/
structure PHYSFS_Stat where
  filesize : Int
  modtime : Int
  createtime : Int
  accesstime : Int
  filetype : PHYSFS_FileType
  readonly : Int
  deriving DecidableEq, Repr

/-- Outcome of `SZ_stat`: return value, error code set (if any) and the
contents of `*stat` afterwards. -/
structure StatResult where
  ret : Int
  err : Option PHYSFS_ErrorCode
  stat : PHYSFS_Stat
  deriving DecidableEq, Repr

/-- The function `SZ_stat`; `stat` is what `*stat` holds on entry.  `none` stands
for a pointer outside the file array (`sz_find_file` returns none such). -/
def SZ_stat (archive : SZarchive) (path : List Nat) (stat : PHYSFS_Stat) :
    Option StatResult :=
  match sz_find_file archive path with
  | none => some { ret := 0, err := some PHYSFS_ERR_NOT_FOUND, stat := stat }
  | some pos =>
    match archive.files[pos]? with
    | none => none
    | some file =>
      let stat1 : PHYSFS_Stat :=
        if file.item.IsDir then
          { stat with filesize := 0, filetype := PHYSFS_FILETYPE_DIRECTORY }
        else
          { stat with filesize := toSint64 file.item.Size, filetype := PHYSFS_FILETYPE_REGULAR }
      let modtime : Int :=
        if file.item.MTimeDefined then sz_filetime_to_unix_timestamp file.item.MTime else -1
      some { ret := 1, err := none
             stat := { stat1 with modtime := modtime, createtime := modtime,
                                  accesstime := modtime, readonly := 1 } }

/-- The function `SZ_length`. -/
def SZ_length (archive : SZarchive) (io : Nat) : Option Int :=
  match archive.files[io]? with
  | none => none
  | some file => some (toSint64 file.item.Size)

/-- Outcome of an operation that returns an integer: return value and error code
set (if any). -/
structure IntResult where
  ret : Int
  err : Option PHYSFS_ErrorCode
  deriving DecidableEq, Repr

/-- The function `SZ_write`. -/
def SZ_write (archive : SZarchive) (_io : Nat) (_b : List Nat) (_len : Nat) :
    IntResult × SZarchive :=
  ({ ret := -1, err := some PHYSFS_ERR_READ_ONLY }, archive)

/-- The function `SZ_flush`. -/
def SZ_flush (archive : SZarchive) (_io : Nat) : IntResult × SZarchive :=
  ({ ret := 1, err := none }, archive)

/-- The function `SZ_openWrite`. -/
def SZ_openWrite (archive : SZarchive) (_filename : List Nat) : OpenResult × SZarchive :=
  ({ io := none, err := some PHYSFS_ERR_READ_ONLY }, archive)

/-- The function `SZ_openAppend`. -/
def SZ_openAppend (archive : SZarchive) (_filename : List Nat) : OpenResult × SZarchive :=
  ({ io := none, err := some PHYSFS_ERR_READ_ONLY }, archive)

/-- The function `SZ_remove`. -/
def SZ_remove (archive : SZarchive) (_name : List Nat) : IntResult × SZarchive :=
  ({ ret := 0, err := some PHYSFS_ERR_READ_ONLY }, archive)

/-- The function `SZ_mkdir`. -/
def SZ_mkdir (archive : SZarchive) (_name : List Nat) : IntResult × SZarchive :=
  ({ ret := 0, err := some PHYSFS_ERR_READ_ONLY }, archive)

/-- Outcome of `SZ_openArchive`: the archive returned (`none` for NULL), the
error code set (if any), what `*claimed` holds afterwards, and whether
`SzArEx_Open`, the only reader of the stream, was called. -/
structure OpenArchiveResult where
  archive : Option SZarchive
  err : Option PHYSFS_ErrorCode
  claimed : Int
  opened : Bool
  deriving DecidableEq, Repr

/-- The function `SZ_openArchive`.  The stream `io` is the list of its bytes,
`none` for NULL; `SzArEx_Open` is the decoder entry point, giving its result code
and the database it fills; the three booleans tell whether the allocations of the
archive, of the file array and of the folder array succeed; `claimed` is what
`*claimed` holds on entry. -/
def SZ_openArchive (SzArEx_Open : List Nat → Int × CSzArEx)
    (mallocArchive mallocFiles mallocFolders : Bool)
    (io : Option (List Nat)) (forWriting : Bool) (claimed : Int) : OpenArchiveResult :=
  match io with
  | none =>
    { archive := none, err := some PHYSFS_ERR_INVALID_ARGUMENT, claimed := claimed,
      opened := false }
  | some stream =>
    if forWriting then
      { archive := none, err := some PHYSFS_ERR_READ_ONLY, claimed := claimed,
        opened := false }
    else if !mallocArchive then
      { archive := none, err := some PHYSFS_ERR_OUT_OF_MEMORY, claimed := claimed,
        opened := false }
    else
      let r := SzArEx_Open stream
      let res := r.1
      let db := r.2
      if res = SZ_ERROR_NO_ARCHIVE then
        { archive := none, err := none, claimed := claimed, opened := true }
      else if (sz_err res).2 ≠ SZ_OK then
        { archive := none, err := (sz_err res).1, claimed := claimed, opened := true }
      else if !mallocFiles then
        { archive := none, err := some PHYSFS_ERR_OUT_OF_MEMORY, claimed := 1, opened := true }
      else if !mallocFolders then
        { archive := none, err := some PHYSFS_ERR_OUT_OF_MEMORY, claimed := 1, opened := true }
      else
        let archive : SZarchive :=
          { files := []
            folders := List.replicate db.NumFolders
              { index := 0, references := 0, cache := none, size := 0 } }
        match sz_files_init db archive with
        | none =>
          { archive := none, err := some PHYSFS_ERR_OTHER_ERROR, claimed := 1, opened := true }
        | some archive1 =>
          { archive := some archive1, err := none, claimed := 1, opened := true }

/-! ## The handle operations of `archiver_7z.c` -/

/-- The values of the result codes `SZE_*` of the LZMA SDK that `archiver_7z.c`
is compiled against.  The header that defines them is not among the sources, so
the functions below take the values as a parameter; `SZ_OK` is the same 0. -/
structure Legacy.Codes where
  SZE_DATA_ERROR : Int
  SZE_OUTOFMEMORY : Int
  SZE_CRC_ERROR : Int
  SZE_NOTIMPL : Int
  SZE_FAIL : Int
  SZE_ARCHIVE_ERROR : Int
  deriving DecidableEq, Repr

/-- The function `sz_err` of `archiver_7z.c`. -/
def Legacy.sz_err (codes : Legacy.Codes) (rc : Int) : Option PHYSFS_ErrorCode × Int :=
  if rc = SZ_OK then (none, rc)
  else if rc = codes.SZE_DATA_ERROR then (some PHYSFS_ERR_CORRUPT, rc)
  else if rc = codes.SZE_OUTOFMEMORY then (some PHYSFS_ERR_OUT_OF_MEMORY, rc)
  else if rc = codes.SZE_CRC_ERROR then (some PHYSFS_ERR_CORRUPT, rc)
  else if rc = codes.SZE_NOTIMPL then (some PHYSFS_ERR_UNSUPPORTED, rc)
  else if rc = codes.SZE_FAIL then (some PHYSFS_ERR_OTHER_ERROR, rc)
  else if rc = codes.SZE_ARCHIVE_ERROR then (some PHYSFS_ERR_CORRUPT, rc)
  else (some PHYSFS_ERR_OTHER_ERROR, rc)

/-- The comparison `sz_file_cmp_stdlib` of `archiver_7z.c`; the name it reads
through `file->item->Name` is the field `name` of the slot. -/
def Legacy.sz_file_cmp_stdlib (name : List Nat) (file : SZfile) : Int :=
  strcmp name file.name

/-- The function `sz_find_file` of `archiver_7z.c`. -/
def Legacy.sz_find_file (archive : SZarchive) (name : List Nat) : Option Nat :=
  bsearch name archive.files archive.files.length Legacy.sz_file_cmp_stdlib

/-- The middle of `SZ_read` of `archiver_7z.c`: decompress the folder (with
`SzExtract`) unless it is cached, then copy; the size the decoder reports is not
looked at.  The copy and the advance of the position are the same statements as
in the other file (`SZ_read_copy`). -/
def Legacy.SZ_read_fill (codes : Legacy.Codes) (extract : Decoder) (archive : SZarchive)
    (io fi : Nat) (file : SZfile) (folder : SZfolder) (wantedSize : Nat) :
    ReadResult × SZarchive :=
  match folder.cache with
  | none =>
    let r := extract file.index folder.index folder.cache folder.size file.offset
    let folder1 : SZfolder :=
      { folder with index := r.blockIndex, cache := r.tempBuf, size := r.outBufferSize }
    let file1 : SZfile := { file with offset := r.offset }
    let archive1 : SZarchive :=
      { files := archive.files.set io file1, folders := archive.folders.set fi folder1 }
    let rc := Legacy.sz_err codes r.res
    if rc.2 ≠ SZ_OK then
      ({ ret := -1, err := rc.1, outBuf := OutBuf.untouched, extracted := true }, archive1)
    else SZ_read_copy archive1 io file1 folder1.cache wantedSize true
  | some _ => SZ_read_copy archive io file folder.cache wantedSize false

/-- The function `SZ_read` of `archiver_7z.c`. -/
def Legacy.SZ_read (codes : Legacy.Codes) (extract : Decoder) (archive : SZarchive)
    (io : Nat) (len : Nat) : Option (ReadResult × SZarchive) :=
  match archive.files[io]? with
  | none => none
  | some file =>
    let wantedSize := len % SIZE_MOD
    let remainingSize := sub64 file.item.Size file.position
    if wantedSize = 0 then
      some ({ ret := 0, err := none, outBuf := OutBuf.untouched, extracted := false }, archive)
    else if remainingSize = 0 then
      some ({ ret := 0, err := some PHYSFS_ERR_PAST_EOF, outBuf := OutBuf.untouched,
              extracted := false }, archive)
    else
      let wantedSize := if wantedSize > remainingSize then remainingSize else wantedSize
      match file.folder with
      | none => none
      | some fi =>
        match archive.folders[fi]? with
        | none => none
        | some folder =>
          some (Legacy.SZ_read_fill codes extract archive io fi file folder wantedSize)

/-- The function `SZ_tell` of `archiver_7z.c`. -/
def Legacy.SZ_tell (archive : SZarchive) (io : Nat) : Option Int :=
  match archive.files[io]? with
  | none => none
  | some file => some (toSint64 file.position)

/-- The function `SZ_seek` of `archiver_7z.c`. -/
def Legacy.SZ_seek (archive : SZarchive) (io : Nat) (offset : Nat) :
    Option (SeekResult × SZarchive) :=
  match archive.files[io]? with
  | none => none
  | some file =>
    if offset > file.item.Size then
      some ({ ret := 0, err := some PHYSFS_ERR_PAST_EOF }, archive)
    else
      some ({ ret := 1, err := none },
            { archive with files := archive.files.set io { file with position := offset } })

/-- The function `SZ_length` of `archiver_7z.c`. -/
def Legacy.SZ_length (archive : SZarchive) (io : Nat) : Option Int :=
  match archive.files[io]? with
  | none => none
  | some file => some (toSint64 file.item.Size)

/-- The function `SZ_openRead` of `archiver_7z.c`. -/
def Legacy.SZ_openRead (mallocOk : Bool) (archive : SZarchive) (name : List Nat) :
    Option (OpenResult × SZarchive) :=
  match Legacy.sz_find_file archive name with
  | none => some ({ io := none, err := some PHYSFS_ERR_NOT_FOUND }, archive)
  | some pos =>
    match archive.files[pos]? with
    | none => none
    | some file =>
      match file.folder with
      | none => some ({ io := none, err := some PHYSFS_ERR_NOT_A_FILE }, archive)
      | some fi =>
        match archive.folders[fi]? with
        | none => none
        | some folder =>
          let archive1 : SZarchive :=
            { files := archive.files.set pos { file with position := 0 }
              folders := archive.folders.set fi
                { folder with references := (folder.references + 1) % UINT32_MOD } }
          if mallocOk then some ({ io := some pos, err := none }, archive1)
          else some ({ io := none, err := some PHYSFS_ERR_OUT_OF_MEMORY }, archive1)

/-- The function `SZ_destroy` of `archiver_7z.c`. -/
def Legacy.SZ_destroy (archive : SZarchive) (io : Nat) : Option SZarchive :=
  match archive.files[io]? with
  | none => none
  | some file =>
    match file.folder with
    | none => some archive
    | some fi =>
      match archive.folders[fi]? with
      | none => none
      | some folder =>
        let references := if folder.references > 0 then folder.references - 1 else folder.references
        let folder1 : SZfolder := { folder with references := references }
        let folder2 : SZfolder := if references = 0 then { folder1 with cache := none } else folder1
        some { archive with folders := archive.folders.set fi folder2 }

/-! ## Scenarios -/

/-- An allocator that never fails. -/
def allocOk : Nat → Bool := fun _ => true

/-- A visit callback that records the names it is given, in order, and answers
by `answer` from the names seen before and the current name. -/
def visitor (answer : List (List Nat) → List Nat → PHYSFS_EnumerateCallbackResult) :
    PHYSFS_EnumerateCallback (List (List Nat)) :=
  fun seen name => (answer seen name, seen ++ [name])

/-- The names `SZ_enumerateFiles` hands to a recording callback and its return
value. -/
def enumerate (archive : SZarchive) (dname : List Nat)
    (answer : List (List Nat) → List Nat → PHYSFS_EnumerateCallbackResult) :
    Option (PHYSFS_EnumerateCallbackResult × List (List Nat)) :=
  match SZ_enumerateFiles allocOk archive dname (visitor answer) [] with
  | none => none
  | some r => some (r.retval, r.callbackdata)

/-- A sequence of `SZ_read` calls, each on a handle with a length, run in order;
the outcomes are collected. -/
def readSeq (extract : Decoder) :
    List (Nat × Nat) → SZarchive → Option (List ReadResult × SZarchive)
  | [], archive => some ([], archive)
  | (io, len) :: rest, archive =>
    match SZ_read extract archive io len with
    | none => none
    | some (r, archive1) =>
      match readSeq extract rest archive1 with
      | none => none
      | some (rs, archive2) => some (r :: rs, archive2)

/-- Number of `SzArEx_Extract` calls made by a sequence of reads. -/
def extractCalls (rs : List ReadResult) : Nat := (rs.filter (·.extracted)).length

/-- The bytes a read put into `outBuf`, when they come from the cached folder. -/
def bytesOf (r : ReadResult) : List Nat :=
  match r.outBuf with
  | OutBuf.copied bytes => bytes
  | _ => []

/-- The bytes delivered by a sequence of reads, concatenated. -/
def bytesRead (rs : List ReadResult) : List Nat := (rs.map bytesOf).flatten

/-- A call of one of the handle operations: `SZ_openRead` on a path (with whether
the allocation of the handle object succeeds), and `SZ_read`, `SZ_seek` and
`SZ_destroy` on a handle. -/
inductive Op where
  | openRead (mallocOk : Bool) (path : List Nat)
  | read (io len : Nat)
  | seek (io offset : Nat)
  | destroy (io : Nat)
  deriving DecidableEq, Repr

/-- An archive with the handles that are open on it, each given by the slot its
`opaque` points to (listed twice when two handles are open on one entry). -/
structure Session where
  archive : SZarchive
  handles : List Nat
  deriving DecidableEq, Repr

/-- One call on a session.  A handle returned by `SZ_openRead` joins the open
handles and `SZ_destroy` takes its handle out of them; `none` when the call is
on a handle that is not open, or dereferences an invalid pointer. -/
def step (extract : Decoder) (s : Session) : Op → Option Session
  | Op.openRead mallocOk path =>
    match SZ_openRead mallocOk s.archive path with
    | none => none
    | some (r, archive1) =>
      match r.io with
      | none => some { archive := archive1, handles := s.handles }
      | some io => some { archive := archive1, handles := io :: s.handles }
  | Op.read io len =>
    if io ∈ s.handles then
      match SZ_read extract s.archive io len with
      | none => none
      | some (_, archive1) => some { archive := archive1, handles := s.handles }
    else none
  | Op.seek io offset =>
    if io ∈ s.handles then
      match SZ_seek s.archive io offset with
      | none => none
      | some (_, archive1) => some { archive := archive1, handles := s.handles }
    else none
  | Op.destroy io =>
    if io ∈ s.handles then
      match SZ_destroy s.archive io with
      | none => none
      | some archive1 => some { archive := archive1, handles := s.handles.erase io }
    else none

/-- A sequence of calls on a session, run in order. -/
def run (extract : Decoder) : List Op → Session → Option Session
  | [], s => some s
  | op :: ops, s =>
    match step extract s op with
    | none => none
    | some s1 => run extract ops s1

/-- The folder link of the slot a handle points to (`file->folder`). -/
def linkOf (archive : SZarchive) (io : Nat) : Option Nat :=
  (archive.files[io]?).bind SZfile.folder

/-- Number of open handles whose entry is linked to folder `fi`. -/
def boundTo (s : Session) (fi : Nat) : Nat :=
  s.handles.countP (fun io => decide (linkOf s.archive io = some fi))

/-! ## Fixtures -/

/-- A zero-filled folder slot, as `memset` leaves it in `SZ_openArchive`. -/
def emptyFolder : SZfolder := { index := 0, references := 0, cache := none, size := 0 }

/-- The archive right after `sz_files_init` on the zero-filled arrays of
`SZ_openArchive`. -/
def freshArchive (db : CSzArEx) : Option SZarchive :=
  sz_files_init db { files := [], folders := List.replicate db.NumFolders emptyFolder }

/-- A regular file member of `size` bytes stored in folder `folder`. -/
def member (name : String) (size folder : Nat) : DbFile :=
  { name := cstr name, Size := size, IsDir := false, MTime := ⟨0, 0⟩, MTimeDefined := false,
    FileToFolder := folder }

/-- A directory member (no folder). -/
def dirMember (name : String) : DbFile :=
  { name := cstr name, Size := 0, IsDir := true, MTime := ⟨0, 0⟩, MTimeDefined := false,
    FileToFolder := UINT32_MOD - 1 }

/-- Two files of two bytes each, solid-packed into folder 0. -/
def pairDb : CSzArEx := { Files := [member "a.txt" 2 0, member "b.txt" 2 0], NumFolders := 1 }

/-- A decoder for `pairDb`: folder 0 unpacks to `[10, 11, 20, 21]`; member `i`
lies at offset `2 * i` and is 2 bytes long. -/
def pairDecoder : Decoder := fun fileIndex _ _ _ _ =>
  { res := SZ_OK, blockIndex := 0, tempBuf := some [10, 11, 20, 21], outBufferSize := 4,
    offset := 2 * fileIndex, outSizeProcessed := 2 }

/-- A decoder that fails on every call before it allocates a buffer, as the SDK
does when memory runs out. -/
def failingDecoder : Decoder := fun _ blockIndex _ outBufferSize _ =>
  { res := SZ_ERROR_MEM, blockIndex := blockIndex, tempBuf := none,
    outBufferSize := outBufferSize, offset := 0, outSizeProcessed := 0 }

/-- The slot of `a.txt` in the table of `pairDb`. -/
def pairFileA : SZfile :=
  { index := 0, folder := some 0
    item := { MTime := ⟨0, 0⟩, Size := 2, IsDir := false, MTimeDefined := false }
    offset := SIZE_MOD - 1, position := 0, name := cstr "a.txt" }

/-- The slot of `b.txt` in the table of `pairDb`. -/
def pairFileB : SZfile :=
  { index := 1, folder := some 0
    item := { MTime := ⟨0, 0⟩, Size := 2, IsDir := false, MTimeDefined := false }
    offset := SIZE_MOD - 1, position := 0, name := cstr "b.txt" }

/-- The archive of `pairDb` with no handle open. -/
def pairArchive0 : SZarchive := { files := [pairFileA, pairFileB], folders := [emptyFolder] }

/-- The archive of `pairDb` with `a.txt` open. -/
def pairArchive1 : SZarchive :=
  { files := [pairFileA, pairFileB], folders := [{ emptyFolder with references := 1 }] }

/-- The archive of `pairDb` with `a.txt` and `b.txt` open. -/
def pairArchive2 : SZarchive :=
  { files := [pairFileA, pairFileB], folders := [{ emptyFolder with references := 2 }] }

/-- One file recorded with 5 bytes in folder 0. -/
def fiveDb : CSzArEx := { Files := [member "a.txt" 5 0], NumFolders := 1 }

/-- A decoder that succeeds, unpacks folder 0 to 8 bytes and reports 4 bytes for
the member, one less than `fiveDb` records. -/
def shortDecoder : Decoder := fun _ _ _ _ _ =>
  { res := SZ_OK, blockIndex := 0, tempBuf := some [1, 2, 3, 4, 5, 6, 7, 8], outBufferSize := 8,
    offset := 0, outSizeProcessed := 4 }

/-- A decoder that unpacks folder 0 to 8 bytes, finds the member's CRC wrong, and
returns `SZ_ERROR_CRC` with the buffer left allocated, as the SDK does. -/
def crcDecoder : Decoder := fun _ _ _ _ _ =>
  { res := SZ_ERROR_CRC, blockIndex := 0, tempBuf := some [1, 2, 3, 4, 5, 6, 7, 8],
    outBufferSize := 8, offset := 0, outSizeProcessed := 5 }

/-- The slot of `a.txt` in the table of `fiveDb`. -/
def fiveFile : SZfile :=
  { index := 0, folder := some 0
    item := { MTime := ⟨0, 0⟩, Size := 5, IsDir := false, MTimeDefined := false }
    offset := SIZE_MOD - 1, position := 0, name := cstr "a.txt" }

/-- The archive of `fiveDb` with `a.txt` open. -/
def fiveArchive : SZarchive :=
  { files := [fiveFile], folders := [{ emptyFolder with references := 1 }] }

/-- A directory `dir`, its file `dir/b`, and a sibling `dir.x` of the directory. -/
def siblingDb : CSzArEx :=
  { Files := [dirMember "dir", member "dir/b" 1 0, member "dir.x" 1 0], NumFolders := 1 }

/-- Two top-level files. -/
def flatDb : CSzArEx := { Files := [member "a" 1 0, member "b" 1 0], NumFolders := 1 }

/-- Two members with the same path. -/
def twinDb : CSzArEx := { Files := [member "a" 1 0, member "a" 2 0], NumFolders := 1 }

/-- A file `a` in folder 0 followed by a directory `d` that the database links to
folder 0 as well (an empty-stream member inside the run of a folder). -/
def dirInFolderDb : CSzArEx :=
  { Files := [member "a" 1 0,
              { name := cstr "d", Size := 0, IsDir := true, MTime := ⟨0, 0⟩,
                MTimeDefined := false, FileToFolder := 0 }]
    NumFolders := 1 }

/-- A decoder that runs out of input on every call, before it allocates. -/
def eofDecoder : Decoder := fun _ blockIndex _ outBufferSize _ =>
  { res := SZ_ERROR_INPUT_EOF, blockIndex := blockIndex, tempBuf := none,
    outBufferSize := outBufferSize, offset := 0, outSizeProcessed := 0 }

/-- The two files `a.txt` and `dir/b.txt` of 5 bytes each in folder 0, with no
member for the directory `dir` itself. -/
def endToEndDb : CSzArEx :=
  { Files := [member "a.txt" 5 0, member "dir/b.txt" 5 0], NumFolders := 1 }

/-- The files `a.txt` and `dir/b.txt` with a member for the directory `dir`. -/
def endToEndDirDb : CSzArEx :=
  { Files := [member "a.txt" 5 0, dirMember "dir", member "dir/b.txt" 5 0], NumFolders := 1 }

/-- The member lists made of `a.txt`, `dir/b.txt` and a directory member `dir`, in
each of the six orders. -/
def endToEndDirDbs : List CSzArEx :=
  [endToEndDirDb,
   { Files := [member "a.txt" 5 0, member "dir/b.txt" 5 0, dirMember "dir"], NumFolders := 1 },
   { Files := [dirMember "dir", member "a.txt" 5 0, member "dir/b.txt" 5 0], NumFolders := 1 },
   { Files := [dirMember "dir", member "dir/b.txt" 5 0, member "a.txt" 5 0], NumFolders := 1 },
   { Files := [member "dir/b.txt" 5 0, member "a.txt" 5 0, dirMember "dir"], NumFolders := 1 },
   { Files := [member "dir/b.txt" 5 0, dirMember "dir", member "a.txt" 5 0], NumFolders := 1 }]

/-- A callback answer that is the same for every name. -/
def always (r : PHYSFS_EnumerateCallbackResult) :
    List (List Nat) → List Nat → PHYSFS_EnumerateCallbackResult := fun _ _ => r

/-- A decoder database reader that parses every stream to `pairDb`. -/
def pairOpen : List Nat → Int × CSzArEx := fun _ => (SZ_OK, pairDb)

/-- The slot of `a.txt` of `pairDb` after the entry was read to its end. -/
def pairFileARead : SZfile := { pairFileA with offset := 0, position := 2 }

/-- The archive of `pairDb` after `a.txt` was opened and one byte of it read:
folder 0 is cached. -/
def pairArchiveCached : SZarchive :=
  { files := [{ pairFileA with offset := 0, position := 1 }, pairFileB]
    folders := [{ index := 0, references := 1, cache := some [10, 11, 20, 21], size := 4 }] }

/-- Folder 0 of `pairDb` with one handle open and nothing cached. -/
def pairFolderOpen : SZfolder := { emptyFolder with references := 1 }

/-- Result codes `SZE_*` as an SDK could define them, for examples. -/
def sampleCodes : Legacy.Codes :=
  { SZE_DATA_ERROR := 1, SZE_OUTOFMEMORY := 2, SZE_CRC_ERROR := 3, SZE_NOTIMPL := 4,
    SZE_FAIL := 5, SZE_ARCHIVE_ERROR := 6 }

/-- The FILETIME of 1970-01-01 00:00:00, `116444736000000000` ticks. -/
def unixEpoch : CNtfsFileTime := { Low := 3577643008, High := 27111902 }

/-- Open `path` for reading (allocation succeeding) and return the handle. -/
def openHandle (archive : SZarchive) (path : String) : Option (Nat × SZarchive) :=
  match SZ_openRead true archive (cstr path) with
  | some (r, archive1) =>
    match r.io with
    | some io => some (io, archive1)
    | none => none
  | none => none

/-! ## Auxiliary definitions for the proofs -/

/-- The order of the file table: `sz_file_cmp` is not positive. -/
def tableLe (a b : SZfile) : Prop := sz_file_cmp a b ≤ 0

/-- The loop test `strncmp(dname, fname, dlen) == 0`. -/
def matchesDir (dname : List Nat) (f : SZfile) : Bool :=
  decide (strncmp dname f.name dname.length = 0)

/-- The `strchr` test fails on the part of the name after `dlen_inc` bytes. -/
def isFlat (dlen_inc : Nat) (f : SZfile) : Bool :=
  decide (SLASH ∉ f.name.drop dlen_inc)

/-- The clamped request of `SZ_read`. -/
def clampedSize (file : SZfile) (len : Nat) : Nat :=
  if len % SIZE_MOD > sub64 file.item.Size file.position then
    sub64 file.item.Size file.position
  else len % SIZE_MOD

/-- The state `SZ_read` leaves whenever it calls the decoder, apart from the
position. -/
def afterExtract (archive : SZarchive) (io fi : Nat) (file : SZfile) (folder : SZfolder)
    (r : ExtractResult) (position : Nat) : SZarchive :=
  { files := archive.files.set io { file with offset := r.offset, position := position }
    folders := archive.folders.set fi
      { folder with index := r.blockIndex, cache := r.tempBuf, size := r.outBufferSize } }

/-- The folder slot after `SZ_destroy` went through it. -/
def afterDestroy (folder : SZfolder) : SZfolder :=
  if (if folder.references > 0 then folder.references - 1 else folder.references) = 0 then
    { folder with
      references := if folder.references > 0 then folder.references - 1 else folder.references
      cache := none }
  else
    { folder with
      references := if folder.references > 0 then folder.references - 1 else folder.references }

/-- Two archive states with the same folder links, items, and reference counts. -/
def sameLinks (a b : SZarchive) : Prop :=
  (∀ j : Nat, (b.files[j]?).map (fun g : SZfile => (g.folder, g.item)) =
      (a.files[j]?).map (fun g : SZfile => (g.folder, g.item))) ∧
    (∀ k : Nat, (b.folders[k]?).map SZfolder.references =
      (a.folders[k]?).map SZfolder.references)

/-- Every folder link of the file table points into the folder array. -/
def linksOk (archive : SZarchive) : Prop :=
  ∀ f ∈ archive.files, ∀ fi ∈ f.folder, fi < archive.folders.length

/-- Every folder link of the database is `(UInt32)-1` or a folder index. -/
def dbLinksOk (db : CSzArEx) : Prop :=
  ∀ m ∈ db.Files, m.FileToFolder = UINT32_MOD - 1 ∨ m.FileToFolder < db.NumFolders

/-- Every position of the file table is at most the size of its entry. -/
def positionsOk (archive : SZarchive) : Prop :=
  ∀ f ∈ archive.files, f.position ≤ f.item.Size

/-- Every open handle points to a slot of the file table that has a folder. -/
def handlesOk (s : Session) : Prop :=
  ∀ io ∈ s.handles, (linkOf s.archive io).isSome

/-- Every reference count is the number of open handles bound to the folder, and
a folder with a cache has a reference. -/
def countsOk (s : Session) : Prop :=
  ∀ fi folder, s.archive.folders[fi]? = some folder →
    folder.references = boundTo s fi ∧ (folder.cache ≠ none → 0 < folder.references)

/-- The call is not an `SZ_openRead` whose handle object cannot be allocated. -/
def allocated : Op → Bool
  | Op.openRead mallocOk _ => mallocOk
  | _ => true

/-- Every `SZ_openRead` of the sequence gets its handle object allocated. -/
def allocates (ops : List Op) : Prop :=
  ∀ op ∈ ops, allocated op = true

/-- The call is `SZ_openRead`, or is on a handle that is open. -/
def usesOpen (s : Session) : Op → Prop
  | Op.openRead _ _ => True
  | Op.read io _ => io ∈ s.handles
  | Op.seek io _ => io ∈ s.handles
  | Op.destroy io => io ∈ s.handles

/-! ## String comparison -/

theorem strcmp_self (a : List Nat) : strcmp a a = 0 := by
  induction a with
  | nil => rfl
  | cons x xs ih => simp [strcmp, ih]

theorem strcmp_values (a b : List Nat) : strcmp a b = -1 ∨ strcmp a b = 0 ∨ strcmp a b = 1 := by
  induction a generalizing b with
  | nil => cases b <;> simp [strcmp]
  | cons x xs ih =>
    cases b with
    | nil => simp [strcmp]
    | cons y ys =>
      simp only [strcmp]
      split_ifs
      · simp
      · simp
      · exact ih ys

theorem strcmp_eq_zero {a b : List Nat} (h : strcmp a b = 0) : a = b := by
  induction a generalizing b with
  | nil => cases b <;> simp_all [strcmp]
  | cons x xs ih =>
    cases b with
    | nil => simp [strcmp] at h
    | cons y ys =>
      simp only [strcmp] at h
      split_ifs at h with h1 h2
      all_goals first
        | omega
        | (have hxy : x = y := by omega
           rw [hxy, ih h])

theorem strcmp_swap (a b : List Nat) : strcmp b a = - strcmp a b := by
  induction a generalizing b with
  | nil => cases b <;> simp [strcmp]
  | cons x xs ih =>
    cases b with
    | nil => simp [strcmp]
    | cons y ys =>
      simp only [strcmp]
      split_ifs <;> first | omega | rfl | exact ih ys

theorem strcmp_trans {a b c : List Nat} (hab : strcmp a b ≤ 0) (hbc : strcmp b c ≤ 0) :
    strcmp a c ≤ 0 := by
  induction a generalizing b c with
  | nil => cases c <;> simp [strcmp]
  | cons x xs ih =>
    cases b with
    | nil => simp [strcmp] at hab
    | cons y ys =>
      cases c with
      | nil => simp [strcmp] at hbc
      | cons z zs =>
        simp only [strcmp] at hab hbc ⊢
        split_ifs at hab hbc ⊢ <;> first | omega | exact ih hab hbc

theorem strcmp_lt_of_le_of_lt {a b c : List Nat} (hab : strcmp a b ≤ 0) (hbc : strcmp b c < 0) :
    strcmp a c < 0 := by
  have h1 : strcmp a c ≤ 0 := strcmp_trans hab (le_of_lt hbc)
  rcases lt_or_eq_of_le h1 with h | h
  · exact h
  · have hac := strcmp_eq_zero h
    subst hac
    have := strcmp_swap a b
    omega

theorem strcmp_append_left (p a b : List Nat) : strcmp (p ++ a) (p ++ b) = strcmp a b := by
  induction p with
  | nil => rfl
  | cons x xs ih => simp [strcmp, ih]

theorem strcmp_le_append (d s : List Nat) : strcmp d (d ++ s) ≤ 0 := by
  have h := strcmp_append_left d [] s
  simp only [List.append_nil] at h
  rw [h]
  cases s <;> simp [strcmp]

theorem strncmp_length_eq_zero_iff (d f : List Nat) : strncmp d f d.length = 0 ↔ d <+: f := by
  induction d generalizing f with
  | nil => simp [strncmp]
  | cons x xs ih =>
    cases f with
    | nil => simp [strncmp]
    | cons y ys =>
      simp only [strncmp, List.length_cons, List.cons_prefix_cons]
      split_ifs with h1 h2
      · constructor
        · intro h; simp at h
        · intro h; have := h.1; omega
      · constructor
        · intro h; simp at h
        · intro h; have := h.1; omega
      · rw [ih ys]
        constructor
        · intro h; exact ⟨by omega, h⟩
        · intro h; exact h.2

theorem prefix_of_strcmp_between {d x s : List Nat} (h1 : strcmp d x ≤ 0)
    (h2 : strcmp x (d ++ s) ≤ 0) : d <+: x := by
  induction d generalizing x with
  | nil => exact List.nil_prefix
  | cons a as ih =>
    cases x with
    | nil => simp [strcmp] at h1
    | cons y ys =>
      simp only [strcmp, List.cons_append] at h1 h2
      rw [List.cons_prefix_cons]
      split_ifs at h1 h2 <;> first | omega | exact ⟨by omega, ih h1 h2⟩

theorem strchr_isSome_iff (s : List Nat) (c : Nat) : (strchr s c).isSome = true ↔ c ∈ s := by
  induction s with
  | nil => simp [strchr]
  | cons a as ih =>
    simp only [strchr, List.mem_cons]
    split_ifs with h
    · simp [h]
    · rw [ih]
      constructor
      · intro h'; exact Or.inr h'
      · intro h'
        rcases h' with h' | h'
        · exact absurd h'.symm h
        · exact h'

/-! ## Sorting and searching the file table -/

theorem tableLe_total (a b : SZfile) : tableLe a b ∨ tableLe b a := by
  have h := strcmp_swap a.name b.name
  unfold tableLe sz_file_cmp
  omega

theorem tableLe_trans (a b c : SZfile) (hab : tableLe a b) (hbc : tableLe b c) : tableLe a c :=
  strcmp_trans hab hbc

theorem PHYSFS_sort_perm (l : List SZfile) : (__PHYSFS_sort sz_file_cmp l).Perm l :=
  List.perm_insertionSort _ l

theorem PHYSFS_sort_sorted (l : List SZfile) :
    (__PHYSFS_sort sz_file_cmp l).Pairwise tableLe := by
  haveI : IsTotal SZfile (fun a b => sz_file_cmp a b ≤ 0) := ⟨tableLe_total⟩
  haveI : IsTrans SZfile (fun a b => sz_file_cmp a b ≤ 0) := ⟨tableLe_trans⟩
  exact List.sorted_insertionSort (fun a b => sz_file_cmp a b ≤ 0) l

theorem bsearchLoop_sound {κ α : Type} (key : κ) (base : List α) (compar : κ → α → Int)
    (fuel lo hi p : Nat) (h : bsearchLoop key base compar fuel lo hi = some p) :
    ∃ x, base[p]? = some x ∧ compar key x = 0 := by
  induction fuel generalizing lo hi with
  | zero => simp [bsearchLoop] at h
  | succ n ih =>
    simp only [bsearchLoop] at h
    split_ifs at h with hlt
    split at h
    · simp at h
    · rename_i x hx
      split_ifs at h with h1 h2
      · exact ih _ _ h
      · exact ih _ _ h
      · simp only [Option.some.injEq] at h
        subst h
        exact ⟨x, hx, by omega⟩

theorem bsearchLoop_complete (files : List SZfile) (hs : files.Pairwise tableLe)
    (key : List Nat) (q : Nat) (f : SZfile) (hq : files[q]? = some f) (hname : f.name = key)
    (fuel lo hi : Nat) (hlo : lo ≤ q) (hhi : q < hi) (hlen : hi ≤ files.length)
    (hfuel : hi - lo < fuel) :
    ∃ p, bsearchLoop key files sz_file_cmp_stdlib fuel lo hi = some p := by
  induction fuel generalizing lo hi with
  | zero => omega
  | succ n ih =>
    simp only [bsearchLoop]
    have hlt : lo < hi := by omega
    rw [if_pos hlt]
    have hidx : (lo + hi) / 2 < files.length := by omega
    have hqlt : q < files.length := by omega
    have hqe : files[q] = f := by
      rw [List.getElem?_eq_getElem hqlt] at hq
      exact Option.some.inj hq
    rw [List.getElem?_eq_getElem hidx]
    simp only
    have hpw := List.pairwise_iff_getElem.mp hs
    split_ifs with h1 h2
    · apply ih
      · exact hlo
      · by_contra hcon
        have hle : (lo + hi) / 2 ≤ q := by omega
        rcases Nat.lt_or_eq_of_le hle with hl | he
        · have := hpw _ _ hidx hqlt hl
          rw [hqe] at this
          unfold tableLe sz_file_cmp at this
          unfold sz_file_cmp_stdlib at h1
          rw [hname] at this
          have hsw := strcmp_swap key (files[(lo + hi) / 2]).name
          omega
        · unfold sz_file_cmp_stdlib at h1
          have : files[(lo + hi) / 2] = f := by
            rw [← hqe]; congr 1
          rw [this, hname, strcmp_self] at h1
          omega
      · omega
      · omega
    · apply ih
      · by_contra hcon
        have hle : q ≤ (lo + hi) / 2 := by omega
        rcases Nat.lt_or_eq_of_le hle with hl | he
        · have := hpw _ _ hqlt hidx hl
          rw [hqe] at this
          unfold tableLe sz_file_cmp at this
          unfold sz_file_cmp_stdlib at h2
          rw [hname] at this
          omega
        · unfold sz_file_cmp_stdlib at h2
          have : files[(lo + hi) / 2] = f := by
            rw [← hqe]; congr 1; exact he.symm
          rw [this, hname, strcmp_self] at h2
          omega
      · exact hhi
      · exact hlen
      · omega
    · exact ⟨_, rfl⟩

theorem sz_find_file_sound (archive : SZarchive) (name : List Nat) (p : Nat)
    (h : sz_find_file archive name = some p) :
    ∃ f, archive.files[p]? = some f ∧ f.name = name := by
  obtain ⟨x, hx, hc⟩ := bsearchLoop_sound _ _ _ _ _ _ _ h
  exact ⟨x, hx, (strcmp_eq_zero hc).symm⟩

theorem sz_find_file_complete (archive : SZarchive) (hs : archive.files.Pairwise tableLe)
    (f : SZfile) (hf : f ∈ archive.files) :
    ∃ p g, sz_find_file archive f.name = some p ∧ archive.files[p]? = some g ∧
      g.name = f.name := by
  obtain ⟨q, hq⟩ := List.getElem?_of_mem hf
  have hqlt : q < archive.files.length := by
    by_contra hcon
    rw [List.getElem?_eq_none (by omega)] at hq
    simp at hq
  obtain ⟨p, hp⟩ := bsearchLoop_complete archive.files hs f.name q f hq rfl
    (archive.files.length + 1) 0 archive.files.length (by omega) hqlt (le_refl _) (by omega)
  obtain ⟨g, hg, hgn⟩ := sz_find_file_sound archive f.name p hp
  exact ⟨p, g, hp, hg, hgn⟩

/-! ## Index construction -/

theorem sz_file_init_name (db : CSzArEx) (i : Nat) :
    (sz_file_init db i).map SZfile.name = (db.Files[i]?).map DbFile.name := by
  unfold sz_file_init
  cases db.Files[i]? <;> rfl

theorem sz_file_init_isSome (db : CSzArEx) (i : Nat) (hi : i < db.Files.length) :
    ∃ f, sz_file_init db i = some f := by
  unfold sz_file_init
  rw [List.getElem?_eq_getElem hi]
  exact ⟨_, rfl⟩

theorem sz_files_init_loop_range (db : CSzArEx) (k s : Nat) (h : s + k ≤ db.Files.length) :
    ∃ fs, sz_files_init_loop db (List.range' s k) = some fs ∧ fs.length = k ∧
      ∀ j, j < k → fs[j]? = sz_file_init db (s + j) := by
  induction k generalizing s with
  | zero => exact ⟨[], rfl, rfl, fun j hj => absurd hj (Nat.not_lt_zero j)⟩
  | succ n ih =>
    obtain ⟨f, hf⟩ := sz_file_init_isSome db s (by omega)
    obtain ⟨fs, hfs, hlen, hget⟩ := ih (s + 1) (by omega)
    refine ⟨f :: fs, ?_, by simp [hlen], ?_⟩
    · simp only [List.range', sz_files_init_loop, hf, hfs]
    · intro j hj
      cases j with
      | zero => simpa using hf.symm
      | succ m =>
        have := hget m (by omega)
        simp only [List.getElem?_cons_succ]
        rw [this]
        congr 1
        omega

/-- The table after `sz_files_init`: a sorted rearrangement of the initialised
slots, slot `j` being `sz_file_init db j`. -/
theorem sz_files_init_table (db : CSzArEx) (archive0 : SZarchive) :
    ∃ archive fs, sz_files_init db archive0 = some archive ∧
      archive.folders = archive0.folders ∧
      archive.files.Perm fs ∧ archive.files.Pairwise tableLe ∧
      fs.length = db.Files.length ∧
      (∀ j, j < db.Files.length → fs[j]? = sz_file_init db j) ∧
      fs.map SZfile.name = db.Files.map DbFile.name := by
  obtain ⟨fs, hfs, hlen, hget⟩ :=
    sz_files_init_loop_range db db.Files.length 0 (by omega)
  rw [← List.range_eq_range'] at hfs
  refine ⟨{ archive0 with files := __PHYSFS_sort sz_file_cmp fs }, fs, ?_, rfl,
    PHYSFS_sort_perm fs, PHYSFS_sort_sorted fs, hlen, ?_, ?_⟩
  · simp only [sz_files_init, hfs]
  · intro j hj
    have := hget j hj
    simpa using this
  · apply List.ext_getElem?
    intro j
    simp only [List.getElem?_map]
    by_cases hj : j < db.Files.length
    · have := hget j hj
      simp only [Nat.zero_add] at this
      rw [this, sz_file_init_name]
    · rw [List.getElem?_eq_none (by omega), List.getElem?_eq_none (by omega)]
      rfl

theorem eq_of_name_eq {l : List SZfile} (hnd : (l.map SZfile.name).Nodup) {f g : SZfile}
    (hf : f ∈ l) (hg : g ∈ l) (h : f.name = g.name) : f = g :=
  List.inj_on_of_nodup_map hnd hf hg h

/-- C6 (amended): for every member list with pairwise distinct paths and every
member `i` of it, after `sz_files_init` the lookup `sz_find_file` of the path of
that member returns the table slot holding exactly the entry initialised for
member `i` (its archive index, item and folder link). -/
theorem sz_files_init_lookup (db : CSzArEx) (archive0 : SZarchive)
    (hnodup : (db.Files.map DbFile.name).Nodup) (i : Nat) (hi : i < db.Files.length) :
    ∃ archive e p, sz_files_init db archive0 = some archive ∧ sz_file_init db i = some e ∧
      sz_find_file archive e.name = some p ∧ archive.files[p]? = some e := by
  obtain ⟨archive, fs, hinit, _, hperm, hsorted, _, hget, hnames⟩ :=
    sz_files_init_table db archive0
  obtain ⟨e, he⟩ := sz_file_init_isSome db i hi
  have hefs : e ∈ fs := List.getElem?_mem ((hget i hi).trans he)
  have hemem : e ∈ archive.files := hperm.symm.subset hefs
  obtain ⟨p, g, hp, hg, hgn⟩ := sz_find_file_complete archive hsorted e hemem
  have hnd : (archive.files.map SZfile.name).Nodup := by
    rw [(hperm.map SZfile.name).nodup_iff, hnames]
    exact hnodup
  have hge : g = e := eq_of_name_eq hnd (List.getElem?_mem hg) hemem hgn
  exact ⟨archive, e, p, hinit, he, hp, hge ▸ hg⟩

/-! ## The enumeration loop -/

theorem doEnumCallback_visitor (answer : List (List Nat) → List Nat → PHYSFS_EnumerateCallbackResult)
    (seen : List (List Nat)) (str : List Nat) :
    doEnumCallback allocOk (visitor answer) seen str (strlen str) =
      (answer seen str, seen ++ [str]) := by
  simp [doEnumCallback, allocOk, visitor, strlen]

theorem SZ_enumerateFiles_loop_trace
    (answer : List (List Nat) → List Nat → PHYSFS_EnumerateCallbackResult)
    (dname : List Nat) (dlen_inc : Nat) (L : List SZfile)
    (hL : ∀ f ∈ L, matchesDir dname f = true → dlen_inc ≤ f.name.length)
    (retval : PHYSFS_EnumerateCallbackResult) (err : Option PHYSFS_ErrorCode)
    (seen : List (List Nat)) :
    ∃ r e, SZ_enumerateFiles_loop allocOk dname dname.length dlen_inc (visitor answer) L
        retval err seen =
      some ⟨r, e, seen ++ (((L.takeWhile (matchesDir dname)).filter (isFlat dlen_inc)).map
        (fun f => f.name.drop dlen_inc))⟩ := by
  induction L generalizing retval err seen with
  | nil => exact ⟨retval, err, by simp [SZ_enumerateFiles_loop]⟩
  | cons f rest ih =>
    have hrest : ∀ g ∈ rest, matchesDir dname g = true → dlen_inc ≤ g.name.length :=
      fun g hg => hL g (List.mem_cons_of_mem _ hg)
    simp only [SZ_enumerateFiles_loop, strlen]
    by_cases hm : strncmp dname f.name dname.length = 0
    · have hmd : matchesDir dname f = true := by simp [matchesDir, hm]
      have hlen := hL f (List.mem_cons_self _ _) hmd
      rw [if_neg (by simpa using hm), if_neg (by omega)]
      rw [List.takeWhile_cons_of_pos hmd]
      by_cases hs : SLASH ∈ f.name.drop dlen_inc
      · rw [if_pos ((strchr_isSome_iff _ _).mpr hs)]
        have hflat : isFlat dlen_inc f = false := by simp [isFlat, hs]
        rw [List.filter_cons_of_neg (by simp [hflat])]
        exact ih hrest retval err seen
      · rw [if_neg (by rw [strchr_isSome_iff]; exact hs)]
        have hflat : isFlat dlen_inc f = true := by simp [isFlat, hs]
        rw [List.filter_cons_of_pos hflat]
        have hcb := doEnumCallback_visitor answer seen (f.name.drop dlen_inc)
        simp only [strlen] at hcb
        simp only [hcb]
        obtain ⟨r, e, hre⟩ := ih hrest (answer seen (f.name.drop dlen_inc))
          (if answer seen (f.name.drop dlen_inc) = PHYSFS_ENUM_ERROR
            then some PHYSFS_ERR_APP_CALLBACK else err) (seen ++ [f.name.drop dlen_inc])
        refine ⟨r, e, ?_⟩
        rw [hre]
        simp
    · have hmd : matchesDir dname f = false := by simp [matchesDir, hm]
      rw [if_pos (by simpa using hm)]
      rw [List.takeWhile_cons_of_neg (by simp [hmd])]
      exact ⟨retval, err, by simp⟩

theorem SZ_enumerateFiles_loop_ok (dname : List Nat) (dlen_inc : Nat) (L : List SZfile)
    (hL : ∀ f ∈ L, matchesDir dname f = true → dlen_inc ≤ f.name.length)
    (seen : List (List Nat)) :
    SZ_enumerateFiles_loop allocOk dname dname.length dlen_inc
        (visitor (fun _ _ => PHYSFS_ENUM_OK)) L PHYSFS_ENUM_OK none seen =
      some ⟨PHYSFS_ENUM_OK, none,
        seen ++ (((L.takeWhile (matchesDir dname)).filter (isFlat dlen_inc)).map
          (fun f => f.name.drop dlen_inc))⟩ := by
  induction L generalizing seen with
  | nil => simp [SZ_enumerateFiles_loop]
  | cons f rest ih =>
    have hrest : ∀ g ∈ rest, matchesDir dname g = true → dlen_inc ≤ g.name.length :=
      fun g hg => hL g (List.mem_cons_of_mem _ hg)
    simp only [SZ_enumerateFiles_loop, strlen]
    by_cases hm : strncmp dname f.name dname.length = 0
    · have hmd : matchesDir dname f = true := by simp [matchesDir, hm]
      have hlen := hL f (List.mem_cons_self _ _) hmd
      rw [if_neg (by simpa using hm), if_neg (by omega)]
      rw [List.takeWhile_cons_of_pos hmd]
      by_cases hs : SLASH ∈ f.name.drop dlen_inc
      · rw [if_pos ((strchr_isSome_iff _ _).mpr hs)]
        have hflat : isFlat dlen_inc f = false := by simp [isFlat, hs]
        rw [List.filter_cons_of_neg (by simp [hflat])]
        exact ih hrest seen
      · rw [if_neg (by rw [strchr_isSome_iff]; exact hs)]
        have hflat : isFlat dlen_inc f = true := by simp [isFlat, hs]
        rw [List.filter_cons_of_pos hflat]
        have hcb := doEnumCallback_visitor (fun _ _ => PHYSFS_ENUM_OK) seen
          (f.name.drop dlen_inc)
        simp only [strlen] at hcb
        simp only [hcb, reduceCtorEq, if_false]
        rw [ih hrest]
        simp
    · have hmd : matchesDir dname f = false := by simp [matchesDir, hm]
      rw [if_pos (by simpa using hm)]
      rw [List.takeWhile_cons_of_neg (by simp [hmd])]
      simp

theorem table_strict {l : List SZfile} (hs : l.Pairwise tableLe)
    (hnd : (l.map SZfile.name).Nodup) :
    l.Pairwise (fun a b => strcmp a.name b.name < 0) := by
  have hne : l.Pairwise (fun a b => a.name ≠ b.name) := by
    unfold List.Nodup at hnd
    exact List.pairwise_map.mp hnd
  refine (hs.and hne).imp ?_
  intro a b hab
  obtain ⟨h1, h2⟩ := hab
  unfold tableLe sz_file_cmp at h1
  rcases lt_or_eq_of_le h1 with h | h
  · exact h
  · exact absurd (strcmp_eq_zero h) h2

theorem matchesDir_iff (dname : List Nat) (f : SZfile) :
    matchesDir dname f = true ↔ dname <+: f.name := by
  unfold matchesDir
  rw [decide_eq_true_iff, strncmp_length_eq_zero_iff]

/-- C9: enumerating the root directory `""` of any constructed index hands the
callback, whatever it answers, exactly the paths that contain no `'/'`, one call
per such entry in table order (the whole path as the name), scanning the whole
table; the names arrive in sorted order. -/
theorem SZ_enumerateFiles_root (db : CSzArEx) (archive0 : SZarchive)
    (answer : List (List Nat) → List Nat → PHYSFS_EnumerateCallbackResult) :
    ∃ archive retval, sz_files_init db archive0 = some archive ∧
      enumerate archive [] answer =
        some (retval,
          (archive.files.filter (fun f => decide (SLASH ∉ f.name))).map SZfile.name) ∧
      ((archive.files.filter (fun f => decide (SLASH ∉ f.name))).map SZfile.name).Pairwise
        (fun x y => strcmp x y ≤ 0) := by
  obtain ⟨archive, fs, hinit, _, _, hsorted, _, _, _⟩ := sz_files_init_table db archive0
  obtain ⟨r, e, hloop⟩ := SZ_enumerateFiles_loop_trace answer [] 0 archive.files
    (fun f _ _ => Nat.zero_le _) PHYSFS_ENUM_OK none []
  refine ⟨archive, r, hinit, ?_, ?_⟩
  · have htw : archive.files.takeWhile (matchesDir []) = archive.files := by
      rw [List.takeWhile_eq_self_iff]
      intro f _
      simp [matchesDir, strncmp]
    have hfl : isFlat 0 = fun f => decide (SLASH ∉ f.name) := by
      funext f
      simp [isFlat]
    simp only [enumerate, SZ_enumerateFiles, strlen, List.length_nil, lt_self_iff_false,
      if_false, ne_eq, not_true_eq_false, List.drop_zero, Nat.add_zero]
    simp only [List.length_nil] at hloop
    rw [hloop, htw, hfl]
    simp
  · rw [List.pairwise_map]
    exact hsorted.filter _

theorem drop_of_child {dname name : List Nat} :
    (dname ++ SLASH :: name).drop (dname.length + 1) = name := by
  have h : dname ++ SLASH :: name = (dname ++ [SLASH]) ++ name := by simp
  rw [h, List.drop_left' (by simp)]

/-- C8: in an index built from members with pairwise distinct paths, enumerating
a non-empty directory path that is in the index, with a callback that always
answers OK, makes one callback call per entry of a sublist `vis` of the table
(bare name, table order); every direct child `dname/name` is in `vis` exactly
once, no entry with a further `'/'` in its tail is in `vis`, and the direct
children are visited in ascending order of their names. -/
theorem SZ_enumerateFiles_children (db : CSzArEx) (archive0 : SZarchive)
    (hnodup : (db.Files.map DbFile.name).Nodup) (dname : List Nat) (hne : dname ≠ [])
    (hpresent : dname ∈ db.Files.map DbFile.name) :
    ∃ (archive : SZarchive) (vis : List SZfile), sz_files_init db archive0 = some archive ∧
      enumerate archive dname (fun _ _ => PHYSFS_ENUM_OK) =
        some (PHYSFS_ENUM_OK, vis.map (fun f => f.name.drop (dname.length + 1))) ∧
      vis.Sublist archive.files ∧
      (∀ f ∈ archive.files, ∀ name, f.name = dname ++ SLASH :: name → SLASH ∉ name →
        vis.count f = 1) ∧
      (∀ f ∈ archive.files, ∀ tail, f.name = dname ++ SLASH :: tail → SLASH ∈ tail →
        f ∉ vis) ∧
      ((vis.filter (fun f => decide (dname ++ [SLASH] <+: f.name))).map
        (fun f => f.name.drop (dname.length + 1))).Pairwise (fun x y => strcmp x y < 0) := by
  obtain ⟨archive, fs, hinit, _, hperm, hsorted, _, _, hnames⟩ :=
    sz_files_init_table db archive0
  have hnd : (archive.files.map SZfile.name).Nodup := by
    rw [(hperm.map SZfile.name).nodup_iff, hnames]
    exact hnodup
  have hfnd : archive.files.Nodup := List.Nodup.of_map _ hnd
  have hstrict := table_strict hsorted hnd
  -- the directory entry and its position
  have hd : ∃ d ∈ archive.files, d.name = dname := by
    rw [← hnames] at hpresent
    obtain ⟨d, hdm, hdn⟩ := List.mem_map.mp hpresent
    exact ⟨d, hperm.symm.subset hdm, hdn⟩
  obtain ⟨d, hdm, hdn⟩ := hd
  obtain ⟨p, g, hp, hg, hgn⟩ := sz_find_file_complete archive hsorted d hdm
  rw [hdn] at hp hgn
  have hplt : p < archive.files.length := by
    by_contra hcon
    rw [List.getElem?_eq_none (by omega)] at hg
    simp at hg
  have hsplit : archive.files = archive.files.take p ++ g :: archive.files.drop (p + 1) := by
    have hge : archive.files[p] = g := by
      rw [List.getElem?_eq_getElem hplt] at hg
      exact Option.some.inj hg
    rw [← hge]
    simp
  have hpw : (archive.files.take p ++ g :: archive.files.drop (p + 1)).Pairwise
      (fun a b => strcmp a.name b.name < 0) := by
    rw [← hsplit]; exact hstrict
  rw [List.pairwise_append] at hpw
  obtain ⟨_, hpw2, hpw3⟩ := hpw
  rw [List.pairwise_cons] at hpw2
  obtain ⟨hgafter, hdroppw⟩ := hpw2
  have hlen1 : ∀ f ∈ archive.files.drop (p + 1), matchesDir dname f = true →
      dname.length + 1 ≤ f.name.length := by
    intro f hf hm
    have hpre := (matchesDir_iff dname f).mp hm
    have hlt := hgafter f hf
    rw [hgn] at hlt
    have hle := hpre.length_le
    by_contra hcon
    have heq : dname = f.name := hpre.eq_of_length (by omega)
    rw [← heq, strcmp_self] at hlt
    omega
  refine ⟨archive,
    ((archive.files.drop (p + 1)).takeWhile (matchesDir dname)).filter
      (isFlat (dname.length + 1)), hinit, ?_, ?_, ?_, ?_, ?_⟩
  · have hl0 : dname.length ≠ 0 := by
      intro h
      exact hne (List.length_eq_zero.mp h)
    have hloop := SZ_enumerateFiles_loop_ok dname (dname.length + 1)
      (archive.files.drop (p + 1)) hlen1 []
    simp only [enumerate, SZ_enumerateFiles, strlen, hp, if_pos hl0,
      if_pos (Nat.pos_of_ne_zero hl0)]
    rw [hloop]
    simp
  · exact (List.filter_sublist _).trans
      ((List.takeWhile_sublist _).trans (List.drop_sublist _ _))
  · intro f hf name hname hflat
    have hvisnd : (((archive.files.drop (p + 1)).takeWhile (matchesDir dname)).filter
        (isFlat (dname.length + 1))).Nodup :=
      hfnd.sublist ((List.filter_sublist _).trans
        ((List.takeWhile_sublist _).trans (List.drop_sublist _ _)))
    apply List.count_eq_one_of_mem hvisnd
    rw [List.mem_filter]
    have hfpre : dname <+: f.name := ⟨SLASH :: name, hname.symm⟩
    have hdlt : strcmp dname f.name < 0 := by
      have h1 := strcmp_le_append dname (SLASH :: name)
      rw [← hname] at h1
      rcases lt_or_eq_of_le h1 with h | h
      · exact h
      · have := strcmp_eq_zero h
        rw [hname] at this
        have hl := congrArg List.length this
        simp at hl
    constructor
    · -- f lies in the scanned window
      rw [hsplit] at hf
      rcases List.mem_append.mp hf with hf1 | hf2
      · have := hpw3 f hf1 g (List.mem_cons_self _ _)
        rw [hgn] at this
        have hsw := strcmp_swap dname f.name
        omega
      · rcases List.mem_cons.mp hf2 with hf3 | hf4
        · rw [hf3, hgn, strcmp_self] at hdlt
          omega
        · obtain ⟨l1, l2, hl⟩ := List.append_of_mem hf4
          rw [hl]
          have hl1 : ∀ x ∈ l1, matchesDir dname x = true := by
            intro x hx
            rw [matchesDir_iff]
            have hgx : strcmp g.name x.name < 0 :=
              hgafter x (by rw [hl]; exact List.mem_append_left _ hx)
            rw [hgn] at hgx
            have hxf : strcmp x.name f.name < 0 := by
              rw [hl, List.pairwise_append] at hdroppw
              exact hdroppw.2.2 x hx f (List.mem_cons_self _ _)
            rw [hname] at hxf
            exact prefix_of_strcmp_between (le_of_lt hgx) (le_of_lt hxf)
          rw [List.takeWhile_append_of_pos hl1,
            List.takeWhile_cons_of_pos ((matchesDir_iff dname f).mpr hfpre)]
          exact List.mem_append_right _ (List.mem_cons_self _ _)
    · simp only [isFlat, decide_eq_true_eq]
      rw [hname, drop_of_child]
      exact hflat
  · intro f _ tail hname hdeep hvis
    rw [List.mem_filter] at hvis
    have h2 := hvis.2
    simp only [isFlat, decide_eq_true_eq] at h2
    rw [hname, drop_of_child] at h2
    exact h2 hdeep
  · rw [List.pairwise_map]
    have hvs : (((archive.files.drop (p + 1)).takeWhile (matchesDir dname)).filter
        (isFlat (dname.length + 1))).Pairwise (fun a b => strcmp a.name b.name < 0) :=
      hstrict.sublist ((List.filter_sublist _).trans
        ((List.takeWhile_sublist _).trans (List.drop_sublist _ _)))
    rw [List.pairwise_filter]
    refine hvs.imp ?_
    intro a b hab ha hb
    have ha' : dname ++ [SLASH] <+: a.name := by simpa using ha
    have hb' : dname ++ [SLASH] <+: b.name := by simpa using hb
    obtain ⟨ta, hta⟩ := ha'
    obtain ⟨tb, htb⟩ := hb'
    rw [← hta, ← htb] at hab ⊢
    rw [strcmp_append_left] at hab
    rw [List.drop_left' (by simp), List.drop_left' (by simp)]
    exact hab

/-! ## Single steps of `SZ_read` -/

theorem SZ_read_zero (extract : Decoder) (archive : SZarchive) (io len : Nat) (file : SZfile)
    (hfile : archive.files[io]? = some file) (hlen : len % SIZE_MOD = 0) :
    SZ_read extract archive io len =
      some ({ ret := 0, err := none, outBuf := OutBuf.untouched, extracted := false },
        archive) := by
  simp [SZ_read, hfile, hlen]

theorem SZ_read_eof (extract : Decoder) (archive : SZarchive) (io len : Nat) (file : SZfile)
    (hfile : archive.files[io]? = some file) (hlen : len % SIZE_MOD ≠ 0)
    (hrem : sub64 file.item.Size file.position = 0) :
    SZ_read extract archive io len =
      some ({ ret := 0, err := some PHYSFS_ERR_PAST_EOF, outBuf := OutBuf.untouched,
              extracted := false }, archive) := by
  simp [SZ_read, hfile, hlen, hrem]

theorem sz_err_ok : sz_err SZ_OK = (none, SZ_OK) := rfl

theorem SZ_read_effective (extract : Decoder) (archive : SZarchive) (io len fi : Nat)
    (file : SZfile) (folder : SZfolder)
    (hfile : archive.files[io]? = some file) (hfolder : file.folder = some fi)
    (hfo : archive.folders[fi]? = some folder)
    (hlen : len % SIZE_MOD ≠ 0) (hrem : sub64 file.item.Size file.position ≠ 0) :
    SZ_read extract archive io len =
      some (SZ_read_fill extract archive io fi file folder (clampedSize file len)) := by
  unfold SZ_read clampedSize
  rw [hfile]
  simp only []
  rw [if_neg hlen, if_neg hrem, hfolder]
  simp only []
  rw [hfo]

theorem SZ_read_fill_cached (extract : Decoder) (archive : SZarchive) (io fi w : Nat)
    (file : SZfile) (folder : SZfolder) (bytes : List Nat)
    (hcache : folder.cache = some bytes) :
    SZ_read_fill extract archive io fi file folder w =
      ({ ret := toSint64 w, err := none,
         outBuf := memcpy (some bytes) ((file.offset + file.position) % SIZE_MOD) w,
         extracted := false },
       { files := archive.files.set io { file with position := (file.position + w) % SIZE_MOD }
         folders := archive.folders }) := by
  unfold SZ_read_fill
  rw [hcache]
  simp only [SZ_read_copy]

theorem SZ_read_fill_extract (extract : Decoder) (archive : SZarchive) (io fi w : Nat)
    (file : SZfile) (folder : SZfolder) (hcache : folder.cache = none) :
    ∃ res position, SZ_read_fill extract archive io fi file folder w =
      (res, afterExtract archive io fi file folder
        (extract file.index folder.index none folder.size file.offset) position) ∧
      res.extracted = true := by
  unfold SZ_read_fill
  rw [hcache]
  simp only [SZ_read_copy, afterExtract, List.set_set]
  split_ifs
  · exact ⟨_, file.position, rfl, rfl⟩
  · exact ⟨_, file.position, rfl, rfl⟩
  · exact ⟨_, file.position, rfl, rfl⟩
  · refine ⟨_, (file.position + w) % SIZE_MOD, rfl, ?_⟩
    rfl

theorem SZ_read_fill_ok (extract : Decoder) (archive : SZarchive) (io fi w : Nat)
    (file : SZfile) (folder : SZfolder) (hcache : folder.cache = none)
    (hok : (extract file.index folder.index none folder.size file.offset).res = SZ_OK)
    (hsize : (extract file.index folder.index none folder.size file.offset).outSizeProcessed =
      file.item.Size)
    (hfit : w ≤ file.item.Size) :
    SZ_read_fill extract archive io fi file folder w =
      ({ ret := toSint64 w, err := none,
         outBuf := memcpy (extract file.index folder.index none folder.size file.offset).tempBuf
           (((extract file.index folder.index none folder.size file.offset).offset +
             file.position) % SIZE_MOD) w,
         extracted := true },
       afterExtract archive io fi file folder
         (extract file.index folder.index none folder.size file.offset)
         ((file.position + w) % SIZE_MOD)) := by
  unfold SZ_read_fill
  rw [hcache]
  simp only [SZ_read_copy, afterExtract, hok, hsize, sz_err_ok, List.set_set]
  simp only [ne_eq, not_true_eq_false, if_false]
  rw [if_neg (by omega)]

theorem SZ_read_fill_mismatch (extract : Decoder) (archive : SZarchive) (io fi w : Nat)
    (file : SZfile) (folder : SZfolder) (hcache : folder.cache = none)
    (hok : (extract file.index folder.index none folder.size file.offset).res = SZ_OK)
    (hsize : (extract file.index folder.index none folder.size file.offset).outSizeProcessed ≠
      file.item.Size) :
    SZ_read_fill extract archive io fi file folder w =
      ({ ret := -1, err := some PHYSFS_ERR_OTHER_ERROR, outBuf := OutBuf.untouched,
         extracted := true },
       afterExtract archive io fi file folder
         (extract file.index folder.index none folder.size file.offset) file.position) := by
  unfold SZ_read_fill
  rw [hcache]
  simp only [afterExtract, hok, sz_err_ok]
  simp only [ne_eq, not_true_eq_false, if_false]
  split_ifs with h1 h2
  · rfl
  · exact absurd h2.symm hsize
  · rfl

/-! ## What a read leaves unchanged -/

theorem sameLinks_refl (a : SZarchive) : sameLinks a a := ⟨fun _ => rfl, fun _ => rfl⟩

theorem sameLinks_trans {a b c : SZarchive} (h1 : sameLinks a b) (h2 : sameLinks b c) :
    sameLinks a c :=
  ⟨fun j => (h2.1 j).trans (h1.1 j), fun k => (h2.2 k).trans (h1.2 k)⟩

theorem map_getElem?_set {α β : Type} (l : List α) (i : Nat) (x y : α) (f : α → β)
    (h : l[i]? = some x) (hxy : f y = f x) (j : Nat) :
    ((l.set i y)[j]?).map f = (l[j]?).map f := by
  rw [List.getElem?_set]
  split_ifs with h1 h2
  · rw [← h1, h]; simp [hxy]
  · rw [← h1, h]
    have : l[i]? = none := List.getElem?_eq_none (by omega)
    rw [h] at this
    simp at this
  · rfl

theorem lt_length_of_getElem? {α : Type} {l : List α} {i : Nat} {x : α}
    (h : l[i]? = some x) : i < l.length := by
  by_contra hcon
  rw [List.getElem?_eq_none (by omega)] at h
  simp at h

/-- Effect of one `SZ_read` on a handle whose folder link is valid. -/
theorem SZ_read_frame (extract : Decoder) (archive : SZarchive) (io len fi : Nat)
    (file : SZfile) (folder : SZfolder)
    (hfile : archive.files[io]? = some file) (hfolder : file.folder = some fi)
    (hfo : archive.folders[fi]? = some folder) :
    ∃ r archive1, SZ_read extract archive io len = some (r, archive1) ∧
      sameLinks archive archive1 ∧
      (∀ (k : Nat) (fo : SZfolder), archive.folders[k]? = some fo → fo.cache ≠ none →
        archive1.folders[k]? = some fo) ∧
      (r.extracted = true ↔
        (len % SIZE_MOD ≠ 0 ∧ sub64 file.item.Size file.position ≠ 0 ∧ folder.cache = none)) ∧
      (r.extracted = true → (archive1.folders[fi]?).map SZfolder.cache =
        some (extract file.index folder.index none folder.size file.offset).tempBuf) ∧
      (r.extracted = false → folder.cache = none → archive1 = archive) := by
  by_cases hlen : len % SIZE_MOD = 0
  · refine ⟨_, _, SZ_read_zero extract archive io len file hfile hlen, sameLinks_refl _,
      fun k fo h _ => h, ?_, ?_, fun _ _ => rfl⟩
    · simp [hlen]
    · intro h; simp at h
  by_cases hrem : sub64 file.item.Size file.position = 0
  · refine ⟨_, _, SZ_read_eof extract archive io len file hfile hlen hrem, sameLinks_refl _,
      fun k fo h _ => h, ?_, ?_, fun _ _ => rfl⟩
    · simp [hrem]
    · intro h; simp at h
  have heff := SZ_read_effective extract archive io len fi file folder hfile hfolder hfo hlen hrem
  cases hcache : folder.cache with
  | some bytes =>
    rw [SZ_read_fill_cached extract archive io fi _ file folder bytes hcache] at heff
    refine ⟨_, _, heff, ?_, fun k fo h _ => h, ?_, ?_, ?_⟩
    · exact ⟨fun j => map_getElem?_set _ _ _ _ _ hfile (by rfl) j, fun _ => rfl⟩
    · simp
    · intro h; simp at h
    · intro _ h; simp at h
  | none =>
    obtain ⟨res, position, hfill, hext⟩ :=
      SZ_read_fill_extract extract archive io fi (clampedSize file len) file folder hcache
    rw [hfill] at heff
    refine ⟨_, _, heff, ?_, ?_, ?_, ?_, ?_⟩
    · exact ⟨fun j => map_getElem?_set _ _ _ _ _ hfile (by rfl) j,
        fun k => map_getElem?_set _ _ _ _ _ hfo (by rfl) k⟩
    · intro k fo hk hc
      simp only [afterExtract]
      rw [List.getElem?_set_ne]
      · exact hk
      · intro hkk
        rw [← hkk, hfo] at hk
        rw [Option.some.inj hk] at hcache
        exact hc hcache
    · simp [hext, hlen, hrem]
    · intro _
      simp only [afterExtract]
      rw [List.getElem?_set_self (lt_length_of_getElem? hfo)]
      rfl
    · intro h
      rw [hext] at h
      simp at h

/-! ## Opening and closing handles -/

theorem SZ_openRead_handle (mallocOk : Bool) (archive archive1 : SZarchive) (path : List Nat)
    (io : Nat) (err : Option PHYSFS_ErrorCode)
    (h : SZ_openRead mallocOk archive path = some ({ io := some io, err := err }, archive1)) :
    ∃ file fi folder, archive.files[io]? = some file ∧ file.folder = some fi ∧
      archive.folders[fi]? = some folder ∧
      archive1 =
        { files := archive.files.set io { file with position := 0 }
          folders := archive.folders.set fi
            { folder with references := (folder.references + 1) % UINT32_MOD } } := by
  unfold SZ_openRead at h
  cases hfind : sz_find_file archive path with
  | none => rw [hfind] at h; simp at h
  | some pos =>
    rw [hfind] at h
    simp only [] at h
    cases hfile : archive.files[pos]? with
    | none => rw [hfile] at h; simp at h
    | some file =>
      rw [hfile] at h
      simp only [] at h
      cases hfolder : file.folder with
      | none => rw [hfolder] at h; simp at h
      | some fi =>
        rw [hfolder] at h
        simp only [] at h
        cases hfo : archive.folders[fi]? with
        | none => rw [hfo] at h; simp at h
        | some folder =>
          rw [hfo] at h
          simp only [] at h
          cases mallocOk with
          | false => simp at h
          | true =>
            simp only [if_true, Option.some.injEq, Prod.mk.injEq, OpenResult.mk.injEq] at h
            obtain ⟨⟨hio, _⟩, ha⟩ := h
            subst hio
            refine ⟨file, fi, folder, hfile, hfolder, hfo, ?_⟩
            rw [← ha, hfolder]

theorem SZ_destroy_folder (archive : SZarchive) (io fi : Nat) (file : SZfile)
    (folder : SZfolder) (hfile : archive.files[io]? = some file)
    (hfolder : file.folder = some fi) (hfo : archive.folders[fi]? = some folder) :
    SZ_destroy archive io =
      some { archive with folders := archive.folders.set fi (afterDestroy folder) } := by
  simp only [SZ_destroy, hfile, hfolder, hfo, afterDestroy]

/-- Closing one of two handles on a folder keeps its cache; closing the other
one frees it. -/
theorem SZ_destroy_two (archive : SZarchive) (first second fi : Nat) (g1 g2 : SZfile)
    (folder : SZfolder) (h1 : archive.files[first]? = some g1)
    (h2 : archive.files[second]? = some g2)
    (hk1 : g1.folder = some fi) (hk2 : g2.folder = some fi)
    (hfo : archive.folders[fi]? = some folder) (hrefs : folder.references = 2) :
    ∃ a4 a5, SZ_destroy archive first = some a4 ∧
      (a4.folders[fi]?).map SZfolder.cache = (archive.folders[fi]?).map SZfolder.cache ∧
      (a4.folders[fi]?).map SZfolder.references = some 1 ∧
      SZ_destroy a4 second = some a5 ∧
      (a5.folders[fi]?).map SZfolder.cache = some none ∧
      (a5.folders[fi]?).map SZfolder.references = some 0 := by
  have hlt := lt_length_of_getElem? hfo
  have hd1 := SZ_destroy_folder archive first fi g1 folder h1 hk1 hfo
  have hf1 : afterDestroy folder = { folder with references := 1 } := by
    simp [afterDestroy, hrefs]
  have hfo4 : (archive.folders.set fi (afterDestroy folder))[fi]? =
      some (afterDestroy folder) := List.getElem?_set_self hlt
  have hd2 := SZ_destroy_folder
    { archive with folders := archive.folders.set fi (afterDestroy folder) }
    second fi g2 (afterDestroy folder) h2 hk2 hfo4
  have hf2 : afterDestroy (afterDestroy folder) =
      { folder with references := 0, cache := none } := by
    rw [hf1]
    simp [afterDestroy]
  refine ⟨_, _, hd1, ?_, ?_, hd2, ?_, ?_⟩
  · simp only [hfo, hf1, List.getElem?_set_self hlt, Option.map_some']
  · simp only [hf1, List.getElem?_set_self hlt, Option.map_some']
  · simp only [List.set_set, List.getElem?_set_self hlt, hf2, Option.map_some']
  · simp only [List.set_set, List.getElem?_set_self hlt, hf2, Option.map_some']

/-! ## Sequences of reads on a shared folder -/

theorem sub64_zero (s : Nat) : sub64 s 0 = s % SIZE_MOD := by
  unfold sub64
  simp [SIZE_MOD]

theorem extractCalls_cons (r : ReadResult) (rs : List ReadResult) :
    extractCalls (r :: rs) = (if r.extracted = true then 1 else 0) + extractCalls rs := by
  unfold extractCalls
  by_cases h : r.extracted = true
  · simp [h, List.filter_cons, Nat.add_comm]
  · simp [h, List.filter_cons]

theorem sameLinks_file {a b : SZarchive} (h : sameLinks a b) {j : Nat} {g : SZfile}
    (hg : a.files[j]? = some g) :
    ∃ g', b.files[j]? = some g' ∧ g'.folder = g.folder ∧ g'.item = g.item := by
  have := h.1 j
  rw [hg] at this
  cases hb : b.files[j]? with
  | none => rw [hb] at this; simp at this
  | some g' =>
    rw [hb] at this
    simp only [Option.map_some', Option.some.injEq, Prod.mk.injEq] at this
    exact ⟨g', rfl, this.1, this.2⟩

theorem sameLinks_folder {a b : SZarchive} (h : sameLinks a b) {k : Nat} {fo : SZfolder}
    (hfo : a.folders[k]? = some fo) :
    ∃ fo', b.folders[k]? = some fo' ∧ fo'.references = fo.references := by
  have := h.2 k
  rw [hfo] at this
  cases hb : b.folders[k]? with
  | none => rw [hb] at this; simp at this
  | some fo' =>
    rw [hb] at this
    simp only [Option.map_some', Option.some.injEq] at this
    exact ⟨fo', rfl, this⟩

/-- Once the folder is cached, reads through its handles never call the decoder
and leave the folder slot as it is. -/
theorem readSeq_cached (extract : Decoder) (k : Nat) (fo : SZfolder) (hc : fo.cache ≠ none)
    (seq : List (Nat × Nat)) (a : SZarchive)
    (hvalid : ∀ op ∈ seq, ∃ g, a.files[op.1]? = some g ∧ g.folder = some k)
    (hfo : a.folders[k]? = some fo) :
    ∃ rs a', readSeq extract seq a = some (rs, a') ∧ extractCalls rs = 0 ∧ sameLinks a a' ∧
      a'.folders[k]? = some fo := by
  induction seq generalizing a with
  | nil => exact ⟨[], a, rfl, rfl, sameLinks_refl a, hfo⟩
  | cons op rest ih =>
    obtain ⟨io, len⟩ := op
    obtain ⟨g, hg, hgk⟩ := hvalid (io, len) (List.mem_cons_self _ _)
    obtain ⟨r, a1, hread, hlinks, hmono, hiff, _, _⟩ :=
      SZ_read_frame extract a io len k g fo hg hgk hfo
    have hne : r.extracted ≠ true := by
      intro h
      exact hc (hiff.mp h).2.2
    have hfo1 := hmono k fo hfo hc
    have hvalid1 : ∀ op ∈ rest, ∃ g, a1.files[op.1]? = some g ∧ g.folder = some k := by
      intro op hop
      obtain ⟨g0, hg0, hg0k⟩ := hvalid op (List.mem_cons_of_mem _ hop)
      obtain ⟨g', hg', hf', _⟩ := sameLinks_file hlinks hg0
      exact ⟨g', hg', hf'.trans hg0k⟩
    obtain ⟨rs, a', hrest, hcalls, hlinks', hfo'⟩ := ih a1 hvalid1 hfo1
    refine ⟨r :: rs, a', ?_, ?_, sameLinks_trans hlinks hlinks', hfo'⟩
    · simp only [readSeq, hread, hrest]
    · rw [extractCalls_cons, if_neg hne, hcalls]

/-- Reads through two handles on one fresh folder: the decoder is called by the
first read that asks for bytes of a non-empty entry, and by no other. -/
theorem readSeq_fresh (extract : Decoder)
    (hdec : ∀ i b t s o, (extract i b t s o).tempBuf ≠ none) (h1 h2 k s1 s2 : Nat)
    (ops : List (Bool × Nat)) (a : SZarchive)
    (hstate : ∃ g1 g2 fo, a.files[h1]? = some g1 ∧ a.files[h2]? = some g2 ∧
      g1.folder = some k ∧ g2.folder = some k ∧ g1.item.Size = s1 ∧ g2.item.Size = s2 ∧
      g1.position = 0 ∧ g2.position = 0 ∧ a.folders[k]? = some fo ∧ fo.cache = none) :
    ∃ rs a', readSeq extract (ops.map (fun op => (if op.1 then h2 else h1, op.2))) a =
        some (rs, a') ∧ sameLinks a a' ∧ extractCalls rs ≤ 1 ∧
      (extractCalls rs = 1 ↔
        ∃ op ∈ ops, op.2 % SIZE_MOD ≠ 0 ∧ (if op.1 then s2 else s1) % SIZE_MOD ≠ 0) ∧
      (extractCalls rs = 1 → ∃ fo', a'.folders[k]? = some fo' ∧ fo'.cache ≠ none) := by
  induction ops with
  | nil => exact ⟨[], a, rfl, sameLinks_refl a, by simp [extractCalls], by simp [extractCalls],
      by simp [extractCalls]⟩
  | cons op rest ih =>
    obtain ⟨b, len⟩ := op
    obtain ⟨g1, g2, fo, hg1, hg2, hk1, hk2, hs1, hs2, hp1, hp2, hfo, hcache⟩ := hstate
    have hsel : ∃ g, a.files[if b then h2 else h1]? = some g ∧ g.folder = some k ∧
        g.item.Size = (if b then s2 else s1) ∧ g.position = 0 := by
      cases b
      · exact ⟨g1, by simpa using hg1, hk1, by simpa using hs1, hp1⟩
      · exact ⟨g2, by simpa using hg2, hk2, by simpa using hs2, hp2⟩
    obtain ⟨g, hg, hgk, hgs, hgp⟩ := hsel
    obtain ⟨r, a1, hread, hlinks, hmono, hiff, hbuf, hsame⟩ :=
      SZ_read_frame extract a (if b then h2 else h1) len k g fo hg hgk hfo
    rw [hgs, hgp, sub64_zero] at hiff
    by_cases heff : len % SIZE_MOD ≠ 0 ∧ (if b then s2 else s1) % SIZE_MOD ≠ 0
    · have hext : r.extracted = true := hiff.mpr ⟨heff.1, heff.2, hcache⟩
      have hb := hbuf hext
      cases hfo1 : a1.folders[k]? with
      | none => rw [hfo1] at hb; simp at hb
      | some fo1 =>
        rw [hfo1] at hb
        simp only [Option.map_some', Option.some.injEq] at hb
        have hc1 : fo1.cache ≠ none := by
          rw [hb]; exact hdec _ _ _ _ _
        have hvalid1 : ∀ op ∈ rest.map (fun op : Bool × Nat => (if op.1 then h2 else h1, op.2)),
            ∃ g, a1.files[op.1]? = some g ∧ g.folder = some k := by
          intro op hop
          obtain ⟨op0, _, hop0⟩ := List.mem_map.mp hop
          subst hop0
          have : ∃ g0, a.files[if op0.1 then h2 else h1]? = some g0 ∧ g0.folder = some k := by
            cases op0.1
            · exact ⟨g1, by simpa using hg1, hk1⟩
            · exact ⟨g2, by simpa using hg2, hk2⟩
          obtain ⟨g0, hg0, hg0k⟩ := this
          obtain ⟨g', hg', hf', _⟩ := sameLinks_file hlinks hg0
          exact ⟨g', hg', hf'.trans hg0k⟩
        obtain ⟨rs, a', hrest, hcalls, hlinks', hfo'⟩ :=
          readSeq_cached extract k fo1 hc1 _ a1 hvalid1 hfo1
        refine ⟨r :: rs, a', ?_, sameLinks_trans hlinks hlinks', ?_, ?_, ?_⟩
        · simp only [List.map_cons, readSeq, hread, hrest]
        · rw [extractCalls_cons, if_pos hext, hcalls]
        · rw [extractCalls_cons, if_pos hext, hcalls]
          simp only [Nat.add_zero, true_iff]
          exact ⟨(b, len), List.mem_cons_self _ _, heff⟩
        · intro _
          exact ⟨fo1, hfo', hc1⟩
    · have hext : r.extracted = false := by
        cases hr : r.extracted with
        | false => rfl
        | true =>
          have := hiff.mp hr
          exact absurd ⟨this.1, this.2.1⟩ heff
      have ha1 : a1 = a := hsame hext hcache
      subst ha1
      obtain ⟨rs, a', hrest, hlinks', hle, hiff', hcached⟩ := ih
      refine ⟨r :: rs, a', ?_, hlinks', ?_, ?_, ?_⟩
      · simp only [List.map_cons, readSeq, hread, hrest]
      · rw [extractCalls_cons, hext]
        simpa using hle
      · rw [extractCalls_cons, hext]
        simp only [Bool.false_eq_true, if_false, Nat.zero_add]
        rw [hiff']
        constructor
        · rintro ⟨op, hop, h⟩
          exact ⟨op, List.mem_cons_of_mem _ hop, h⟩
        · rintro ⟨op, hop, h⟩
          rcases List.mem_cons.mp hop with hop1 | hop2
          · subst hop1
            exact absurd h heff
          · exact ⟨op, hop2, h⟩
      · rw [extractCalls_cons, hext]
        simpa using hcached

/-- C1 (amended): two handles are opened on two different entries of one folder
that has no reference and no cache before; the decoder leaves a buffer whenever
it is called.  Then over every interleaving of `SZ_read` calls on the two
handles the decoder is called at most once, and exactly once precisely when some
read asks for at least one byte of an entry of non-zero size; after that the
folder is cached, the `SZ_destroy` of either handle leaves the cache as it is,
and the `SZ_destroy` of the other handle makes it absent. -/
theorem SZ_read_shared_folder_once (extract : Decoder)
    (hdec : ∀ i b t s o, (extract i b t s o).tempBuf ≠ none)
    (a0 a1 a2 : SZarchive) (p1 p2 : List Nat) (h1 h2 k : Nat)
    (e1 e2 : Option PHYSFS_ErrorCode) (f1 f2 : SZfile) (fo : SZfolder)
    (hopen1 : SZ_openRead true a0 p1 = some ({ io := some h1, err := e1 }, a1))
    (hopen2 : SZ_openRead true a1 p2 = some ({ io := some h2, err := e2 }, a2))
    (hne : h1 ≠ h2)
    (hf1 : a0.files[h1]? = some f1) (hf2 : a0.files[h2]? = some f2)
    (hk1 : f1.folder = some k) (hk2 : f2.folder = some k)
    (hfo : a0.folders[k]? = some fo) (hrefs : fo.references = 0) (hcache : fo.cache = none)
    (ops : List (Bool × Nat)) :
    ∃ rs a3,
      readSeq extract (ops.map (fun op => (if op.1 then h2 else h1, op.2))) a2 =
        some (rs, a3) ∧
      extractCalls rs ≤ 1 ∧
      (extractCalls rs = 1 ↔
        ∃ op ∈ ops, op.2 % SIZE_MOD ≠ 0 ∧
          (if op.1 then f2.item.Size else f1.item.Size) % SIZE_MOD ≠ 0) ∧
      (extractCalls rs = 1 → ∃ fo3, a3.folders[k]? = some fo3 ∧ fo3.cache ≠ none) ∧
      ∀ first second, (first = h1 ∧ second = h2) ∨ (first = h2 ∧ second = h1) →
        ∃ a4 a5, SZ_destroy a3 first = some a4 ∧
          (a4.folders[k]?).map SZfolder.cache = (a3.folders[k]?).map SZfolder.cache ∧
          SZ_destroy a4 second = some a5 ∧
          (a5.folders[k]?).map SZfolder.cache = some none := by
  obtain ⟨file1, fi1, folder1, hfile1, hfolder1, hfo1, ha1⟩ :=
    SZ_openRead_handle true a0 a1 p1 h1 e1 hopen1
  rw [hf1] at hfile1
  have hfe1 : file1 = f1 := (Option.some.inj hfile1).symm
  subst hfe1
  rw [hk1] at hfolder1
  have hke1 : fi1 = k := (Option.some.inj hfolder1).symm
  subst hke1
  rw [hfo] at hfo1
  have hfoe1 : folder1 = fo := (Option.some.inj hfo1).symm
  subst hfoe1
  have hklt := lt_length_of_getElem? hfo
  have h1lt := lt_length_of_getElem? hf1
  have h2lt := lt_length_of_getElem? hf2
  have ha1f2 : a1.files[h2]? = some f2 := by
    rw [ha1]
    simp only []
    rw [List.getElem?_set_ne hne]
    exact hf2
  have ha1fo : a1.folders[fi1]? =
      some { folder1 with references := (folder1.references + 1) % UINT32_MOD } := by
    rw [ha1]
    exact List.getElem?_set_self hklt
  obtain ⟨file2, fi2, folder2, hfile2, hfolder2, hfo2, ha2⟩ :=
    SZ_openRead_handle true a1 a2 p2 h2 e2 hopen2
  rw [ha1f2] at hfile2
  have hfe2 : file2 = f2 := (Option.some.inj hfile2).symm
  subst hfe2
  rw [hk2] at hfolder2
  have hke2 : fi2 = fi1 := (Option.some.inj hfolder2).symm
  subst hke2
  rw [ha1fo] at hfo2
  have hfoe2 := (Option.some.inj hfo2).symm
  subst hfoe2
  have hg1 : a2.files[h1]? = some { file1 with position := 0 } := by
    rw [ha2, ha1]
    simp only []
    rw [List.getElem?_set_ne (Ne.symm hne)]
    exact List.getElem?_set_self h1lt
  have hg2 : a2.files[h2]? = some { file2 with position := 0 } := by
    rw [ha2, ha1]
    simp only []
    exact List.getElem?_set_self (by simpa using h2lt)
  have hF : ∃ fo', a2.folders[fi2]? = some fo' ∧ fo'.cache = none ∧ fo'.references = 2 := by
    rw [ha2, ha1]
    exact ⟨_, List.getElem?_set_self (by simpa using hklt), hcache,
      by simp [hrefs, UINT32_MOD]⟩
  obtain ⟨fo', hfo', hc', hr'⟩ := hF
  have hgk1 : ({ file1 with position := 0 } : SZfile).folder = some fi2 := hk1
  have hgk2 : ({ file2 with position := 0 } : SZfile).folder = some fi2 := hk2
  have hs1 : ({ file1 with position := 0 } : SZfile).item.Size = file1.item.Size := rfl
  have hs2 : ({ file2 with position := 0 } : SZfile).item.Size = file2.item.Size := rfl
  have hp1 : ({ file1 with position := 0 } : SZfile).position = 0 := rfl
  have hp2 : ({ file2 with position := 0 } : SZfile).position = 0 := rfl
  obtain ⟨rs, a3, hread, hlinks, hle, hiff, hcached⟩ :=
    readSeq_fresh extract hdec h1 h2 fi2 file1.item.Size file2.item.Size ops a2
      ⟨_, _, fo', hg1, hg2, hgk1, hgk2, hs1, hs2, hp1, hp2, hfo', hc'⟩
  refine ⟨rs, a3, hread, hle, hiff, hcached, ?_⟩
  obtain ⟨g1', hg1', hgf1, _⟩ := sameLinks_file hlinks hg1
  obtain ⟨g2', hg2', hgf2, _⟩ := sameLinks_file hlinks hg2
  obtain ⟨fo3, hfo3, hr3⟩ := sameLinks_folder hlinks hfo'
  intro first second horder
  rcases horder with ⟨hfirst, hsecond⟩ | ⟨hfirst, hsecond⟩
  · subst hfirst hsecond
    obtain ⟨a4, a5, hd1, hc4, _, hd2, hc5, _⟩ :=
      SZ_destroy_two a3 first second fi2 g1' g2' fo3 hg1' hg2' (hgf1.trans hgk1)
        (hgf2.trans hgk2) hfo3 (hr3.trans hr')
    exact ⟨a4, a5, hd1, hc4, hd2, hc5⟩
  · subst hfirst hsecond
    obtain ⟨a4, a5, hd1, hc4, _, hd2, hc5, _⟩ :=
      SZ_destroy_two a3 first second fi2 g2' g1' fo3 hg2' hg1' (hgf2.trans hgk2)
        (hgf1.trans hgk1) hfo3 (hr3.trans hr')
    exact ⟨a4, a5, hd1, hc4, hd2, hc5⟩

/-! ## Reading an entry through one handle -/

theorem sub64_of_le {a b : Nat} (hba : b ≤ a) (ha : a < SIZE_MOD) : sub64 a b = a - b := by
  unfold sub64
  rw [Nat.mod_eq_of_lt ha, Nat.mod_eq_of_lt (lt_of_le_of_lt hba ha)]
  have h : a + SIZE_MOD - b = (a - b) + SIZE_MOD := by omega
  rw [h, Nat.add_mod_right, Nat.mod_eq_of_lt (by omega)]

theorem bytesRead_cons (r : ReadResult) (rs : List ReadResult) :
    bytesRead (r :: rs) = bytesOf r ++ bytesRead rs := by
  simp [bytesRead]

theorem slice_of_block (block : List Nat) (off size pos w : Nat) (h1 : pos + w ≤ size) :
    (block.drop (off + pos)).take w = (((block.drop off).take size).drop pos).take w := by
  rw [List.drop_take, List.drop_drop, List.take_take]
  congr 1
  omega

theorem take_chunk (D : List Nat) (n s : Nat) :
    D.take (min n D.length) ++ (D.drop (min n D.length)).take s = D.take (n + s) := by
  by_cases h : n ≤ D.length
  · rw [Nat.min_eq_left h, List.take_add]
  · have hlen : D.length ≤ n := by omega
    have h1 : D.take D.length = D := List.take_of_length_le (le_refl _)
    have h2 : D.drop D.length = [] := List.drop_of_length_le (le_refl _)
    have h3 : D.take (n + s) = D := List.take_of_length_le (by omega)
    rw [Nat.min_eq_right hlen, h1, h2, h3]
    simp

theorem clampedSize_eq (file : SZfile) (n : Nat) (hn : n < SIZE_MOD)
    (hpos : file.position ≤ file.item.Size) (hsize : file.item.Size < SIZE_MOD) :
    clampedSize file n = min n (file.item.Size - file.position) := by
  unfold clampedSize
  rw [sub64_of_le hpos hsize, Nat.mod_eq_of_lt hn]
  split_ifs with h
  · omega
  · omega

/-- Reads at the end of the entry deliver nothing and change nothing. -/
theorem readSeq_at_end (extract : Decoder) (io : Nat) (lens : List Nat) (a : SZarchive)
    (file : SZfile) (hfile : a.files[io]? = some file)
    (hrem : sub64 file.item.Size file.position = 0) :
    ∃ rs, readSeq extract (lens.map (fun n => (io, n))) a = some (rs, a) ∧
      bytesRead rs = [] := by
  induction lens with
  | nil => exact ⟨[], rfl, rfl⟩
  | cons n rest ih =>
    obtain ⟨rs, hrs, hb⟩ := ih
    by_cases hn : n % SIZE_MOD = 0
    · refine ⟨{ ret := 0, err := none, outBuf := OutBuf.untouched, extracted := false } :: rs,
        ?_, ?_⟩
      · simp only [List.map_cons, readSeq, SZ_read_zero extract a io n file hfile hn, hrs]
      · rw [bytesRead_cons, hb]; rfl
    · refine ⟨{ ret := 0, err := some PHYSFS_ERR_PAST_EOF, outBuf := OutBuf.untouched,
                extracted := false } :: rs, ?_, ?_⟩
      · simp only [List.map_cons, readSeq, SZ_read_eof extract a io n file hfile hn hrem, hrs]
      · rw [bytesRead_cons, hb]; rfl

/-- Reads through a handle whose folder is cached deliver consecutive bytes of
the entry's slice of the block. -/
theorem readSeq_slice (extract : Decoder) (io fi : Nat) (block : List Nat) (off size : Nat)
    (hfit : off + size ≤ block.length) (hblk : block.length < SIZE_MOD)
    (lens : List Nat) (hlens : ∀ n ∈ lens, 0 < n ∧ n < SIZE_MOD)
    (a : SZarchive) (file : SZfile) (folder : SZfolder)
    (hfile : a.files[io]? = some file) (hfolder : file.folder = some fi)
    (hfo : a.folders[fi]? = some folder) (hcache : folder.cache = some block)
    (hoff : file.offset = off) (hsize : file.item.Size = size)
    (hpos : file.position ≤ size) :
    ∃ rs a', readSeq extract (lens.map (fun n => (io, n))) a = some (rs, a') ∧
      bytesRead rs = ((((block.drop off).take size).drop file.position).take lens.sum) := by
  induction lens generalizing a file with
  | nil => exact ⟨[], a, rfl, by simp [bytesRead]⟩
  | cons n rest ih =>
    have hn := hlens n (List.mem_cons_self _ _)
    have hrest : ∀ m ∈ rest, 0 < m ∧ m < SIZE_MOD :=
      fun m hm => hlens m (List.mem_cons_of_mem _ hm)
    have hsz : file.item.Size < SIZE_MOD := by omega
    have hnm : n % SIZE_MOD = n := Nat.mod_eq_of_lt hn.2
    have hsub : sub64 file.item.Size file.position = size - file.position := by
      rw [sub64_of_le (by omega) hsz, hsize]
    have hDlen : (((block.drop off).take size).drop file.position).length =
        size - file.position := by
      simp only [List.length_drop, List.length_take]
      omega
    by_cases hend : file.position = size
    · have hrem : sub64 file.item.Size file.position = 0 := by rw [hsub]; omega
      obtain ⟨rs, hrs, hb⟩ := readSeq_at_end extract io (n :: rest) a file hfile hrem
      refine ⟨rs, a, hrs, ?_⟩
      rw [hb, List.take_of_length_le (by omega)]
      exact (List.eq_nil_of_length_eq_zero (by omega)).symm
    · have hlen0 : n % SIZE_MOD ≠ 0 := by omega
      have hrem0 : sub64 file.item.Size file.position ≠ 0 := by rw [hsub]; omega
      have hread := SZ_read_effective extract a io n fi file folder hfile hfolder hfo hlen0 hrem0
      rw [SZ_read_fill_cached extract a io fi _ file folder block hcache] at hread
      have hw : clampedSize file n = min n (size - file.position) := by
        rw [clampedSize_eq file n hn.2 (by omega) hsz, hsize]
      have hwle : clampedSize file n ≤ size - file.position := by
        rw [hw]; exact Nat.min_le_right _ _
      have hnewpos : (file.position + clampedSize file n) % SIZE_MOD =
          file.position + clampedSize file n := Nat.mod_eq_of_lt (by omega)
      have hstart : (file.offset + file.position) % SIZE_MOD = off + file.position := by
        rw [hoff]; exact Nat.mod_eq_of_lt (by omega)
      rw [hnewpos, hstart] at hread
      obtain ⟨rs, a', hrs, hb⟩ := ih hrest
        ⟨a.files.set io { file with position := file.position + clampedSize file n }, a.folders⟩
        { file with position := file.position + clampedSize file n }
        (List.getElem?_set_self (lt_length_of_getElem? hfile)) hfolder hfo hoff hsize
        (by show file.position + clampedSize file n ≤ size; omega)
      refine ⟨{ ret := toSint64 (clampedSize file n), err := none,
                outBuf := memcpy (some block) (off + file.position) (clampedSize file n),
                extracted := false } :: rs, a', ?_, ?_⟩
      · simp only [List.map_cons, readSeq, hread, hrs]
      · rw [bytesRead_cons, hb]
        simp only [bytesOf, memcpy]
        rw [if_pos (by omega)]
        simp only [List.sum_cons]
        rw [slice_of_block block off size file.position (clampedSize file n) (by omega)]
        rw [← take_chunk _ n rest.sum, hDlen, ← hw, List.drop_drop]

/-- Reads through a fresh handle (position 0, folder not cached) against a
decoder that succeeds and reports the recorded size: the bytes delivered are the
first `lens.sum` bytes of the entry's slice of the block. -/
theorem readSeq_from_start (extract : Decoder) (io fi : Nat) (a : SZarchive) (file : SZfile)
    (folder : SZfolder) (block : List Nat)
    (hfile : a.files[io]? = some file) (hfolder : file.folder = some fi)
    (hfo : a.folders[fi]? = some folder) (hcache : folder.cache = none)
    (hpos : file.position = 0)
    (hok : (extract file.index folder.index none folder.size file.offset).res = SZ_OK)
    (hbuf : (extract file.index folder.index none folder.size file.offset).tempBuf = some block)
    (hsize : (extract file.index folder.index none folder.size file.offset).outSizeProcessed =
      file.item.Size)
    (hfit : (extract file.index folder.index none folder.size file.offset).offset +
      file.item.Size ≤ block.length)
    (hblk : block.length < SIZE_MOD)
    (lens : List Nat) (hlens : ∀ n ∈ lens, 0 < n ∧ n < SIZE_MOD) :
    ∃ rs a', readSeq extract (lens.map (fun n => (io, n))) a = some (rs, a') ∧
      bytesRead rs =
        ((block.drop (extract file.index folder.index none folder.size file.offset).offset).take
          file.item.Size).take lens.sum := by
  cases lens with
  | nil => exact ⟨[], a, rfl, by simp [bytesRead]⟩
  | cons n rest =>
    have hn := hlens n (List.mem_cons_self _ _)
    have hrest : ∀ m ∈ rest, 0 < m ∧ m < SIZE_MOD :=
      fun m hm => hlens m (List.mem_cons_of_mem _ hm)
    have hsz : file.item.Size < SIZE_MOD := by omega
    by_cases hS : file.item.Size = 0
    · have hrem : sub64 file.item.Size file.position = 0 := by
        rw [hS, hpos]; rfl
      obtain ⟨rs, hrs, hb⟩ := readSeq_at_end extract io (n :: rest) a file hfile hrem
      refine ⟨rs, a, hrs, ?_⟩
      rw [hb, hS]
      simp
    · have hnm : n % SIZE_MOD = n := Nat.mod_eq_of_lt hn.2
      have hlen0 : n % SIZE_MOD ≠ 0 := by omega
      have hsub : sub64 file.item.Size file.position = file.item.Size := by
        rw [hpos, sub64_zero, Nat.mod_eq_of_lt hsz]
      have hrem0 : sub64 file.item.Size file.position ≠ 0 := by rw [hsub]; exact hS
      have hw : clampedSize file n = min n file.item.Size := by
        rw [clampedSize_eq file n hn.2 (by omega) hsz, hpos, Nat.sub_zero]
      have hwle : clampedSize file n ≤ file.item.Size := by
        rw [hw]; exact Nat.min_le_right _ _
      have hread := SZ_read_effective extract a io n fi file folder hfile hfolder hfo hlen0 hrem0
      rw [SZ_read_fill_ok extract a io fi _ file folder hcache hok hsize hwle] at hread
      have hnewpos : (file.position + clampedSize file n) % SIZE_MOD = clampedSize file n := by
        rw [hpos, Nat.zero_add]; exact Nat.mod_eq_of_lt (by omega)
      have hstart : ((extract file.index folder.index none folder.size file.offset).offset +
          file.position) % SIZE_MOD =
          (extract file.index folder.index none folder.size file.offset).offset := by
        rw [hpos, Nat.add_zero]; exact Nat.mod_eq_of_lt (by omega)
      rw [hnewpos, hstart, hbuf] at hread
      obtain ⟨rs, a', hrs, hb⟩ := readSeq_slice extract io fi block
        (extract file.index folder.index none folder.size file.offset).offset file.item.Size
        hfit hblk rest hrest
        (afterExtract a io fi file folder
          (extract file.index folder.index none folder.size file.offset) (clampedSize file n))
        { file with
          offset := (extract file.index folder.index none folder.size file.offset).offset
          position := clampedSize file n }
        { folder with
          index := (extract file.index folder.index none folder.size file.offset).blockIndex
          cache := (extract file.index folder.index none folder.size file.offset).tempBuf
          size := (extract file.index folder.index none folder.size file.offset).outBufferSize }
        (List.getElem?_set_self (lt_length_of_getElem? hfile)) hfolder
        (List.getElem?_set_self (lt_length_of_getElem? hfo)) hbuf rfl rfl hwle
      refine ⟨{ ret := toSint64 (clampedSize file n), err := none,
                outBuf := memcpy (some block)
                  (extract file.index folder.index none folder.size file.offset).offset
                  (clampedSize file n),
                extracted := true } :: rs, a', ?_, ?_⟩
      · simp only [List.map_cons, readSeq, hread, hrs]
      · rw [bytesRead_cons, hb]
        simp only [bytesOf, memcpy]
        rw [if_pos (by omega)]
        simp only [List.sum_cons]
        have hsl := slice_of_block block
          (extract file.index folder.index none folder.size file.offset).offset
          file.item.Size 0 (clampedSize file n) (by omega)
        simp only [Nat.add_zero, List.drop_zero] at hsl
        rw [hsl]
        have hDlen : ((block.drop
            (extract file.index folder.index none folder.size file.offset).offset).take
              file.item.Size).length = file.item.Size := by
          simp only [List.length_take, List.length_drop]
          omega
        rw [← take_chunk _ n rest.sum, hDlen, ← hw]

/-- Reading through one handle when the folder is not cached at the open: a
handle is opened on an entry whose folder has no cache, and the decoder, when
called for it, succeeds and reports the recorded size (the entry's data being the
slice of that length at the reported offset of the block).  Then for every
sequence of positive read lengths the bytes delivered by the successive `SZ_read`
calls, concatenated, are a prefix of the entry's data, and all of it once the
lengths sum to at least the size; and a further read of `x + y` bytes delivers
the same bytes as a read of `x` followed by a read of `y`.  With the folder
already cached at the open this fails (`SZ_read_sequence_cached_folder`). -/
theorem SZ_read_sequence (extract : Decoder) (a0 a : SZarchive) (path : List Nat)
    (io fi : Nat) (e : Option PHYSFS_ErrorCode) (file : SZfile) (folder : SZfolder)
    (block : List Nat)
    (hopen : SZ_openRead true a0 path = some ({ io := some io, err := e }, a))
    (hfile : a0.files[io]? = some file) (hfolder : file.folder = some fi)
    (hfo : a0.folders[fi]? = some folder) (hcache : folder.cache = none)
    (hok : (extract file.index folder.index none folder.size file.offset).res = SZ_OK)
    (hbuf : (extract file.index folder.index none folder.size file.offset).tempBuf = some block)
    (hsize : (extract file.index folder.index none folder.size file.offset).outSizeProcessed =
      file.item.Size)
    (hfit : (extract file.index folder.index none folder.size file.offset).offset +
      file.item.Size ≤ block.length)
    (hblk : block.length < SIZE_MOD)
    (lens : List Nat) (hlens : ∀ n ∈ lens, 0 < n ∧ n < SIZE_MOD) :
    ∃ rs a', readSeq extract (lens.map (fun n => (io, n))) a = some (rs, a') ∧
      bytesRead rs <+:
        (block.drop (extract file.index folder.index none folder.size file.offset).offset).take
          file.item.Size ∧
      (file.item.Size ≤ lens.sum → bytesRead rs =
        (block.drop (extract file.index folder.index none folder.size file.offset).offset).take
          file.item.Size) ∧
      ∀ x y, 0 < x → 0 < y → x + y < SIZE_MOD →
        ∃ rs1 a1 rs2 a2,
          readSeq extract ((lens ++ [x + y]).map (fun n => (io, n))) a = some (rs1, a1) ∧
          readSeq extract ((lens ++ [x, y]).map (fun n => (io, n))) a = some (rs2, a2) ∧
          bytesRead rs1 = bytesRead rs2 := by
  obtain ⟨file', fi', folder', hfile', hfolder', hfo', ha⟩ :=
    SZ_openRead_handle true a0 a path io e hopen
  rw [hfile] at hfile'
  have hfe : file' = file := (Option.some.inj hfile').symm
  subst hfe
  rw [hfolder] at hfolder'
  have hke : fi' = fi := (Option.some.inj hfolder').symm
  subst hke
  rw [hfo] at hfo'
  have hfoe : folder' = folder := (Option.some.inj hfo').symm
  subst hfoe
  have hfa : a.files[io]? = some { file' with position := 0 } := by
    rw [ha]
    exact List.getElem?_set_self (lt_length_of_getElem? hfile)
  have hfoa : a.folders[fi']? =
      some { folder' with references := (folder'.references + 1) % UINT32_MOD } := by
    rw [ha]
    exact List.getElem?_set_self (lt_length_of_getElem? hfo)
  have key : ∀ ls : List Nat, (∀ n ∈ ls, 0 < n ∧ n < SIZE_MOD) →
      ∃ rs a', readSeq extract (ls.map (fun n => (io, n))) a = some (rs, a') ∧
        bytesRead rs =
          ((block.drop (extract file'.index folder'.index none folder'.size
            file'.offset).offset).take file'.item.Size).take ls.sum :=
    fun ls hls => readSeq_from_start extract io fi' a { file' with position := 0 }
      { folder' with references := (folder'.references + 1) % UINT32_MOD } block hfa hfolder
      hfoa hcache rfl hok hbuf hsize hfit hblk ls hls
  obtain ⟨rs, a', hrs, hb⟩ := key lens hlens
  refine ⟨rs, a', hrs, ?_, ?_, ?_⟩
  · rw [hb]
    exact List.take_prefix _ _
  · intro hsum
    rw [hb]
    apply List.take_of_length_le
    simp only [List.length_take, List.length_drop]
    omega
  · intro x y hx hy hxy
    have h1 : ∀ n ∈ lens ++ [x + y], 0 < n ∧ n < SIZE_MOD := by
      intro n hn
      rcases List.mem_append.mp hn with h | h
      · exact hlens n h
      · simp only [List.mem_singleton] at h
        subst h
        exact ⟨by omega, hxy⟩
    have h2 : ∀ n ∈ lens ++ [x, y], 0 < n ∧ n < SIZE_MOD := by
      intro n hn
      rcases List.mem_append.mp hn with h | h
      · exact hlens n h
      · simp only [List.mem_cons, List.mem_singleton, List.not_mem_nil, or_false] at h
        rcases h with h | h
        · subst h; exact ⟨hx, by omega⟩
        · subst h; exact ⟨hy, by omega⟩
    obtain ⟨rs1, a1, hrs1, hb1⟩ := key _ h1
    obtain ⟨rs2, a2, hrs2, hb2⟩ := key _ h2
    refine ⟨rs1, a1, rs2, a2, hrs1, hrs2, ?_⟩
    rw [hb1, hb2]
    congr 1
    simp [Nat.add_assoc]

/-! ## The claims on the handle operations -/

/-- The fixture archives are the states the operations produce. -/
theorem fixtures_opened :
    freshArchive pairDb = some pairArchive0 ∧
    SZ_openRead true pairArchive0 (cstr "a.txt") =
      some ({ io := some 0, err := none }, pairArchive1) ∧
    SZ_openRead true pairArchive1 (cstr "b.txt") =
      some ({ io := some 1, err := none }, pairArchive2) ∧
    (freshArchive fiveDb).bind (fun a => openHandle a "a.txt") = some (0, fiveArchive) := by
  decide

/-- Witness of C1: `a.txt` and `b.txt` of `pairDb`, three reads. -/
theorem SZ_read_shared_folder_once_witness :
    ∃ rs a3,
      readSeq pairDecoder
        ([(false, 2), (true, 1), (false, 0)].map (fun op => (if op.1 then 1 else 0, op.2)))
        pairArchive2 = some (rs, a3) ∧
      extractCalls rs ≤ 1 ∧
      (extractCalls rs = 1 ↔
        ∃ op ∈ [(false, 2), (true, 1), (false, 0)], op.2 % SIZE_MOD ≠ 0 ∧
          (if op.1 then pairFileB.item.Size else pairFileA.item.Size) % SIZE_MOD ≠ 0) ∧
      (extractCalls rs = 1 → ∃ fo3, a3.folders[0]? = some fo3 ∧ fo3.cache ≠ none) ∧
      ∀ first second, (first = 0 ∧ second = 1) ∨ (first = 1 ∧ second = 0) →
        ∃ a4 a5, SZ_destroy a3 first = some a4 ∧
          (a4.folders[0]?).map SZfolder.cache = (a3.folders[0]?).map SZfolder.cache ∧
          SZ_destroy a4 second = some a5 ∧
          (a5.folders[0]?).map SZfolder.cache = some none :=
  SZ_read_shared_folder_once pairDecoder (fun _ _ _ _ _ => by simp [pairDecoder])
    pairArchive0 pairArchive1 pairArchive2 (cstr "a.txt") (cstr "b.txt") 0 1 0 none none
    pairFileA pairFileB emptyFolder (by decide) (by decide) (by decide) (by decide) (by decide)
    (by decide) (by decide) (by decide) (by decide) (by decide)
    [(false, 2), (true, 1), (false, 0)]

/-- C1 as stated fails: against a decoder that fails without leaving a buffer,
one read on each of the two handles calls the decoder twice; and with no read
asking for bytes it is not called at all. -/
theorem SZ_read_shared_folder_calls :
    (do
      let a ← freshArchive pairDb
      let (h1, a) ← openHandle a "a.txt"
      let (h2, a) ← openHandle a "b.txt"
      let (rs, _) ← readSeq failingDecoder [(h1, 1), (h2, 1)] a
      let (rs0, _) ← readSeq pairDecoder [(h1, 0), (h2, 0)] a
      pure (extractCalls rs, extractCalls rs0)) = some (2, 0) := by
  decide

/-- C2, the code at the failing input: `a.txt` and `b.txt` share folder 0, whose
bytes are `[10, 11, 20, 21]`, `b.txt` at decoder offset 2.  After a read through
the handle of `a.txt` has decompressed the folder, reads through the handle of
`b.txt` do not call the decoder, its `offset` stays at the initial
`(size_t)-1`, the first byte is copied from outside the cached folder and the
second from index 0 (a byte of `a.txt`), where the decoder offset plus the
position is index 3, holding 21. -/
theorem SZ_read_offset_not_resolved :
    (do
      let a ← freshArchive pairDb
      let (h1, a) ← openHandle a "a.txt"
      let (h2, a) ← openHandle a "b.txt"
      let (rs, a) ← readSeq pairDecoder [(h1, 2), (h2, 1), (h2, 1)] a
      let fileB ← a.files[h2]?
      pure (rs.map (fun r => (r.ret, r.outBuf, r.extracted)), fileB.offset)) =
      some ([(2, OutBuf.copied [10, 11], true), (1, OutBuf.outside, false),
             (1, OutBuf.copied [10], false)], SIZE_MOD - 1) ∧
    (pairDecoder 1 0 none 0 (SIZE_MOD - 1)).offset = 2 ∧
    memcpy (some [10, 11, 20, 21]) (2 + 1) 1 = OutBuf.copied [21] := by
  decide

/-- C4 (amended): when `SZ_read` calls the decoder (non-zero request, entry not at
its end, folder not cached) and the decoder succeeds but reports a size that
differs from the recorded size, `SZ_read` returns -1 with
`PHYSFS_ERR_OTHER_ERROR`, leaves the output buffer untouched and does not move
the position. -/
theorem SZ_read_size_mismatch (extract : Decoder) (archive : SZarchive) (io len fi : Nat)
    (file : SZfile) (folder : SZfolder)
    (hfile : archive.files[io]? = some file) (hfolder : file.folder = some fi)
    (hfo : archive.folders[fi]? = some folder) (hcache : folder.cache = none)
    (hlen : len % SIZE_MOD ≠ 0) (hrem : sub64 file.item.Size file.position ≠ 0)
    (hok : (extract file.index folder.index none folder.size file.offset).res = SZ_OK)
    (hsize : (extract file.index folder.index none folder.size file.offset).outSizeProcessed ≠
      file.item.Size) :
    ∃ archive1, SZ_read extract archive io len =
        some ({ ret := -1, err := some PHYSFS_ERR_OTHER_ERROR, outBuf := OutBuf.untouched,
                extracted := true }, archive1) ∧
      (archive1.files[io]?).map SZfile.position = some file.position ∧
      SZ_tell archive1 io = SZ_tell archive io := by
  have hread := SZ_read_effective extract archive io len fi file folder hfile hfolder hfo
    hlen hrem
  rw [SZ_read_fill_mismatch extract archive io fi _ file folder hcache hok hsize] at hread
  refine ⟨_, hread, ?_, ?_⟩
  · simp only [afterExtract, List.getElem?_set_self (lt_length_of_getElem? hfile),
      Option.map_some']
  · simp only [SZ_tell, afterExtract, List.getElem?_set_self (lt_length_of_getElem? hfile),
      hfile]

/-- Witness of C4: `fiveDb` records 5 bytes, the decoder reports 4. -/
theorem SZ_read_size_mismatch_witness :
    (shortDecoder 0 0 none 0 (SIZE_MOD - 1)).res = SZ_OK ∧
    (shortDecoder 0 0 none 0 (SIZE_MOD - 1)).outSizeProcessed ≠ fiveFile.item.Size ∧
    ∃ archive1, SZ_read shortDecoder fiveArchive 0 5 =
        some ({ ret := -1, err := some PHYSFS_ERR_OTHER_ERROR, outBuf := OutBuf.untouched,
                extracted := true }, archive1) ∧
      (archive1.files[0]?).map SZfile.position = some fiveFile.position ∧
      SZ_tell archive1 0 = SZ_tell fiveArchive 0 :=
  ⟨by decide, by decide,
    SZ_read_size_mismatch shortDecoder fiveArchive 0 5 0 fiveFile
      { emptyFolder with references := 1 } (by decide) (by decide) (by decide) (by decide)
      (by decide) (by decide) (by decide) (by decide)⟩

/-- C4 as stated fails: on a size mismatch the error code is
`PHYSFS_ERR_OTHER_ERROR`, not `PHYSFS_ERR_CORRUPT`. -/
theorem SZ_read_mismatch_error_code :
    (do
      let a ← freshArchive fiveDb
      let (h, a) ← openHandle a "a.txt"
      let (r, _) ← SZ_read shortDecoder a h 5
      pure (r.ret, r.err)) = some (-1, some PHYSFS_ERR_OTHER_ERROR) ∧
    (do
      let a ← freshArchive fiveDb
      let (h, a) ← openHandle a "a.txt"
      let (r, _) ← SZ_read shortDecoder a h 5
      pure r.err) ≠ some (some PHYSFS_ERR_CORRUPT) := by
  decide

/-- C5, the code at the failing inputs: after a read that failed in its
decompression step (a size mismatch, or a CRC error of the decoder) the folder
cache is present, and the same read repeated does not call the decoder and
returns 5 bytes. -/
theorem SZ_read_retry_returns_bytes :
    (do
      let a ← freshArchive fiveDb
      let (h, a) ← openHandle a "a.txt"
      let (rs, a) ← readSeq shortDecoder [(h, 5), (h, 5)] a
      let folder ← a.folders[0]?
      pure (rs, folder.cache)) =
      some ([{ ret := -1, err := some PHYSFS_ERR_OTHER_ERROR, outBuf := OutBuf.untouched,
               extracted := true },
             { ret := 5, err := none, outBuf := OutBuf.copied [1, 2, 3, 4, 5],
               extracted := false }],
            some [1, 2, 3, 4, 5, 6, 7, 8]) ∧
    (do
      let a ← freshArchive fiveDb
      let (h, a) ← openHandle a "a.txt"
      let (rs, a) ← readSeq crcDecoder [(h, 5), (h, 5)] a
      let folder ← a.folders[0]?
      pure (rs, folder.cache)) =
      some ([{ ret := -1, err := some PHYSFS_ERR_CORRUPT, outBuf := OutBuf.untouched,
               extracted := true },
             { ret := 5, err := none, outBuf := OutBuf.copied [1, 2, 3, 4, 5],
               extracted := false }],
            some [1, 2, 3, 4, 5, 6, 7, 8]) := by
  decide

/-- An instance of `SZ_read_sequence`: `a.txt` of `pairDb`, folder not cached,
read in two steps of one byte. -/
theorem SZ_read_sequence_witness :
    ∃ rs a', readSeq pairDecoder ([1, 1].map (fun n => (0, n))) pairArchive1 = some (rs, a') ∧
      bytesRead rs <+:
        (([10, 11, 20, 21] : List Nat).drop
          (pairDecoder pairFileA.index emptyFolder.index none emptyFolder.size
            pairFileA.offset).offset).take pairFileA.item.Size ∧
      (pairFileA.item.Size ≤ ([1, 1] : List Nat).sum → bytesRead rs =
        (([10, 11, 20, 21] : List Nat).drop
          (pairDecoder pairFileA.index emptyFolder.index none emptyFolder.size
            pairFileA.offset).offset).take pairFileA.item.Size) ∧
      ∀ x y, 0 < x → 0 < y → x + y < SIZE_MOD →
        ∃ rs1 a1 rs2 a2,
          readSeq pairDecoder (([1, 1] ++ [x + y]).map (fun n => (0, n))) pairArchive1 =
            some (rs1, a1) ∧
          readSeq pairDecoder (([1, 1] ++ [x, y]).map (fun n => (0, n))) pairArchive1 =
            some (rs2, a2) ∧
          bytesRead rs1 = bytesRead rs2 :=
  SZ_read_sequence pairDecoder pairArchive0 pairArchive1 (cstr "a.txt") 0 0 none pairFileA
    emptyFolder [10, 11, 20, 21] (by decide) (by decide) (by decide) (by decide) (by decide)
    (by decide) (by decide) (by decide) (by decide) (by decide) [1, 1] (by decide)

/-- C3, the code at the failing input: the folder of `b.txt` is already cached
when the handle on `b.txt` is opened, and the decoder reports for `b.txt` the
recorded size 2 and the offset 2, so that the data of `b.txt` is `[20, 21]`.  In
the first run an `SZ_openRead` of `a.txt` whose handle allocation fails leaves a
reference, `a.txt` is then opened, read and closed, and the handle on `b.txt` is
the only one open; in the second run the handle on `a.txt` that filled the cache
stays open.  In both, two reads of one byte through the handle on `b.txt` return
1 each, the first copying from one byte before the buffer and the second the
byte 10 of `a.txt`: the bytes returned are not a prefix of `[20, 21]`. -/
theorem SZ_read_sequence_cached_folder :
    (do
      let a ← freshArchive pairDb
      let (_, a) ← SZ_openRead false a (cstr "a.txt")
      let (h1, a) ← openHandle a "a.txt"
      let (_, a) ← SZ_read pairDecoder a h1 2
      let a ← SZ_destroy a h1
      let (h2, a) ← openHandle a "b.txt"
      let (rs, _) ← readSeq pairDecoder [(h2, 1), (h2, 1)] a
      pure rs) =
      some [{ ret := 1, err := none, outBuf := OutBuf.outside, extracted := false },
            { ret := 1, err := none, outBuf := OutBuf.copied [10], extracted := false }] ∧
    (do
      let a ← freshArchive pairDb
      let (h1, a) ← openHandle a "a.txt"
      let (_, a) ← SZ_read pairDecoder a h1 2
      let (h2, a) ← openHandle a "b.txt"
      let (rs, _) ← readSeq pairDecoder [(h2, 1), (h2, 1)] a
      pure rs) =
      some [{ ret := 1, err := none, outBuf := OutBuf.outside, extracted := false },
            { ret := 1, err := none, outBuf := OutBuf.copied [10], extracted := false }] ∧
    (pairDecoder pairFileB.index 0 none 0 pairFileB.offset).outSizeProcessed =
      pairFileB.item.Size ∧
    ((pairDecoder pairFileB.index 0 none 0 pairFileB.offset).tempBuf.map
      (fun block => (block.drop
        (pairDecoder pairFileB.index 0 none 0 pairFileB.offset).offset).take
          pairFileB.item.Size)) = some [20, 21] := by
  decide

/-! ## The claims on the index and the enumeration -/

/-- Witness of C6: member 1 (`b.txt`) of `pairDb`. -/
theorem sz_files_init_lookup_witness :
    (pairDb.Files.map DbFile.name).Nodup ∧ 1 < pairDb.Files.length ∧
    ∃ archive e p, sz_files_init pairDb { files := [], folders := [] } = some archive ∧
      sz_file_init pairDb 1 = some e ∧
      sz_find_file archive e.name = some p ∧ archive.files[p]? = some e :=
  ⟨by decide, by decide,
    sz_files_init_lookup pairDb { files := [], folders := [] } (by decide) 1 (by decide)⟩

/-- C6 as stated fails: with two members of the same path, the lookups of the
paths of member 0 and of member 1 return the same slot, which holds member 1, not
member 0. -/
theorem sz_find_file_duplicate_path :
    (do
      let a ← freshArchive twinDb
      let e0 ← sz_file_init twinDb 0
      let e1 ← sz_file_init twinDb 1
      let p0 ← sz_find_file a e0.name
      let p1 ← sz_find_file a e1.name
      let g ← a.files[p0]?
      pure (e0.index, g.index, decide (g = e0), decide (p0 = p1))) =
      some (0, 1, false, true) := by
  decide

/-- C7, the code at the failing input: the table holds `dir`, `dir.x` and `dir/b`
in this order; enumerating `dir` hands the callback `x` and then `b`, although no
entry `dir/x` exists, and the scan does not stop at `dir.x`, the first entry
whose path does not start with `dir/`. -/
theorem SZ_enumerateFiles_sibling_visited :
    (do
      let a ← freshArchive siblingDb
      let r ← enumerate a (cstr "dir") (fun _ _ => PHYSFS_ENUM_OK)
      pure (a.files.map SZfile.name, r, sz_find_file a (cstr "dir/x"))) =
      some ([cstr "dir", cstr "dir.x", cstr "dir/b"],
            (PHYSFS_ENUM_OK, [cstr "x", cstr "b"]), none) := by
  decide

/-- Witness of C8: the directory `dir` of `siblingDb`. -/
theorem SZ_enumerateFiles_children_witness :
    (siblingDb.Files.map DbFile.name).Nodup ∧ cstr "dir" ≠ [] ∧
    cstr "dir" ∈ siblingDb.Files.map DbFile.name ∧
    ∃ (archive : SZarchive) (vis : List SZfile),
      sz_files_init siblingDb { files := [], folders := [] } = some archive ∧
      enumerate archive (cstr "dir") (fun _ _ => PHYSFS_ENUM_OK) =
        some (PHYSFS_ENUM_OK, vis.map (fun f => f.name.drop ((cstr "dir").length + 1))) ∧
      vis.Sublist archive.files ∧
      (∀ f ∈ archive.files, ∀ name, f.name = cstr "dir" ++ SLASH :: name → SLASH ∉ name →
        vis.count f = 1) ∧
      (∀ f ∈ archive.files, ∀ tail, f.name = cstr "dir" ++ SLASH :: tail → SLASH ∈ tail →
        f ∉ vis) ∧
      ((vis.filter (fun f => decide (cstr "dir" ++ [SLASH] <+: f.name))).map
        (fun f => f.name.drop ((cstr "dir").length + 1))).Pairwise
          (fun x y => strcmp x y < 0) :=
  ⟨by decide, by decide, by decide,
    SZ_enumerateFiles_children siblingDb { files := [], folders := [] } (by decide)
      (cstr "dir") (by decide) (by decide)⟩

/-- C10, the code at the failing input: the callback answers
`PHYSFS_ENUM_STOP` on `a`; the loop goes on, hands it `b` as well, and returns
the answer to `b`, `PHYSFS_ENUM_OK`. -/
theorem SZ_enumerateFiles_ignores_stop :
    (do
      let a ← freshArchive flatDb
      enumerate a []
        (fun _ name => if name = cstr "a" then PHYSFS_ENUM_STOP else PHYSFS_ENUM_OK)) =
      some (PHYSFS_ENUM_OK, [cstr "a", cstr "b"]) := by
  decide

/-! ## Further evaluations -/

/-- C11, the code at the failing input: the callback answers
`PHYSFS_ENUM_ERROR` on `a` and `PHYSFS_ENUM_OK` on `b`; the loop goes on after
the error, and the function returns the answer to `b`, `PHYSFS_ENUM_OK`, with the
error code `PHYSFS_ERR_APP_CALLBACK` set. -/
theorem SZ_enumerateFiles_error_overwritten :
    (do
      let a ← freshArchive flatDb
      let r ← SZ_enumerateFiles allocOk a []
        (visitor (fun _ name =>
          if name = cstr "a" then PHYSFS_ENUM_ERROR else PHYSFS_ENUM_OK)) []
      pure (r.retval, r.err, r.callbackdata)) =
      some (PHYSFS_ENUM_OK, some PHYSFS_ERR_APP_CALLBACK, [cstr "a", cstr "b"]) := by
  decide

/-- C13, the code at the failing input: `d` is a directory that the database
links to folder 0; `SZ_openRead` on `d` tests only the folder link, returns a
handle and takes a reference on the folder. -/
theorem SZ_openRead_directory_opened :
    (do
      let a ← freshArchive dirInFolderDb
      let p ← sz_find_file a (cstr "d")
      let entry ← a.files[p]?
      let (r, a1) ← SZ_openRead true a (cstr "d")
      let folder ← a1.folders[0]?
      pure (entry.item.IsDir, r, folder.references)) =
      some (true, { io := some 1, err := none }, 1) := by
  decide

/-- C18, the code at the failing input: two opens of `a.txt` yield handles on the
same `SZfile`, which holds the position.  The value `SZ_tell` returns for the
first handle is 1 after its seek, 0 after the second open, 1 after a read of one
byte through the second handle and 2 after a seek of the second handle. -/
theorem SZ_tell_shared_cursor :
    (do
      let a ← freshArchive pairDb
      let (h2, a) ← openHandle a "a.txt"
      let (_, a) ← SZ_seek a h2 1
      let t0 ← SZ_tell a h2
      let (h1, a) ← openHandle a "a.txt"
      let t1 ← SZ_tell a h2
      let (_, a) ← SZ_read pairDecoder a h1 1
      let t2 ← SZ_tell a h2
      let (_, a) ← SZ_seek a h1 2
      let t3 ← SZ_tell a h2
      pure (h1, h2, [t0, t1, t2, t3])) = some (0, 0, [1, 0, 1, 2]) := by
  decide

/-- C15 as stated fails: at position 0 of a 5-byte entry, a read of 5 bytes
against a decoder that runs out of input signals `PHYSFS_ERR_PAST_EOF` (and
returns -1). -/
theorem SZ_read_decoder_eof :
    (do
      let a ← freshArchive fiveDb
      let (h, a) ← openHandle a "a.txt"
      let t ← SZ_tell a h
      let (r, _) ← SZ_read eofDecoder a h 5
      pure (t, r)) =
      some (0, { ret := -1, err := some PHYSFS_ERR_PAST_EOF, outBuf := OutBuf.untouched,
                 extracted := true }) := by
  decide

/-! ## Seeking, telling and closing -/

/-- C16: on an open handle `SZ_seek(pos)` fails (returns 0) with
`PHYSFS_ERR_PAST_EOF` if and only if `pos` is greater than the entry's size; when
`pos` is at most the size (the size itself included) it returns 1 without error
and the position becomes `pos`; when it fails the state is left as it was. -/
theorem SZ_seek_past_end (archive : SZarchive) (io pos : Nat) (file : SZfile)
    (hfile : archive.files[io]? = some file) :
    ∃ r archive1, SZ_seek archive io pos = some (r, archive1) ∧
      ((r.ret = 0 ∧ r.err = some PHYSFS_ERR_PAST_EOF) ↔ pos > file.item.Size) ∧
      (pos ≤ file.item.Size → r.ret = 1 ∧ r.err = none ∧
        (archive1.files[io]?).map SZfile.position = some pos) ∧
      (pos > file.item.Size → archive1 = archive) := by
  by_cases h : pos > file.item.Size
  · refine ⟨{ ret := 0, err := some PHYSFS_ERR_PAST_EOF }, archive, ?_, ?_, ?_, ?_⟩
    · simp only [SZ_seek, hfile, if_pos h]
    · simp [h]
    · intro h'; omega
    · intro _; rfl
  · refine ⟨{ ret := 1, err := none },
      { archive with files := archive.files.set io { file with position := pos } },
      ?_, ?_, ?_, ?_⟩
    · simp only [SZ_seek, hfile, if_neg h]
    · simp [h]
    · intro _
      refine ⟨rfl, rfl, ?_⟩
      simp only [List.getElem?_set_self (lt_length_of_getElem? hfile), Option.map_some']
    · intro h'; exact absurd h' h

/-- Witness of C16: seeking to 3 in the 2-byte entry `a.txt`. -/
theorem SZ_seek_past_end_witness :
    ∃ r archive1, SZ_seek pairArchive1 0 3 = some (r, archive1) ∧
      ((r.ret = 0 ∧ r.err = some PHYSFS_ERR_PAST_EOF) ↔ 3 > pairFileA.item.Size) ∧
      (3 ≤ pairFileA.item.Size → r.ret = 1 ∧ r.err = none ∧
        (archive1.files[0]?).map SZfile.position = some 3) ∧
      (3 > pairFileA.item.Size → archive1 = pairArchive1) :=
  SZ_seek_past_end pairArchive1 0 3 pairFileA (by decide)

/-- C12: `SZ_destroy` on a handle whose folder has `r ≥ 1` references leaves
`r - 1` references; the folder's cache is absent afterwards if `r - 1 = 0` and is
what it was otherwise; the file table and every other folder slot are unchanged.
In particular, if the state was reached by the `SZ_openRead` of this handle from
a state in which the folder had no reference, the count is 1 now and 0 after the
`SZ_destroy`. -/
theorem SZ_destroy_release (archive : SZarchive) (io fi : Nat) (file : SZfile)
    (folder : SZfolder) (hfile : archive.files[io]? = some file)
    (hfolder : file.folder = some fi) (hfo : archive.folders[fi]? = some folder)
    (hr : 1 ≤ folder.references) :
    (∃ archive1, SZ_destroy archive io = some archive1 ∧
      archive1.files = archive.files ∧
      archive1.folders[fi]? =
        some { folder with
          references := folder.references - 1
          cache := if folder.references - 1 = 0 then none else folder.cache } ∧
      ∀ k, k ≠ fi → archive1.folders[k]? = archive.folders[k]?) ∧
    (∀ (archive0 : SZarchive) (path : List Nat) (e : Option PHYSFS_ErrorCode)
      (folder0 : SZfolder),
      archive0.folders[fi]? = some folder0 → folder0.references = 0 →
      SZ_openRead true archive0 path = some ({ io := some io, err := e }, archive) →
      folder.references = 1 ∧
      ∃ archive1, SZ_destroy archive io = some archive1 ∧
        (archive1.folders[fi]?).map SZfolder.references = some 0) := by
  have hlt := lt_length_of_getElem? hfo
  have hd := SZ_destroy_folder archive io fi file folder hfile hfolder hfo
  have hafter : afterDestroy folder =
      { folder with
        references := folder.references - 1
        cache := if folder.references - 1 = 0 then none else folder.cache } := by
    unfold afterDestroy
    have hpos : folder.references > 0 := by omega
    simp only [if_pos hpos]
    split_ifs <;> rfl
  constructor
  · refine ⟨_, hd, rfl, ?_, ?_⟩
    · simp only [List.getElem?_set_self hlt, hafter]
    · intro k hk
      simp only [List.getElem?_set_ne (Ne.symm hk)]
  · intro archive0 path e folder0 hfo0 hr0 hopen
    obtain ⟨file', fi', folder', hfile', hfolder', hfo', ha⟩ :=
      SZ_openRead_handle true archive0 archive path io e hopen
    have hfile2 : archive.files[io]? = some { file' with position := 0 } := by
      rw [ha]
      exact List.getElem?_set_self (lt_length_of_getElem? hfile')
    rw [hfile] at hfile2
    have hfe : file = { file' with position := 0 } := Option.some.inj hfile2
    have hfi : fi' = fi := by
      rw [hfe] at hfolder
      rw [hfolder'] at hfolder
      exact Option.some.inj hfolder
    subst hfi
    rw [hfo0] at hfo'
    have hfoe : folder0 = folder' := Option.some.inj hfo'
    subst hfoe
    have hfo2 : archive.folders[fi']? =
        some { folder0 with references := (folder0.references + 1) % UINT32_MOD } := by
      rw [ha]
      exact List.getElem?_set_self (lt_length_of_getElem? hfo0)
    rw [hfo] at hfo2
    have hfolder_eq := Option.some.inj hfo2
    have hone : folder.references = 1 := by
      rw [hfolder_eq]
      simp [hr0, UINT32_MOD]
    refine ⟨hone, _, hd, ?_⟩
    simp only [List.getElem?_set_self hlt, hafter, Option.map_some', hone]

/-- Witness of C12: closing the handle of `a.txt` right after it was opened. -/
theorem SZ_destroy_release_witness :
    (∃ archive1, SZ_destroy pairArchive1 0 = some archive1 ∧
      archive1.files = pairArchive1.files ∧
      archive1.folders[0]? =
        some { ({ emptyFolder with references := 1 } : SZfolder) with
          references := ({ emptyFolder with references := 1 } : SZfolder).references - 1
          cache := if ({ emptyFolder with references := 1 } : SZfolder).references - 1 = 0
            then none else ({ emptyFolder with references := 1 } : SZfolder).cache } ∧
      ∀ k, k ≠ 0 → archive1.folders[k]? = pairArchive1.folders[k]?) ∧
    (∀ (archive0 : SZarchive) (path : List Nat) (e : Option PHYSFS_ErrorCode)
      (folder0 : SZfolder),
      archive0.folders[0]? = some folder0 → folder0.references = 0 →
      SZ_openRead true archive0 path = some ({ io := some 0, err := e }, pairArchive1) →
      ({ emptyFolder with references := 1 } : SZfolder).references = 1 ∧
      ∃ archive1, SZ_destroy pairArchive1 0 = some archive1 ∧
        (archive1.folders[0]?).map SZfolder.references = some 0) :=
  SZ_destroy_release pairArchive1 0 0 pairFileA { emptyFolder with references := 1 }
    (by decide) (by decide) (by decide) (by decide)

/-! ## Return value and end-of-entry behaviour of `SZ_read` -/

theorem sub64_eq_zero_iff {a b : Nat} (ha : a < SIZE_MOD) (hb : b < SIZE_MOD) :
    sub64 a b = 0 ↔ a = b := by
  unfold sub64
  rw [Nat.mod_eq_of_lt ha, Nat.mod_eq_of_lt hb]
  by_cases h : b ≤ a
  · have h1 : a + SIZE_MOD - b = (a - b) + SIZE_MOD := by omega
    rw [h1, Nat.add_mod_right, Nat.mod_eq_of_lt (by omega)]
    omega
  · rw [Nat.mod_eq_of_lt (by omega)]
    omega

theorem SZ_read_fill_ret_or_err (extract : Decoder) (archive : SZarchive) (io fi w : Nat)
    (file : SZfile) (folder : SZfolder) :
    (SZ_read_fill extract archive io fi file folder w).1.ret = -1 ∨
      ((SZ_read_fill extract archive io fi file folder w).1.err = none ∧
        (SZ_read_fill extract archive io fi file folder w).1.ret = toSint64 w) := by
  unfold SZ_read_fill
  split
  · simp only []
    split_ifs
    · exact Or.inl rfl
    · exact Or.inl rfl
    · exact Or.inl rfl
    · exact Or.inr ⟨rfl, rfl⟩
  · exact Or.inr ⟨rfl, rfl⟩

/-- C15 (amended): on an open handle `SZ_read` returns 0 with
`PHYSFS_ERR_PAST_EOF` if and only if the requested length is non-zero and the
position equals the entry's size; a request for 0 bytes returns 0 with no error
at any position; in both cases the decoder is not called, nothing is copied and
the archive state (positions, caches, reference counts) is unchanged. -/
theorem SZ_read_past_end (extract : Decoder) (archive : SZarchive) (io len fi : Nat)
    (file : SZfile) (folder : SZfolder)
    (hfile : archive.files[io]? = some file) (hfolder : file.folder = some fi)
    (hfo : archive.folders[fi]? = some folder)
    (hpos : file.position < SIZE_MOD) (hsize : file.item.Size < SIZE_MOD)
    (hlen : len < SIZE_MOD) :
    (∃ r archive1, SZ_read extract archive io len = some (r, archive1) ∧
      ((r.ret = 0 ∧ r.err = some PHYSFS_ERR_PAST_EOF) ↔
        (len ≠ 0 ∧ file.position = file.item.Size))) ∧
    (len ≠ 0 → file.position = file.item.Size →
      SZ_read extract archive io len =
        some ({ ret := 0, err := some PHYSFS_ERR_PAST_EOF, outBuf := OutBuf.untouched,
                extracted := false }, archive)) ∧
    (len = 0 →
      SZ_read extract archive io len =
        some ({ ret := 0, err := none, outBuf := OutBuf.untouched, extracted := false },
          archive)) := by
  have hnm : len % SIZE_MOD = len := Nat.mod_eq_of_lt hlen
  have hzero : len = 0 → SZ_read extract archive io len =
      some ({ ret := 0, err := none, outBuf := OutBuf.untouched, extracted := false },
        archive) := by
    intro h
    exact SZ_read_zero extract archive io len file hfile (by omega)
  have heof : len ≠ 0 → file.position = file.item.Size →
      SZ_read extract archive io len =
        some ({ ret := 0, err := some PHYSFS_ERR_PAST_EOF, outBuf := OutBuf.untouched,
                extracted := false }, archive) := by
    intro h0 he
    exact SZ_read_eof extract archive io len file hfile (by omega)
      ((sub64_eq_zero_iff hsize hpos).mpr he.symm)
  refine ⟨?_, heof, hzero⟩
  by_cases h0 : len = 0
  · refine ⟨_, _, hzero h0, ?_⟩
    simp [h0]
  by_cases he : file.position = file.item.Size
  · refine ⟨_, _, heof h0 he, ?_⟩
    simp [h0, he]
  · have hrem0 : sub64 file.item.Size file.position ≠ 0 := by
      intro h
      exact he ((sub64_eq_zero_iff hsize hpos).mp h).symm
    have hread := SZ_read_effective extract archive io len fi file folder hfile hfolder hfo
      (by omega) hrem0
    have hcase := SZ_read_fill_ret_or_err extract archive io fi (clampedSize file len) file
      folder
    cases hfill : SZ_read_fill extract archive io fi file folder (clampedSize file len) with
    | mk r archive1 =>
      rw [hfill] at hread hcase
      refine ⟨r, archive1, hread, ?_⟩
      constructor
      · rintro ⟨hret, herr⟩
        rcases hcase with h | h
        · simp only [] at h
          rw [h] at hret
          omega
        · simp only [] at h
          rw [h.1] at herr
          simp at herr
      · rintro ⟨_, h⟩
        exact absurd h he

/-- Witness of C15: `a.txt` of `pairDb` just opened, a read of 1 byte. -/
theorem SZ_read_past_end_witness :
    (∃ r archive1, SZ_read pairDecoder pairArchive1 0 1 = some (r, archive1) ∧
      ((r.ret = 0 ∧ r.err = some PHYSFS_ERR_PAST_EOF) ↔
        (1 ≠ 0 ∧ pairFileA.position = pairFileA.item.Size))) ∧
    (1 ≠ 0 → pairFileA.position = pairFileA.item.Size →
      SZ_read pairDecoder pairArchive1 0 1 =
        some ({ ret := 0, err := some PHYSFS_ERR_PAST_EOF, outBuf := OutBuf.untouched,
                extracted := false }, pairArchive1)) ∧
    (1 = 0 →
      SZ_read pairDecoder pairArchive1 0 1 =
        some ({ ret := 0, err := none, outBuf := OutBuf.untouched, extracted := false },
          pairArchive1)) :=
  SZ_read_past_end pairDecoder pairArchive1 0 1 0 pairFileA
    { emptyFolder with references := 1 } (by decide) (by decide) (by decide) (by decide)
    (by decide) (by decide)

/-! ## The table after construction -/

/-- C19: after `sz_files_init` the file table is a rearrangement of the slots
initialised from the decoder's member list, one per member, slot `j` carrying
the archive index `j`, the path, the size and the folder link of member `j`; the
table is non-decreasing under `strcmp` of the paths; and the comparison used for
sorting agrees with the one `sz_find_file` hands to `bsearch`. -/
theorem sz_files_init_sorted_perm (db : CSzArEx) (archive0 : SZarchive) :
    ∃ archive fs, sz_files_init db archive0 = some archive ∧
      archive.files.Perm fs ∧ fs.length = db.Files.length ∧
      (∀ (j : Nat) (m : DbFile), db.Files[j]? = some m →
        ∃ f : SZfile, fs[j]? = some f ∧ f.index = j ∧ f.name = m.name ∧
          f.item.Size = m.Size ∧
          f.folder = (if m.FileToFolder ≠ UINT32_MOD - 1 then some m.FileToFolder else none)) ∧
      archive.files.Pairwise (fun a b => strcmp a.name b.name ≤ 0) ∧
      (∀ a b : SZfile, sz_file_cmp_stdlib a.name b = sz_file_cmp a b) := by
  obtain ⟨archive, fs, hinit, _, hperm, hsorted, hlen, hget, _⟩ :=
    sz_files_init_table db archive0
  refine ⟨archive, fs, hinit, hperm, hlen, ?_, hsorted, fun _ _ => rfl⟩
  intro j m hm
  have hj := lt_length_of_getElem? hm
  have hfj := hget j hj
  simp only [sz_file_init, hm] at hfj
  exact ⟨_, hfj, rfl, rfl, rfl, rfl⟩

/-- C20: in every index built by `sz_files_init`, the empty one included, and
for every path, `sz_find_file` returns NULL (with `PHYSFS_ERR_NOT_FOUND`) if and
only if no entry of the table has that path; when it returns a slot, the entry
there has exactly that path. -/
theorem sz_find_file_not_found_iff (db : CSzArEx) (archive0 : SZarchive) :
    ∃ archive, sz_files_init db archive0 = some archive ∧
      ∀ name : List Nat,
        (sz_find_file archive name = none ↔ ∀ f ∈ archive.files, f.name ≠ name) ∧
        (∀ p, sz_find_file archive name = some p →
          ∃ f, archive.files[p]? = some f ∧ f.name = name) := by
  obtain ⟨archive, fs, hinit, _, _, hsorted, _, _, _⟩ := sz_files_init_table db archive0
  refine ⟨archive, hinit, fun name => ⟨?_, fun p hp => sz_find_file_sound archive name p hp⟩⟩
  constructor
  · intro hnone f hf hname
    obtain ⟨p, g, hp, _, _⟩ := sz_find_file_complete archive hsorted f hf
    rw [hname, hnone] at hp
    simp at hp
  · intro hall
    cases hfind : sz_find_file archive name with
    | none => rfl
    | some p =>
      obtain ⟨f, hf, hname⟩ := sz_find_file_sound archive name p hfind
      exact absurd hname (hall f (List.getElem?_mem hf))

/-! ## The outcomes of `SZ_openRead` -/

theorem SZ_openRead_not_found (mallocOk : Bool) (archive : SZarchive) (path : List Nat)
    (hfind : sz_find_file archive path = none) :
    SZ_openRead mallocOk archive path =
      some ({ io := none, err := some PHYSFS_ERR_NOT_FOUND }, archive) := by
  simp only [SZ_openRead, hfind]

theorem SZ_openRead_no_folder (mallocOk : Bool) (archive : SZarchive) (path : List Nat)
    (pos : Nat) (file : SZfile) (hfind : sz_find_file archive path = some pos)
    (hfile : archive.files[pos]? = some file) (hfolder : file.folder = none) :
    SZ_openRead mallocOk archive path =
      some ({ io := none, err := some PHYSFS_ERR_NOT_A_FILE }, archive) := by
  simp only [SZ_openRead, hfind, hfile, hfolder]

theorem SZ_openRead_found (archive : SZarchive) (path : List Nat) (pos fi : Nat)
    (file : SZfile) (folder : SZfolder) (hfind : sz_find_file archive path = some pos)
    (hfile : archive.files[pos]? = some file) (hfolder : file.folder = some fi)
    (hfo : archive.folders[fi]? = some folder) :
    SZ_openRead true archive path =
      some ({ io := some pos, err := none },
        { files := archive.files.set pos { file with position := 0 }
          folders := archive.folders.set fi
            { folder with references := (folder.references + 1) % UINT32_MOD } }) := by
  simp only [SZ_openRead, hfind, hfile, hfolder, hfo, if_true]

/-! ## Lookup in a sorted table -/

theorem sz_find_file_none_iff (archive : SZarchive) (hs : archive.files.Pairwise tableLe)
    (name : List Nat) :
    sz_find_file archive name = none ↔ ∀ f ∈ archive.files, f.name ≠ name := by
  constructor
  · intro hnone f hf hname
    obtain ⟨p, g, hp, _, _⟩ := sz_find_file_complete archive hs f hf
    rw [hname, hnone] at hp
    simp at hp
  · intro hall
    cases hfind : sz_find_file archive name with
    | none => rfl
    | some p =>
      obtain ⟨f, hf, hname⟩ := sz_find_file_sound archive name p hfind
      exact absurd hname (hall f (List.getElem?_mem hf))

theorem sz_files_init_sorted (db : CSzArEx) (archive0 archive : SZarchive)
    (hinit : sz_files_init db archive0 = some archive) :
    archive.files.Pairwise tableLe := by
  obtain ⟨a, fs, ha, _, _, hsorted, _, _, _⟩ := sz_files_init_table db archive0
  rw [hinit] at ha
  rw [Option.some.inj ha]
  exact hsorted

theorem sz_files_init_member (db : CSzArEx) (archive0 archive : SZarchive)
    (hinit : sz_files_init db archive0 = some archive) (f : SZfile) (hf : f ∈ archive.files) :
    ∃ j m, db.Files[j]? = some m ∧ sz_file_init db j = some f := by
  obtain ⟨a, fs, ha, _, hperm, _, hlen, hget, _⟩ := sz_files_init_table db archive0
  rw [hinit] at ha
  rw [← Option.some.inj ha] at hperm
  have hfs : f ∈ fs := hperm.subset hf
  obtain ⟨j, hj⟩ := List.getElem?_of_mem hfs
  have hjlt : j < db.Files.length := by
    have := lt_length_of_getElem? hj
    omega
  have hfj := hget j hjlt
  rw [hj] at hfj
  exact ⟨j, db.Files[j], List.getElem?_eq_getElem hjlt, hfj.symm⟩

/-! ## Metadata -/

/-- Counterexample to C24 as stated: `SZ_openArchive` for writing on a NULL
stream fails with `PHYSFS_ERR_INVALID_ARGUMENT`, not `PHYSFS_ERR_READ_ONLY`. -/
theorem SZ_openArchive_null_for_writing :
    SZ_openArchive pairOpen true true true none true 0 =
      { archive := none, err := some PHYSFS_ERR_INVALID_ARGUMENT, claimed := 0,
        opened := false } := by
  decide

/-- C24 (amended): `SZ_write` returns -1, `SZ_openWrite` and `SZ_openAppend`
return NULL, `SZ_remove` and `SZ_mkdir` return 0, each with
`PHYSFS_ERR_READ_ONLY`, for every argument and without a change of state;
`SZ_openArchive` for writing on a stream returns NULL with
`PHYSFS_ERR_READ_ONLY`, and for writing on any argument (a NULL stream included)
returns NULL without calling the decoder on the stream; `SZ_flush` returns 1
with no error and no change of state. -/
theorem write_family_read_only (archive : SZarchive) (io len : Nat) (b name : List Nat) :
    SZ_write archive io b len = ({ ret := -1, err := some PHYSFS_ERR_READ_ONLY }, archive) ∧
    SZ_openWrite archive name = ({ io := none, err := some PHYSFS_ERR_READ_ONLY }, archive) ∧
    SZ_openAppend archive name = ({ io := none, err := some PHYSFS_ERR_READ_ONLY }, archive) ∧
    SZ_remove archive name = ({ ret := 0, err := some PHYSFS_ERR_READ_ONLY }, archive) ∧
    SZ_mkdir archive name = ({ ret := 0, err := some PHYSFS_ERR_READ_ONLY }, archive) ∧
    (∀ (SzArEx_Open : List Nat → Int × CSzArEx) (mallocArchive mallocFiles mallocFolders : Bool)
        (stream : List Nat) (claimed : Int),
      SZ_openArchive SzArEx_Open mallocArchive mallocFiles mallocFolders (some stream) true
          claimed =
        { archive := none, err := some PHYSFS_ERR_READ_ONLY, claimed := claimed,
          opened := false }) ∧
    (∀ (SzArEx_Open : List Nat → Int × CSzArEx) (mallocArchive mallocFiles mallocFolders : Bool)
        (io0 : Option (List Nat)) (claimed : Int),
      (SZ_openArchive SzArEx_Open mallocArchive mallocFiles mallocFolders io0 true
          claimed).archive = none ∧
      (SZ_openArchive SzArEx_Open mallocArchive mallocFiles mallocFolders io0 true
          claimed).opened = false) ∧
    SZ_flush archive io = ({ ret := 1, err := none }, archive) := by
  refine ⟨rfl, rfl, rfl, rfl, rfl, ?_, ?_, rfl⟩
  · intro o mA mF mFo stream claimed
    simp [SZ_openArchive]
  · intro o mA mF mFo io0 claimed
    cases io0 <;> simp [SZ_openArchive]

/-! ## Translation of decoder result codes -/

/-- Counterexample to C29 as stated: `SZ_ERROR_PARAM`, `SZ_ERROR_INPUT_EOF` and
`SZ_ERROR_OUTPUT_EOF` are not among the codes the claim lists, and they are not
translated to the generic other-error. -/
theorem sz_err_param_and_eof :
    sz_err SZ_ERROR_PARAM = (some PHYSFS_ERR_INVALID_ARGUMENT, SZ_ERROR_PARAM) ∧
    sz_err SZ_ERROR_INPUT_EOF = (some PHYSFS_ERR_PAST_EOF, SZ_ERROR_INPUT_EOF) ∧
    sz_err SZ_ERROR_OUTPUT_EOF = (some PHYSFS_ERR_PAST_EOF, SZ_ERROR_OUTPUT_EOF) := by
  decide

theorem sz_err_default (rc : Int) (h0 : rc ≠ SZ_OK) (h1 : rc ≠ SZ_ERROR_DATA)
    (h2 : rc ≠ SZ_ERROR_MEM) (h3 : rc ≠ SZ_ERROR_CRC) (h4 : rc ≠ SZ_ERROR_UNSUPPORTED)
    (h5 : rc ≠ SZ_ERROR_PARAM) (h6 : rc ≠ SZ_ERROR_INPUT_EOF) (h7 : rc ≠ SZ_ERROR_OUTPUT_EOF)
    (h8 : rc ≠ SZ_ERROR_READ) (h9 : rc ≠ SZ_ERROR_WRITE) (h16 : rc ≠ SZ_ERROR_ARCHIVE) :
    sz_err rc = (some PHYSFS_ERR_OTHER_ERROR, rc) := by
  unfold sz_err
  rw [if_neg h0, if_neg h1, if_neg h2, if_neg h3, if_neg h4, if_neg h5, if_neg h6, if_neg h7,
    if_neg h8, if_neg h9]
  by_cases h10 : rc = SZ_ERROR_PROGRESS
  · rw [if_pos h10]
  rw [if_neg h10]
  by_cases h11 : rc = SZ_ERROR_FAIL
  · rw [if_pos h11]
  rw [if_neg h11]
  by_cases h12 : rc = SZ_ERROR_THREAD
  · rw [if_pos h12]
  rw [if_neg h12, if_neg h16]
  by_cases h17 : rc = SZ_ERROR_NO_ARCHIVE
  · rw [if_pos h17]
  rw [if_neg h17]

/-- C29 (amended): `sz_err` returns its argument for every result code, sets no
error exactly for `SZ_OK`, and translates data, CRC and archive errors to
`PHYSFS_ERR_CORRUPT`, memory errors to `PHYSFS_ERR_OUT_OF_MEMORY`, read and write
errors to `PHYSFS_ERR_IO`, unsupported to `PHYSFS_ERR_UNSUPPORTED`, parameter
errors to `PHYSFS_ERR_INVALID_ARGUMENT`, end of input or output to
`PHYSFS_ERR_PAST_EOF`, and every other code to `PHYSFS_ERR_OTHER_ERROR`. -/
theorem sz_err_translation (rc : Int) :
    (sz_err rc).2 = rc ∧
    ((sz_err rc).1 = none ↔ rc = SZ_OK) ∧
    (rc = SZ_ERROR_DATA ∨ rc = SZ_ERROR_CRC ∨ rc = SZ_ERROR_ARCHIVE →
      (sz_err rc).1 = some PHYSFS_ERR_CORRUPT) ∧
    (rc = SZ_ERROR_MEM → (sz_err rc).1 = some PHYSFS_ERR_OUT_OF_MEMORY) ∧
    (rc = SZ_ERROR_READ ∨ rc = SZ_ERROR_WRITE → (sz_err rc).1 = some PHYSFS_ERR_IO) ∧
    (rc = SZ_ERROR_UNSUPPORTED → (sz_err rc).1 = some PHYSFS_ERR_UNSUPPORTED) ∧
    (rc = SZ_ERROR_PARAM → (sz_err rc).1 = some PHYSFS_ERR_INVALID_ARGUMENT) ∧
    (rc = SZ_ERROR_INPUT_EOF ∨ rc = SZ_ERROR_OUTPUT_EOF →
      (sz_err rc).1 = some PHYSFS_ERR_PAST_EOF) ∧
    (rc ≠ SZ_OK → rc ≠ SZ_ERROR_DATA → rc ≠ SZ_ERROR_CRC → rc ≠ SZ_ERROR_ARCHIVE →
      rc ≠ SZ_ERROR_MEM → rc ≠ SZ_ERROR_READ → rc ≠ SZ_ERROR_WRITE →
      rc ≠ SZ_ERROR_UNSUPPORTED → rc ≠ SZ_ERROR_PARAM → rc ≠ SZ_ERROR_INPUT_EOF →
      rc ≠ SZ_ERROR_OUTPUT_EOF → (sz_err rc).1 = some PHYSFS_ERR_OTHER_ERROR) := by
  by_cases h0 : rc = SZ_OK
  · subst h0
    simp [sz_err, SZ_OK, SZ_ERROR_DATA, SZ_ERROR_MEM, SZ_ERROR_CRC, SZ_ERROR_UNSUPPORTED,
      SZ_ERROR_PARAM, SZ_ERROR_INPUT_EOF, SZ_ERROR_OUTPUT_EOF, SZ_ERROR_READ, SZ_ERROR_WRITE,
      SZ_ERROR_PROGRESS, SZ_ERROR_FAIL, SZ_ERROR_THREAD, SZ_ERROR_ARCHIVE, SZ_ERROR_NO_ARCHIVE]
  by_cases h1 : rc = SZ_ERROR_DATA
  · subst h1
    simp [sz_err, SZ_OK, SZ_ERROR_DATA, SZ_ERROR_MEM, SZ_ERROR_CRC, SZ_ERROR_UNSUPPORTED,
      SZ_ERROR_PARAM, SZ_ERROR_INPUT_EOF, SZ_ERROR_OUTPUT_EOF, SZ_ERROR_READ, SZ_ERROR_WRITE,
      SZ_ERROR_PROGRESS, SZ_ERROR_FAIL, SZ_ERROR_THREAD, SZ_ERROR_ARCHIVE, SZ_ERROR_NO_ARCHIVE]
  by_cases h2 : rc = SZ_ERROR_MEM
  · subst h2
    simp [sz_err, SZ_OK, SZ_ERROR_DATA, SZ_ERROR_MEM, SZ_ERROR_CRC, SZ_ERROR_UNSUPPORTED,
      SZ_ERROR_PARAM, SZ_ERROR_INPUT_EOF, SZ_ERROR_OUTPUT_EOF, SZ_ERROR_READ, SZ_ERROR_WRITE,
      SZ_ERROR_PROGRESS, SZ_ERROR_FAIL, SZ_ERROR_THREAD, SZ_ERROR_ARCHIVE, SZ_ERROR_NO_ARCHIVE]
  by_cases h3 : rc = SZ_ERROR_CRC
  · subst h3
    simp [sz_err, SZ_OK, SZ_ERROR_DATA, SZ_ERROR_MEM, SZ_ERROR_CRC, SZ_ERROR_UNSUPPORTED,
      SZ_ERROR_PARAM, SZ_ERROR_INPUT_EOF, SZ_ERROR_OUTPUT_EOF, SZ_ERROR_READ, SZ_ERROR_WRITE,
      SZ_ERROR_PROGRESS, SZ_ERROR_FAIL, SZ_ERROR_THREAD, SZ_ERROR_ARCHIVE, SZ_ERROR_NO_ARCHIVE]
  by_cases h4 : rc = SZ_ERROR_UNSUPPORTED
  · subst h4
    simp [sz_err, SZ_OK, SZ_ERROR_DATA, SZ_ERROR_MEM, SZ_ERROR_CRC, SZ_ERROR_UNSUPPORTED,
      SZ_ERROR_PARAM, SZ_ERROR_INPUT_EOF, SZ_ERROR_OUTPUT_EOF, SZ_ERROR_READ, SZ_ERROR_WRITE,
      SZ_ERROR_PROGRESS, SZ_ERROR_FAIL, SZ_ERROR_THREAD, SZ_ERROR_ARCHIVE, SZ_ERROR_NO_ARCHIVE]
  by_cases h5 : rc = SZ_ERROR_PARAM
  · subst h5
    simp [sz_err, SZ_OK, SZ_ERROR_DATA, SZ_ERROR_MEM, SZ_ERROR_CRC, SZ_ERROR_UNSUPPORTED,
      SZ_ERROR_PARAM, SZ_ERROR_INPUT_EOF, SZ_ERROR_OUTPUT_EOF, SZ_ERROR_READ, SZ_ERROR_WRITE,
      SZ_ERROR_PROGRESS, SZ_ERROR_FAIL, SZ_ERROR_THREAD, SZ_ERROR_ARCHIVE, SZ_ERROR_NO_ARCHIVE]
  by_cases h6 : rc = SZ_ERROR_INPUT_EOF
  · subst h6
    simp [sz_err, SZ_OK, SZ_ERROR_DATA, SZ_ERROR_MEM, SZ_ERROR_CRC, SZ_ERROR_UNSUPPORTED,
      SZ_ERROR_PARAM, SZ_ERROR_INPUT_EOF, SZ_ERROR_OUTPUT_EOF, SZ_ERROR_READ, SZ_ERROR_WRITE,
      SZ_ERROR_PROGRESS, SZ_ERROR_FAIL, SZ_ERROR_THREAD, SZ_ERROR_ARCHIVE, SZ_ERROR_NO_ARCHIVE]
  by_cases h7 : rc = SZ_ERROR_OUTPUT_EOF
  · subst h7
    simp [sz_err, SZ_OK, SZ_ERROR_DATA, SZ_ERROR_MEM, SZ_ERROR_CRC, SZ_ERROR_UNSUPPORTED,
      SZ_ERROR_PARAM, SZ_ERROR_INPUT_EOF, SZ_ERROR_OUTPUT_EOF, SZ_ERROR_READ, SZ_ERROR_WRITE,
      SZ_ERROR_PROGRESS, SZ_ERROR_FAIL, SZ_ERROR_THREAD, SZ_ERROR_ARCHIVE, SZ_ERROR_NO_ARCHIVE]
  by_cases h8 : rc = SZ_ERROR_READ
  · subst h8
    simp [sz_err, SZ_OK, SZ_ERROR_DATA, SZ_ERROR_MEM, SZ_ERROR_CRC, SZ_ERROR_UNSUPPORTED,
      SZ_ERROR_PARAM, SZ_ERROR_INPUT_EOF, SZ_ERROR_OUTPUT_EOF, SZ_ERROR_READ, SZ_ERROR_WRITE,
      SZ_ERROR_PROGRESS, SZ_ERROR_FAIL, SZ_ERROR_THREAD, SZ_ERROR_ARCHIVE, SZ_ERROR_NO_ARCHIVE]
  by_cases h9 : rc = SZ_ERROR_WRITE
  · subst h9
    simp [sz_err, SZ_OK, SZ_ERROR_DATA, SZ_ERROR_MEM, SZ_ERROR_CRC, SZ_ERROR_UNSUPPORTED,
      SZ_ERROR_PARAM, SZ_ERROR_INPUT_EOF, SZ_ERROR_OUTPUT_EOF, SZ_ERROR_READ, SZ_ERROR_WRITE,
      SZ_ERROR_PROGRESS, SZ_ERROR_FAIL, SZ_ERROR_THREAD, SZ_ERROR_ARCHIVE, SZ_ERROR_NO_ARCHIVE]
  by_cases h16 : rc = SZ_ERROR_ARCHIVE
  · subst h16
    simp [sz_err, SZ_OK, SZ_ERROR_DATA, SZ_ERROR_MEM, SZ_ERROR_CRC, SZ_ERROR_UNSUPPORTED,
      SZ_ERROR_PARAM, SZ_ERROR_INPUT_EOF, SZ_ERROR_OUTPUT_EOF, SZ_ERROR_READ, SZ_ERROR_WRITE,
      SZ_ERROR_PROGRESS, SZ_ERROR_FAIL, SZ_ERROR_THREAD, SZ_ERROR_ARCHIVE, SZ_ERROR_NO_ARCHIVE]
  rw [sz_err_default rc h0 h1 h2 h3 h4 h5 h6 h7 h8 h9 h16]
  refine ⟨rfl, ⟨fun h => absurd h (by simp), fun h => absurd h h0⟩, ?_, ?_, ?_, ?_, ?_, ?_,
    fun _ _ _ _ _ _ _ _ _ _ _ => rfl⟩
  · rintro (h | h | h)
    · exact absurd h h1
    · exact absurd h h3
    · exact absurd h h16
  · exact fun h => absurd h h2
  · rintro (h | h)
    · exact absurd h h8
    · exact absurd h h9
  · exact fun h => absurd h h4
  · exact fun h => absurd h h5
  · rintro (h | h)
    · exact absurd h h6
    · exact absurd h h7

/-! ## A failed allocation in `SZ_openRead` -/

/-- C30, the code at the failing input: `SZ_openRead` of `a.txt`
with the allocation of the handle object failing returns NULL with
`PHYSFS_ERR_OUT_OF_MEMORY`, and the reference count of folder 0 is 1 afterwards
(it was 0 before). -/
theorem SZ_openRead_alloc_failure_leaks :
    SZ_openRead false pairArchive0 (cstr "a.txt") =
      some ({ io := none, err := some PHYSFS_ERR_OUT_OF_MEMORY }, pairArchive1) := by
  decide

/-! ## Enumeration of an absent directory and of the end-to-end archive -/

/-- C28: on an index built by `sz_files_init`, `SZ_enumerateFiles` on a non-empty
directory name that no entry has returns `PHYSFS_ENUM_ERROR` with
`PHYSFS_ERR_NOT_FOUND`, whatever the callback is, and leaves the callback data
as it was (the callback is not called). -/
theorem SZ_enumerateFiles_absent_dir {σ : Type} (db : CSzArEx) (archive0 archive : SZarchive)
    (hinit : sz_files_init db archive0 = some archive) (dname : List Nat)
    (hne : dname ≠ []) (habsent : ∀ f ∈ archive.files, f.name ≠ dname)
    (smallAlloc : Nat → Bool) (cb : PHYSFS_EnumerateCallback σ) (callbackdata : σ) :
    SZ_enumerateFiles smallAlloc archive dname cb callbackdata =
      some ⟨PHYSFS_ENUM_ERROR, some PHYSFS_ERR_NOT_FOUND, callbackdata⟩ := by
  have hsorted := sz_files_init_sorted db archive0 archive hinit
  have hnone := (sz_find_file_none_iff archive hsorted dname).mpr habsent
  have hlen : strlen dname ≠ 0 := by
    unfold strlen
    intro h
    exact hne (List.length_eq_zero.mp h)
  simp only [SZ_enumerateFiles, hnone, if_pos hlen]

/-- Witness of C28: the directory `zzz` in the index of `pairDb`. -/
theorem SZ_enumerateFiles_absent_dir_witness :
    SZ_enumerateFiles allocOk pairArchive0 (cstr "zzz") (visitor (always PHYSFS_ENUM_OK)) [] =
      some ⟨PHYSFS_ENUM_ERROR, some PHYSFS_ERR_NOT_FOUND, []⟩ :=
  SZ_enumerateFiles_absent_dir pairDb { files := [], folders := [emptyFolder] } pairArchive0
    (by decide) (cstr "zzz") (by decide) (by decide) allocOk (visitor (always PHYSFS_ENUM_OK)) []

/-- Counterexample to C21 as stated: with the member list made of exactly
`a.txt` and `dir/b.txt`, enumerating the root visits `a.txt` only; `dir` is not
visited. -/
theorem SZ_enumerateFiles_no_implicit_dir :
    (freshArchive endToEndDb).bind
        (fun archive => enumerate archive (cstr "") (always PHYSFS_ENUM_OK)) =
      some (PHYSFS_ENUM_OK, [cstr "a.txt"]) := by
  decide

/-- C21 (amended): for the archive whose member list consists of `a.txt`,
`dir/b.txt` and a directory member `dir`, in any order, enumerating the root
visits `a.txt` and then `dir`, enumerating `dir` visits exactly `b.txt`, and
`SZ_stat` on `dir` returns 1 and reports a directory of size 0.  Without the
member `dir`, enumerating the root visits `a.txt` only, and enumerating `dir`
and `SZ_stat` on `dir` fail with `PHYSFS_ERR_NOT_FOUND`. -/
theorem end_to_end_listing (db : CSzArEx) (hdb : db ∈ endToEndDirDbs) :
    (∃ archive, freshArchive db = some archive ∧
      enumerate archive (cstr "") (always PHYSFS_ENUM_OK) =
        some (PHYSFS_ENUM_OK, [cstr "a.txt", cstr "dir"]) ∧
      enumerate archive (cstr "dir") (always PHYSFS_ENUM_OK) =
        some (PHYSFS_ENUM_OK, [cstr "b.txt"]) ∧
      ∀ stat : PHYSFS_Stat, ∃ r, SZ_stat archive (cstr "dir") stat = some r ∧
        r.ret = 1 ∧ r.err = none ∧ r.stat.filetype = PHYSFS_FILETYPE_DIRECTORY ∧
        r.stat.filesize = 0) ∧
    (∃ archive, freshArchive endToEndDb = some archive ∧
      enumerate archive (cstr "") (always PHYSFS_ENUM_OK) =
        some (PHYSFS_ENUM_OK, [cstr "a.txt"]) ∧
      SZ_enumerateFiles allocOk archive (cstr "dir") (visitor (always PHYSFS_ENUM_OK)) [] =
        some ⟨PHYSFS_ENUM_ERROR, some PHYSFS_ERR_NOT_FOUND, []⟩ ∧
      ∀ stat : PHYSFS_Stat, SZ_stat archive (cstr "dir") stat =
        some { ret := 0, err := some PHYSFS_ERR_NOT_FOUND, stat := stat }) := by
  constructor
  · simp only [endToEndDirDbs, List.mem_cons, List.mem_singleton, List.not_mem_nil,
      or_false] at hdb
    rcases hdb with rfl | rfl | rfl | rfl | rfl | rfl
    all_goals
      refine ⟨_, rfl, by decide, by decide, fun stat => ⟨_, rfl, rfl, rfl, rfl, rfl⟩⟩
  · exact ⟨_, rfl, by decide, rfl, fun stat => rfl⟩

/-- Witness of C21: the member list in the order `a.txt`, `dir`, `dir/b.txt`. -/
theorem end_to_end_listing_witness :
    endToEndDirDb ∈ endToEndDirDbs ∧
    ((∃ archive, freshArchive endToEndDirDb = some archive ∧
      enumerate archive (cstr "") (always PHYSFS_ENUM_OK) =
        some (PHYSFS_ENUM_OK, [cstr "a.txt", cstr "dir"]) ∧
      enumerate archive (cstr "dir") (always PHYSFS_ENUM_OK) =
        some (PHYSFS_ENUM_OK, [cstr "b.txt"]) ∧
      ∀ stat : PHYSFS_Stat, ∃ r, SZ_stat archive (cstr "dir") stat = some r ∧
        r.ret = 1 ∧ r.err = none ∧ r.stat.filetype = PHYSFS_FILETYPE_DIRECTORY ∧
        r.stat.filesize = 0) ∧
    (∃ archive, freshArchive endToEndDb = some archive ∧
      enumerate archive (cstr "") (always PHYSFS_ENUM_OK) =
        some (PHYSFS_ENUM_OK, [cstr "a.txt"]) ∧
      SZ_enumerateFiles allocOk archive (cstr "dir") (visitor (always PHYSFS_ENUM_OK)) [] =
        some ⟨PHYSFS_ENUM_ERROR, some PHYSFS_ERR_NOT_FOUND, []⟩ ∧
      ∀ stat : PHYSFS_Stat, SZ_stat archive (cstr "dir") stat =
        some { ret := 0, err := some PHYSFS_ERR_NOT_FOUND, stat := stat })) :=
  ⟨by decide, end_to_end_listing endToEndDirDb (by decide)⟩

/-! ## The shape of the state after a handle operation -/

theorem set_eq_self {α : Type} {l : List α} {i : Nat} {x : α} (h : l[i]? = some x) :
    l.set i x = l := by
  apply List.ext_getElem?
  intro j
  rw [List.getElem?_set]
  split_ifs with h1 h2
  · rw [← h1, h]
  · rw [← h1, List.getElem?_eq_none (by omega)]
  · rfl

theorem position_bound (file : SZfile) (len : Nat) (hpos : file.position ≤ file.item.Size) :
    (file.position + clampedSize file len) % SIZE_MOD ≤ file.item.Size := by
  unfold clampedSize sub64
  simp only [SIZE_MOD]
  split_ifs <;> omega

theorem SZ_read_fill_shape (extract : Decoder) (archive : SZarchive) (io fi w : Nat)
    (file : SZfile) (folder : SZfolder) (hfo : archive.folders[fi]? = some folder) :
    ∃ file1 folder1,
      (SZ_read_fill extract archive io fi file folder w).2 =
        { files := archive.files.set io file1, folders := archive.folders.set fi folder1 } ∧
      file1.folder = file.folder ∧ file1.item = file.item ∧
      (file1.position = file.position ∨ file1.position = (file.position + w) % SIZE_MOD) ∧
      folder1.references = folder.references := by
  cases hcache : folder.cache with
  | some bytes =>
    rw [SZ_read_fill_cached extract archive io fi w file folder bytes hcache]
    refine ⟨{ file with position := (file.position + w) % SIZE_MOD }, folder, ?_, rfl, rfl,
      Or.inr rfl, rfl⟩
    rw [set_eq_self hfo]
  | none =>
    unfold SZ_read_fill
    rw [hcache]
    simp only [SZ_read_copy, List.set_set]
    split_ifs
    · exact ⟨{ file with offset := (extract file.index folder.index none folder.size
          file.offset).offset },
        { folder with
          index := (extract file.index folder.index none folder.size file.offset).blockIndex
          cache := (extract file.index folder.index none folder.size file.offset).tempBuf
          size := (extract file.index folder.index none folder.size file.offset).outBufferSize },
        rfl, rfl, rfl, Or.inl rfl, rfl⟩
    · exact ⟨{ file with offset := (extract file.index folder.index none folder.size
          file.offset).offset },
        { folder with
          index := (extract file.index folder.index none folder.size file.offset).blockIndex
          cache := (extract file.index folder.index none folder.size file.offset).tempBuf
          size := (extract file.index folder.index none folder.size file.offset).outBufferSize },
        rfl, rfl, rfl, Or.inl rfl, rfl⟩
    · exact ⟨{ file with offset := (extract file.index folder.index none folder.size
          file.offset).offset },
        { folder with
          index := (extract file.index folder.index none folder.size file.offset).blockIndex
          cache := (extract file.index folder.index none folder.size file.offset).tempBuf
          size := (extract file.index folder.index none folder.size file.offset).outBufferSize },
        rfl, rfl, rfl, Or.inl rfl, rfl⟩
    · exact ⟨{ file with
          offset := (extract file.index folder.index none folder.size file.offset).offset
          position := (file.position + w) % SIZE_MOD },
        { folder with
          index := (extract file.index folder.index none folder.size file.offset).blockIndex
          cache := (extract file.index folder.index none folder.size file.offset).tempBuf
          size := (extract file.index folder.index none folder.size file.offset).outBufferSize },
        rfl, rfl, rfl, Or.inr rfl, rfl⟩

/-- The state after `SZ_read` on a handle with a valid folder link: the slots of
the handle's entry and of its folder are rewritten, with the same link, item and
reference count, and a position that is still at most the size. -/
theorem SZ_read_shape (extract : Decoder) (archive : SZarchive) (io len fi : Nat)
    (file : SZfile) (folder : SZfolder)
    (hfile : archive.files[io]? = some file) (hfolder : file.folder = some fi)
    (hfo : archive.folders[fi]? = some folder) :
    ∃ r file1 folder1,
      SZ_read extract archive io len =
        some (r, { files := archive.files.set io file1,
                   folders := archive.folders.set fi folder1 }) ∧
      file1.folder = file.folder ∧ file1.item = file.item ∧
      (file.position ≤ file.item.Size → file1.position ≤ file.item.Size) ∧
      folder1.references = folder.references := by
  have hsame : ({ files := archive.files.set io file, folders := archive.folders.set fi folder } :
      SZarchive) = archive := by
    rw [set_eq_self hfile, set_eq_self hfo]
  by_cases hlen : len % SIZE_MOD = 0
  · refine ⟨{ ret := 0, err := none, outBuf := OutBuf.untouched, extracted := false },
      file, folder, ?_, rfl, rfl, fun h => h, rfl⟩
    rw [hsame]
    exact SZ_read_zero extract archive io len file hfile hlen
  by_cases hrem : sub64 file.item.Size file.position = 0
  · refine ⟨{ ret := 0, err := some PHYSFS_ERR_PAST_EOF, outBuf := OutBuf.untouched,
              extracted := false }, file, folder, ?_, rfl, rfl, fun h => h, rfl⟩
    rw [hsame]
    exact SZ_read_eof extract archive io len file hfile hlen hrem
  obtain ⟨file1, folder1, hfill, h1, h2, h3, h4⟩ :=
    SZ_read_fill_shape extract archive io fi (clampedSize file len) file folder hfo
  refine ⟨(SZ_read_fill extract archive io fi file folder (clampedSize file len)).1,
    file1, folder1, ?_, h1, h2, ?_, h4⟩
  · rw [SZ_read_effective extract archive io len fi file folder hfile hfolder hfo hlen hrem,
      ← hfill]
  · intro hpos
    rcases h3 with h3 | h3
    · rw [h3]; exact hpos
    · rw [h3]; exact position_bound file len hpos

/-- The state after `SZ_seek` on a valid handle: only the position of the
handle's entry can differ, and it is at most the size if it was. -/
theorem SZ_seek_shape (archive : SZarchive) (io offset : Nat) (file : SZfile)
    (hfile : archive.files[io]? = some file) :
    ∃ r file1,
      SZ_seek archive io offset =
        some (r, { files := archive.files.set io file1, folders := archive.folders }) ∧
      file1.folder = file.folder ∧ file1.item = file.item ∧
      (file.position ≤ file.item.Size → file1.position ≤ file.item.Size) := by
  unfold SZ_seek
  rw [hfile]
  simp only []
  split_ifs with h
  · refine ⟨{ ret := 0, err := some PHYSFS_ERR_PAST_EOF }, file, ?_, rfl, rfl, fun h => h⟩
    rw [set_eq_self hfile]
  · exact ⟨{ ret := 1, err := none }, { file with position := offset }, rfl, rfl, rfl,
      fun _ => by simp only []; omega⟩

/-- The three outcomes of `SZ_openRead` on a table with valid folder links. -/
theorem SZ_openRead_shape (mallocOk : Bool) (archive : SZarchive) (path : List Nat)
    (hlinks : linksOk archive) :
    SZ_openRead mallocOk archive path =
        some ({ io := none, err := some PHYSFS_ERR_NOT_FOUND }, archive) ∨
    SZ_openRead mallocOk archive path =
        some ({ io := none, err := some PHYSFS_ERR_NOT_A_FILE }, archive) ∨
    ∃ pos file fi folder, archive.files[pos]? = some file ∧ file.folder = some fi ∧
      archive.folders[fi]? = some folder ∧
      SZ_openRead mallocOk archive path =
        some ({ io := if mallocOk then some pos else none
                err := if mallocOk then none else some PHYSFS_ERR_OUT_OF_MEMORY },
              { files := archive.files.set pos { file with position := 0 }
                folders := archive.folders.set fi
                  { folder with references := (folder.references + 1) % UINT32_MOD } }) := by
  cases hfind : sz_find_file archive path with
  | none => exact Or.inl (SZ_openRead_not_found mallocOk archive path hfind)
  | some pos =>
    obtain ⟨file, hfile, _⟩ := sz_find_file_sound archive path pos hfind
    cases hfolder : file.folder with
    | none =>
      exact Or.inr (Or.inl (SZ_openRead_no_folder mallocOk archive path pos file hfind hfile
        hfolder))
    | some fi =>
      have hlt : fi < archive.folders.length :=
        hlinks file (List.getElem?_mem hfile) fi hfolder
      refine Or.inr (Or.inr ⟨pos, file, fi, archive.folders[fi], hfile, hfolder,
        List.getElem?_eq_getElem hlt, ?_⟩)
      simp only [SZ_openRead, hfind, hfile, hfolder, List.getElem?_eq_getElem hlt]
      cases mallocOk <;> rfl

/-! ## What a returning handle operation did -/

theorem SZ_read_some (extract : Decoder) (archive archive1 : SZarchive) (io len : Nat)
    (r : ReadResult) (h : SZ_read extract archive io len = some (r, archive1)) :
    ∃ file file1, archive.files[io]? = some file ∧ file1.folder = file.folder ∧
      file1.item = file.item ∧
      (file.position ≤ file.item.Size → file1.position ≤ file.item.Size) ∧
      archive1.files = archive.files.set io file1 ∧
      (archive1.folders = archive.folders ∨
        ∃ fi folder folder1, file.folder = some fi ∧ archive.folders[fi]? = some folder ∧
          archive1.folders = archive.folders.set fi folder1 ∧
          folder1.references = folder.references) := by
  cases hfile : archive.files[io]? with
  | none => simp [SZ_read, hfile] at h
  | some file =>
    by_cases hlen : len % SIZE_MOD = 0
    · rw [SZ_read_zero extract archive io len file hfile hlen] at h
      simp only [Option.some.injEq, Prod.mk.injEq] at h
      rw [← h.2]
      exact ⟨file, file, rfl, rfl, rfl, fun h => h, (set_eq_self hfile).symm, Or.inl rfl⟩
    by_cases hrem : sub64 file.item.Size file.position = 0
    · rw [SZ_read_eof extract archive io len file hfile hlen hrem] at h
      simp only [Option.some.injEq, Prod.mk.injEq] at h
      rw [← h.2]
      exact ⟨file, file, rfl, rfl, rfl, fun h => h, (set_eq_self hfile).symm, Or.inl rfl⟩
    cases hfolder : file.folder with
    | none => simp [SZ_read, hfile, hlen, hrem, hfolder] at h
    | some fi =>
      cases hfo : archive.folders[fi]? with
      | none => simp [SZ_read, hfile, hlen, hrem, hfolder, hfo] at h
      | some folder =>
        obtain ⟨r1, file1, folder1, hread, h1, h2, h3, h4⟩ :=
          SZ_read_shape extract archive io len fi file folder hfile hfolder hfo
        rw [hread] at h
        simp only [Option.some.injEq, Prod.mk.injEq] at h
        rw [← h.2]
        exact ⟨file, file1, rfl, h1, h2, h3, rfl,
          Or.inr ⟨fi, folder, folder1, hfolder, hfo, rfl, h4⟩⟩

theorem SZ_seek_some (archive archive1 : SZarchive) (io offset : Nat) (r : SeekResult)
    (h : SZ_seek archive io offset = some (r, archive1)) :
    ∃ file file1, archive.files[io]? = some file ∧ file1.folder = file.folder ∧
      file1.item = file.item ∧
      (file.position ≤ file.item.Size → file1.position ≤ file.item.Size) ∧
      archive1.files = archive.files.set io file1 ∧ archive1.folders = archive.folders := by
  cases hfile : archive.files[io]? with
  | none => simp [SZ_seek, hfile] at h
  | some file =>
    obtain ⟨r1, file1, hseek, h1, h2, h3⟩ := SZ_seek_shape archive io offset file hfile
    rw [hseek] at h
    simp only [Option.some.injEq, Prod.mk.injEq] at h
    rw [← h.2]
    exact ⟨file, file1, rfl, h1, h2, h3, rfl, rfl⟩

theorem SZ_openRead_some (mallocOk : Bool) (archive archive1 : SZarchive) (path : List Nat)
    (r : OpenResult) (h : SZ_openRead mallocOk archive path = some (r, archive1)) :
    (r.io = none ∧ archive1 = archive) ∨
    ∃ pos file fi folder, archive.files[pos]? = some file ∧ file.folder = some fi ∧
      archive.folders[fi]? = some folder ∧
      r.io = (if mallocOk then some pos else none) ∧
      archive1 =
        { files := archive.files.set pos { file with position := 0 }
          folders := archive.folders.set fi
            { folder with references := (folder.references + 1) % UINT32_MOD } } := by
  unfold SZ_openRead at h
  cases hfind : sz_find_file archive path with
  | none =>
    rw [hfind] at h
    simp only [Option.some.injEq, Prod.mk.injEq] at h
    exact Or.inl ⟨by rw [← h.1], h.2.symm⟩
  | some pos =>
    rw [hfind] at h
    simp only [] at h
    cases hfile : archive.files[pos]? with
    | none => rw [hfile] at h; simp at h
    | some file =>
      rw [hfile] at h
      simp only [] at h
      cases hfolder : file.folder with
      | none =>
        rw [hfolder] at h
        simp only [Option.some.injEq, Prod.mk.injEq] at h
        exact Or.inl ⟨by rw [← h.1], h.2.symm⟩
      | some fi =>
        rw [hfolder] at h
        simp only [] at h
        cases hfo : archive.folders[fi]? with
        | none => rw [hfo] at h; simp at h
        | some folder =>
          rw [hfo] at h
          simp only [] at h
          refine Or.inr ⟨pos, file, fi, folder, hfile, hfolder, hfo, ?_, ?_⟩
          · cases mallocOk
            · simp only [Bool.false_eq_true, if_false, Option.some.injEq, Prod.mk.injEq] at h
              rw [← h.1]
              rfl
            · simp only [if_true, Option.some.injEq, Prod.mk.injEq] at h
              rw [← h.1]
              rfl
          · cases mallocOk
            · simp only [Bool.false_eq_true, if_false, Option.some.injEq, Prod.mk.injEq] at h
              rw [← h.2, hfolder]
            · simp only [if_true, Option.some.injEq, Prod.mk.injEq] at h
              rw [← h.2, hfolder]

theorem SZ_destroy_some (archive archive1 : SZarchive) (io : Nat)
    (h : SZ_destroy archive io = some archive1) :
    ∃ file, archive.files[io]? = some file ∧
      ((file.folder = none ∧ archive1 = archive) ∨
        ∃ fi folder, file.folder = some fi ∧ archive.folders[fi]? = some folder ∧
          archive1 = { archive with folders := archive.folders.set fi (afterDestroy folder) }) := by
  cases hfile : archive.files[io]? with
  | none => simp [SZ_destroy, hfile] at h
  | some file =>
    cases hfolder : file.folder with
    | none =>
      simp only [SZ_destroy, hfile, hfolder, Option.some.injEq] at h
      exact ⟨file, rfl, Or.inl ⟨hfolder, h.symm⟩⟩
    | some fi =>
      cases hfo : archive.folders[fi]? with
      | none => simp [SZ_destroy, hfile, hfolder, hfo] at h
      | some folder =>
        rw [SZ_destroy_folder archive io fi file folder hfile hfolder hfo] at h
        exact ⟨file, rfl, Or.inr ⟨fi, folder, hfolder, hfo, (Option.some.inj h).symm⟩⟩

/-! ## Positions stay within the entry -/

theorem positionsOk_set (archive archive1 : SZarchive) (io : Nat)
    (file file1 : SZfile) (hpos : positionsOk archive)
    (hfile : archive.files[io]? = some file) (hitem : file1.item = file.item)
    (hle : file.position ≤ file.item.Size → file1.position ≤ file.item.Size)
    (hfiles : archive1.files = archive.files.set io file1) :
    positionsOk archive1 := by
  intro f hf
  rw [hfiles] at hf
  rcases List.mem_or_eq_of_mem_set hf with hmem | heq
  · exact hpos f hmem
  · rw [heq, hitem]
    exact hle (hpos file (List.getElem?_mem hfile))

/-- One call rewrites at most one slot of the file table, keeping its folder link
and item, and keeping its position within the size. -/
theorem step_files (extract : Decoder) (s s1 : Session) (op : Op)
    (hstep : step extract s op = some s1) :
    s1.archive.files = s.archive.files ∨
    ∃ io file file1, s.archive.files[io]? = some file ∧ file1.folder = file.folder ∧
      file1.item = file.item ∧
      (file.position ≤ file.item.Size → file1.position ≤ file.item.Size) ∧
      s1.archive.files = s.archive.files.set io file1 := by
  cases op with
  | openRead mallocOk path =>
    simp only [step] at hstep
    cases hopen : SZ_openRead mallocOk s.archive path with
    | none => rw [hopen] at hstep; simp at hstep
    | some ra =>
      obtain ⟨r, a1⟩ := ra
      rw [hopen] at hstep
      have ha : s1.archive = a1 := by
        simp only [] at hstep
        cases hio : r.io with
        | none => rw [hio] at hstep; simp only [Option.some.injEq] at hstep; rw [← hstep]
        | some io => rw [hio] at hstep; simp only [Option.some.injEq] at hstep; rw [← hstep]
      rw [ha]
      rcases SZ_openRead_some mallocOk s.archive a1 path r hopen with ⟨_, h1⟩ |
        ⟨pos, file, fi, folder, hfile, _, _, _, h1⟩
      · rw [h1]; exact Or.inl rfl
      · rw [h1]
        exact Or.inr ⟨pos, file, { file with position := 0 }, hfile, rfl, rfl,
          fun _ => Nat.zero_le _, rfl⟩
  | read io len =>
    simp only [step] at hstep
    split_ifs at hstep with hmem
    cases hread : SZ_read extract s.archive io len with
    | none => rw [hread] at hstep; simp at hstep
    | some ra =>
      obtain ⟨r, a1⟩ := ra
      rw [hread] at hstep
      simp only [Option.some.injEq] at hstep
      rw [← hstep]
      obtain ⟨file, file1, hfile, hlink, hitem, hle, hfiles, _⟩ :=
        SZ_read_some extract s.archive a1 io len r hread
      exact Or.inr ⟨io, file, file1, hfile, hlink, hitem, hle, hfiles⟩
  | seek io offset =>
    simp only [step] at hstep
    split_ifs at hstep with hmem
    cases hseek : SZ_seek s.archive io offset with
    | none => rw [hseek] at hstep; simp at hstep
    | some ra =>
      obtain ⟨r, a1⟩ := ra
      rw [hseek] at hstep
      simp only [Option.some.injEq] at hstep
      rw [← hstep]
      obtain ⟨file, file1, hfile, hlink, hitem, hle, hfiles, _⟩ :=
        SZ_seek_some s.archive a1 io offset r hseek
      exact Or.inr ⟨io, file, file1, hfile, hlink, hitem, hle, hfiles⟩
  | destroy io =>
    simp only [step] at hstep
    split_ifs at hstep with hmem
    cases hd : SZ_destroy s.archive io with
    | none => rw [hd] at hstep; simp at hstep
    | some a1 =>
      rw [hd] at hstep
      simp only [Option.some.injEq] at hstep
      rw [← hstep]
      obtain ⟨file, hfile, h1 | ⟨fi, folder, _, _, h1⟩⟩ := SZ_destroy_some s.archive a1 io hd
      · rw [h1.2]; exact Or.inl rfl
      · rw [h1]; exact Or.inl rfl

theorem map_set_eq_self {α β : Type} (f : α → β) {l : List α} {i : Nat} {x y : α}
    (h : l[i]? = some x) (hxy : f y = f x) : (l.set i y).map f = l.map f := by
  rw [List.map_set]
  apply set_eq_self
  rw [List.getElem?_map, h, hxy]
  rfl

/-- One call keeps the positions within the sizes, and keeps every item and
every folder link of the file table. -/
theorem step_frame (extract : Decoder) (s s1 : Session) (op : Op)
    (hstep : step extract s op = some s1) :
    (positionsOk s.archive → positionsOk s1.archive) ∧
    s1.archive.files.map SZfile.item = s.archive.files.map SZfile.item ∧
    s1.archive.files.map SZfile.folder = s.archive.files.map SZfile.folder := by
  rcases step_files extract s s1 op hstep with h | ⟨io, file, file1, hfile, hlink, hitem, hle, h⟩
  · refine ⟨fun hpos f hf => ?_, by rw [h], by rw [h]⟩
    rw [h] at hf
    exact hpos f hf
  · refine ⟨fun hpos => positionsOk_set s.archive s1.archive io file file1 hpos hfile hitem hle h,
      ?_, ?_⟩
    · rw [h]; exact map_set_eq_self SZfile.item hfile hitem
    · rw [h]; exact map_set_eq_self SZfile.folder hfile hlink

theorem run_frame (extract : Decoder) (ops : List Op) (s s1 : Session)
    (hrun : run extract ops s = some s1) :
    (positionsOk s.archive → positionsOk s1.archive) ∧
    s1.archive.files.map SZfile.item = s.archive.files.map SZfile.item ∧
    s1.archive.files.map SZfile.folder = s.archive.files.map SZfile.folder := by
  induction ops generalizing s with
  | nil =>
    simp only [run, Option.some.injEq] at hrun
    rw [← hrun]
    exact ⟨fun h => h, rfl, rfl⟩
  | cons op ops ih =>
    simp only [run] at hrun
    cases hstep : step extract s op with
    | none => rw [hstep] at hrun; simp at hrun
    | some s2 =>
      rw [hstep] at hrun
      obtain ⟨h1, h2, h3⟩ := step_frame extract s s2 op hstep
      obtain ⟨k1, k2, k3⟩ := ih s2 hrun
      exact ⟨fun h => k1 (h1 h), k2.trans h2, k3.trans h3⟩

theorem freshArchive_positionsOk (db : CSzArEx) (archive : SZarchive)
    (h : freshArchive db = some archive) : positionsOk archive := by
  intro f hf
  obtain ⟨j, m, hm, hj⟩ := sz_files_init_member db _ archive h f hf
  simp only [sz_file_init, hm, Option.some.injEq] at hj
  rw [← hj]
  exact Nat.zero_le _

theorem freshArchive_size (db : CSzArEx) (archive : SZarchive) (bound : Nat)
    (hsize : ∀ m ∈ db.Files, m.Size < bound)
    (h : freshArchive db = some archive) : ∀ f ∈ archive.files, f.item.Size < bound := by
  intro f hf
  obtain ⟨j, m, hm, hj⟩ := sz_files_init_member db _ archive h f hf
  simp only [sz_file_init, hm, Option.some.injEq] at hj
  rw [← hj]
  exact hsize m (List.getElem?_mem hm)

/-- C26: in every state reached from a freshly opened archive (entry sizes being
64-bit values) by any sequence of `SZ_openRead`, `SZ_read`, `SZ_seek` and
`SZ_destroy` calls on open handles, successful or failing, with any arguments
and any decoder, the position of every entry, hence of every handle, is at most
the entry's size, and the unsigned subtraction `Size - position` of `SZ_read`
equals the true difference (it does not wrap). -/
theorem position_in_range (extract : Decoder) (db : CSzArEx) (archive0 : SZarchive)
    (hsize : ∀ m ∈ db.Files, m.Size < SIZE_MOD) (hfresh : freshArchive db = some archive0)
    (ops : List Op) (s : Session)
    (hrun : run extract ops { archive := archive0, handles := [] } = some s) :
    ∀ f ∈ s.archive.files, f.position ≤ f.item.Size ∧
      sub64 f.item.Size f.position = f.item.Size - f.position := by
  obtain ⟨hpos, hitems, _⟩ := run_frame extract ops _ s hrun
  have hpos1 := hpos (freshArchive_positionsOk db archive0 hfresh)
  intro f hf
  have hle := hpos1 f hf
  have hmem : f.item ∈ s.archive.files.map SZfile.item := List.mem_map_of_mem _ hf
  rw [hitems] at hmem
  obtain ⟨g, hg, hgi⟩ := List.mem_map.mp hmem
  have hlt : f.item.Size < SIZE_MOD := by
    rw [← hgi]
    exact freshArchive_size db archive0 SIZE_MOD hsize hfresh g hg
  exact ⟨hle, sub64_of_le hle hlt⟩

/-- Witness of C26: `a.txt` of `pairDb` is opened, sought past its end (which
fails), read, sought to 1, read to its end and read again. -/
theorem position_in_range_witness :
    pairFileARead.position ≤ pairFileARead.item.Size ∧
      sub64 pairFileARead.item.Size pairFileARead.position =
        pairFileARead.item.Size - pairFileARead.position :=
  position_in_range pairDecoder pairDb pairArchive0 (by decide) (by decide)
    [Op.openRead true (cstr "a.txt"), Op.seek 0 3, Op.read 0 1, Op.seek 0 1, Op.read 0 9,
     Op.read 0 1]
    { archive :=
        { files := [pairFileARead, pairFileB]
          folders := [{ index := 0, references := 1, cache := some [10, 11, 20, 21],
                        size := 4 }] }
      handles := [0] }
    (by decide) pairFileARead (by decide)

/-! ## Decompression happens in `SZ_read` only -/

/-- C27: on a table with valid folder links, `SZ_openRead` of any path, with the
handle allocation succeeding or failing, returns and leaves the cache of every
folder as it was (absent or the same bytes); on a valid handle `SZ_seek` to any
offset returns and leaves the whole folder array as it was, and `SZ_tell` and
`SZ_length` return the position and the size of the entry.  None of the four is
given the decoder; the outcome of every call other than `SZ_read` is the same for
any two decoders. -/
theorem no_decompression_outside_read (archive : SZarchive) (hlinks : linksOk archive) :
    (∀ (mallocOk : Bool) (path : List Nat), ∃ r archive1,
      SZ_openRead mallocOk archive path = some (r, archive1) ∧
      archive1.folders.map SZfolder.cache = archive.folders.map SZfolder.cache) ∧
    (∀ (io offset : Nat) (file : SZfile), archive.files[io]? = some file →
      (∃ r archive1, SZ_seek archive io offset = some (r, archive1) ∧
        archive1.folders = archive.folders) ∧
      SZ_tell archive io = some (toSint64 file.position) ∧
      SZ_length archive io = some (toSint64 file.item.Size)) ∧
    (∀ (extract extract1 : Decoder) (s : Session) (op : Op),
      (∀ io len, op ≠ Op.read io len) → step extract s op = step extract1 s op) := by
  refine ⟨?_, ?_, ?_⟩
  · intro mallocOk path
    rcases SZ_openRead_shape mallocOk archive path hlinks with h | h |
      ⟨pos, file, fi, folder, _, _, hfo, h⟩
    · exact ⟨_, _, h, rfl⟩
    · exact ⟨_, _, h, rfl⟩
    · exact ⟨_, _, h, map_set_eq_self SZfolder.cache hfo rfl⟩
  · intro io offset file hfile
    obtain ⟨r, file1, hseek, _⟩ := SZ_seek_shape archive io offset file hfile
    refine ⟨⟨_, _, hseek, rfl⟩, ?_, ?_⟩
    · simp only [SZ_tell, hfile]
    · simp only [SZ_length, hfile]
  · intro extract extract1 s op hop
    cases op with
    | openRead mallocOk path => rfl
    | read io len => exact absurd rfl (hop io len)
    | seek io offset => rfl
    | destroy io => rfl

/-- Witness of C27: the archive of `pairDb` with `a.txt` open and folder 0
cached. -/
theorem no_decompression_outside_read_witness :
    (∀ (mallocOk : Bool) (path : List Nat), ∃ r archive1,
      SZ_openRead mallocOk pairArchiveCached path = some (r, archive1) ∧
      archive1.folders.map SZfolder.cache = pairArchiveCached.folders.map SZfolder.cache) ∧
    (∀ (io offset : Nat) (file : SZfile), pairArchiveCached.files[io]? = some file →
      (∃ r archive1, SZ_seek pairArchiveCached io offset = some (r, archive1) ∧
        archive1.folders = pairArchiveCached.folders) ∧
      SZ_tell pairArchiveCached io = some (toSint64 file.position) ∧
      SZ_length pairArchiveCached io = some (toSint64 file.item.Size)) ∧
    (∀ (extract extract1 : Decoder) (s : Session) (op : Op),
      (∀ io len, op ≠ Op.read io len) → step extract s op = step extract1 s op) :=
  no_decompression_outside_read pairArchiveCached (by unfold linksOk; decide)

/-! ## Reference counts and open handles -/

theorem linkOf_of_map (a b : SZarchive)
    (h : b.files.map SZfile.folder = a.files.map SZfile.folder) (io : Nat) :
    linkOf b io = linkOf a io := by
  unfold linkOf
  have h1 := congrArg (fun l : List (Option Nat) => l[io]?) h
  simp only [List.getElem?_map] at h1
  cases hb : b.files[io]? <;> cases ha : a.files[io]? <;> simp_all

theorem linkOf_eq_some (archive : SZarchive) (io fi : Nat) (file : SZfile)
    (hfile : archive.files[io]? = some file) (hfolder : file.folder = some fi) :
    linkOf archive io = some fi := by
  unfold linkOf
  rw [hfile]
  exact hfolder

theorem boundTo_links (a b : SZarchive) (hs : List Nat)
    (h : ∀ io, linkOf b io = linkOf a io) (fi : Nat) :
    boundTo { archive := b, handles := hs } fi = boundTo { archive := a, handles := hs } fi := by
  unfold boundTo
  simp only [h]

theorem boundTo_cons (a : SZarchive) (io : Nat) (hs : List Nat) (fi : Nat) :
    boundTo { archive := a, handles := io :: hs } fi =
      boundTo { archive := a, handles := hs } fi + (if linkOf a io = some fi then 1 else 0) := by
  unfold boundTo
  simp only [List.countP_cons, decide_eq_true_eq]

theorem countP_erase_mem (p : Nat → Bool) (l : List Nat) (a : Nat) (h : a ∈ l) :
    List.countP p (l.erase a) + (if p a = true then 1 else 0) = List.countP p l := by
  induction l with
  | nil => simp at h
  | cons x xs ih =>
    by_cases hx : x = a
    · subst hx
      simp only [List.erase_cons_head, List.countP_cons]
    · have hmem : a ∈ xs := by
        rcases List.mem_cons.mp h with h1 | h1
        · exact absurd h1.symm hx
        · exact h1
      rw [List.erase_cons_tail (by simpa using hx), List.countP_cons, List.countP_cons,
        ← ih hmem]
      omega

theorem boundTo_erase (a : SZarchive) (io : Nat) (hs : List Nat) (fi : Nat) (hmem : io ∈ hs) :
    boundTo { archive := a, handles := hs.erase io } fi +
        (if linkOf a io = some fi then 1 else 0) =
      boundTo { archive := a, handles := hs } fi := by
  unfold boundTo
  have := countP_erase_mem (fun io => decide (linkOf a io = some fi)) hs io hmem
  simpa using this

theorem boundTo_pos (s : Session) (io fi : Nat) (hmem : io ∈ s.handles)
    (h : linkOf s.archive io = some fi) : 0 < boundTo s fi := by
  unfold boundTo
  exact List.countP_pos_iff.mpr ⟨io, hmem, by simp [h]⟩

theorem boundTo_le (s : Session) (fi : Nat) : boundTo s fi ≤ s.handles.length := by
  unfold boundTo
  exact List.countP_le_length _

theorem getElem?_set_cases {α : Type} {l : List α} {i k : Nat} {x y : α}
    (h : (l.set i x)[k]? = some y) : (k = i ∧ y = x) ∨ (k ≠ i ∧ l[k]? = some y) := by
  by_cases hk : k = i
  · left
    subst hk
    have hlt : k < l.length := by
      have := lt_length_of_getElem? h
      simpa using this
    rw [List.getElem?_set_self hlt] at h
    exact ⟨rfl, (Option.some.inj h).symm⟩
  · right
    rw [List.getElem?_set_ne (fun hh => hk hh.symm)] at h
    exact ⟨hk, h⟩

/-- One call on a session whose reference counts are the numbers of bound
handles keeps them so, provided the handle object of an `SZ_openRead` is
allocated and the count of open handles stays below `2 ^ 32`. -/
theorem step_countsOk (extract : Decoder) (s s1 : Session) (op : Op)
    (hcounts : countsOk s) (halloc : allocated op = true)
    (hlen : s.handles.length + 1 < UINT32_MOD) (hstep : step extract s op = some s1) :
    countsOk s1 ∧ s1.handles.length ≤ s.handles.length + 1 ∧
      s1.archive.folders.length = s.archive.folders.length ∧
      (∀ io ∈ s1.handles, io ∈ s.handles ∨ (linkOf s1.archive io).isSome) := by
  have hlinks : ∀ io, linkOf s1.archive io = linkOf s.archive io :=
    linkOf_of_map s.archive s1.archive (step_frame extract s s1 op hstep).2.2
  cases op with
  | openRead mallocOk path =>
    simp only [allocated] at halloc
    subst halloc
    simp only [step] at hstep
    cases hopen : SZ_openRead true s.archive path with
    | none => rw [hopen] at hstep; simp at hstep
    | some ra =>
      obtain ⟨r, a1⟩ := ra
      rw [hopen] at hstep
      simp only [] at hstep
      rcases SZ_openRead_some true s.archive a1 path r hopen with ⟨hio, h1⟩ |
        ⟨pos, file, fi, folder, hfile, hfolder, hfo, hio, h1⟩
      · rw [hio] at hstep
        simp only [Option.some.injEq] at hstep
        rw [← hstep, h1]
        exact ⟨hcounts, by simp, rfl, fun io hmem => Or.inl hmem⟩
      · rw [hio] at hstep
        simp only [if_true, Option.some.injEq] at hstep
        have hlink : linkOf s.archive pos = some fi := linkOf_eq_some s.archive pos fi file hfile hfolder
        rw [← hstep] at hlinks ⊢
        simp only [] at hlinks
        refine ⟨?_, by simp, by rw [h1]; simp, ?_⟩
        · intro k fo hk
          have hb : boundTo { archive := a1, handles := pos :: s.handles } k =
              boundTo s k + (if linkOf s.archive pos = some k then 1 else 0) := by
            rw [boundTo_cons, boundTo_links s.archive a1 s.handles hlinks k, hlinks pos]
          rw [hb, hlink]
          simp only [] at hk
          rw [h1] at hk
          simp only [] at hk
          rcases getElem?_set_cases hk with ⟨hki, hfo1⟩ | ⟨hki, hfo1⟩
          · subst hki
            rw [hfo1]
            simp only [if_true]
            have h2 := (hcounts k folder hfo).1
            have h3 := boundTo_le s k
            rw [← h2]
            have h4 : (folder.references + 1) % UINT32_MOD = folder.references + 1 :=
              Nat.mod_eq_of_lt (by omega)
            rw [h4]
            exact ⟨rfl, fun _ => Nat.succ_pos _⟩
          · have hne : ¬ (some fi = some k) := fun hh => hki (Option.some.inj hh).symm
            rw [if_neg hne, Nat.add_zero]
            exact hcounts k fo hfo1
        · intro io hmem
          rcases List.mem_cons.mp hmem with h2 | h2
          · right
            rw [h2, hlinks pos, hlink]
            rfl
          · exact Or.inl h2
  | read io len =>
    simp only [step] at hstep
    split_ifs at hstep with hmem
    cases hread : SZ_read extract s.archive io len with
    | none => rw [hread] at hstep; simp at hstep
    | some ra =>
      obtain ⟨r, a1⟩ := ra
      rw [hread] at hstep
      simp only [Option.some.injEq] at hstep
      rw [← hstep] at hlinks ⊢
      simp only [] at hlinks
      obtain ⟨file, file1, hfile, _, _, _, _, hfolders⟩ :=
        SZ_read_some extract s.archive a1 io len r hread
      have hb : ∀ k, boundTo { archive := a1, handles := s.handles } k = boundTo s k :=
        fun k => boundTo_links s.archive a1 s.handles hlinks k
      rcases hfolders with hf | ⟨fi, folder, folder1, hfolder, hfo, hf, hrefs⟩
      · refine ⟨?_, by simp, by rw [hf], fun io hmem => Or.inl hmem⟩
        intro k fo hk
        simp only [] at hk
        rw [hf] at hk
        rw [hb]
        exact hcounts k fo hk
      · refine ⟨?_, by simp, by rw [hf]; simp, fun io hmem => Or.inl hmem⟩
        intro k fo hk
        simp only [] at hk
        rw [hf] at hk
        rw [hb]
        rcases getElem?_set_cases hk with ⟨hki, hfo1⟩ | ⟨hki, hfo1⟩
        · subst hki
          rw [hfo1, hrefs]
          have hpos := boundTo_pos s io k hmem (linkOf_eq_some s.archive io k file hfile hfolder)
          have h2 := (hcounts k folder hfo).1
          exact ⟨h2, fun _ => by omega⟩
        · exact hcounts k fo hfo1
  | seek io offset =>
    simp only [step] at hstep
    split_ifs at hstep with hmem
    cases hseek : SZ_seek s.archive io offset with
    | none => rw [hseek] at hstep; simp at hstep
    | some ra =>
      obtain ⟨r, a1⟩ := ra
      rw [hseek] at hstep
      simp only [Option.some.injEq] at hstep
      rw [← hstep] at hlinks ⊢
      simp only [] at hlinks
      obtain ⟨file, file1, hfile, _, _, _, _, hf⟩ := SZ_seek_some s.archive a1 io offset r hseek
      refine ⟨?_, by simp, by rw [hf], fun io hmem => Or.inl hmem⟩
      intro k fo hk
      simp only [] at hk
      rw [hf] at hk
      rw [boundTo_links s.archive a1 s.handles hlinks k]
      exact hcounts k fo hk
  | destroy io =>
    simp only [step] at hstep
    split_ifs at hstep with hmem
    cases hd : SZ_destroy s.archive io with
    | none => rw [hd] at hstep; simp at hstep
    | some a1 =>
      rw [hd] at hstep
      simp only [Option.some.injEq] at hstep
      rw [← hstep] at hlinks ⊢
      simp only [] at hlinks
      have hlenle : (s.handles.erase io).length ≤ s.handles.length + 1 := by
        rw [List.length_erase_of_mem hmem]
        omega
      have hsub : ∀ j ∈ s.handles.erase io, j ∈ s.handles ∨
          (linkOf a1 j).isSome = true := fun j hj => Or.inl (List.mem_of_mem_erase hj)
      have hb : ∀ k, boundTo { archive := a1, handles := s.handles.erase io } k +
          (if linkOf s.archive io = some k then 1 else 0) = boundTo s k := by
        intro k
        rw [boundTo_links s.archive a1 (s.handles.erase io) hlinks k]
        exact boundTo_erase s.archive io s.handles k hmem
      obtain ⟨file, hfile, ⟨hnone, h1⟩ | ⟨fi, folder, hfolder, hfo, h1⟩⟩ :=
        SZ_destroy_some s.archive a1 io hd
      · refine ⟨?_, hlenle, by rw [h1], hsub⟩
        intro k fo hk
        simp only [] at hk
        rw [h1] at hk
        have hl : linkOf s.archive io = none := by
          unfold linkOf
          rw [hfile]
          exact hnone
        have := hb k
        rw [hl] at this
        simp only [reduceCtorEq, if_false, Nat.add_zero] at this
        rw [this]
        exact hcounts k fo hk
      · refine ⟨?_, hlenle, by rw [h1]; simp, hsub⟩
        intro k fo hk
        simp only [] at hk
        rw [h1] at hk
        simp only [] at hk
        have hl := linkOf_eq_some s.archive io fi file hfile hfolder
        have hbk := hb k
        rw [hl] at hbk
        rcases getElem?_set_cases hk with ⟨hki, hfo1⟩ | ⟨hki, hfo1⟩
        · subst hki
          simp only [if_true] at hbk
          have h2 := hcounts k folder hfo
          rw [hfo1]
          unfold afterDestroy
          split_ifs
          all_goals first
            | exact ⟨by simp only []; omega, fun hc => absurd rfl hc⟩
            | exact ⟨by simp only []; omega, fun _ => by simp only []; omega⟩
        · have hne : ¬ (some fi = some k) := fun hh => hki (Option.some.inj hh).symm
          rw [if_neg hne, Nat.add_zero] at hbk
          rw [hbk]
          exact hcounts k fo hfo1

theorem linksOk_of_frame (a b : SZarchive) (hl : linksOk a)
    (hmap : b.files.map SZfile.folder = a.files.map SZfile.folder)
    (hlen : b.folders.length = a.folders.length) : linksOk b := by
  intro f hf fi hfi
  have hmem : f.folder ∈ b.files.map SZfile.folder := List.mem_map_of_mem _ hf
  rw [hmap] at hmem
  obtain ⟨g, hg, hgf⟩ := List.mem_map.mp hmem
  rw [hlen]
  exact hl g hg fi (by rw [hgf]; exact hfi)

/-- The invariants of a session are kept by every sequence of calls in which the
handle objects are allocated and fewer than `2 ^ 32` handles are ever open. -/
theorem run_session (extract : Decoder) (ops : List Op) (s s1 : Session)
    (hl : linksOk s.archive) (hh : handlesOk s) (hc : countsOk s) (halloc : allocates ops)
    (hlen : s.handles.length + ops.length < UINT32_MOD)
    (hrun : run extract ops s = some s1) :
    linksOk s1.archive ∧ handlesOk s1 ∧ countsOk s1 := by
  induction ops generalizing s with
  | nil =>
    simp only [run, Option.some.injEq] at hrun
    rw [← hrun]
    exact ⟨hl, hh, hc⟩
  | cons op ops ih =>
    simp only [run] at hrun
    cases hstep : step extract s op with
    | none => rw [hstep] at hrun; simp at hrun
    | some s2 =>
      rw [hstep] at hrun
      simp only [List.length_cons] at hlen
      obtain ⟨hc2, hlen2, hfl, hnew⟩ := step_countsOk extract s s2 op hc
        (halloc op (List.mem_cons_self _ _)) (by omega) hstep
      have hmap := (step_frame extract s s2 op hstep).2.2
      have hl2 := linksOk_of_frame s.archive s2.archive hl hmap hfl
      have hh2 : handlesOk s2 := by
        intro io hmem
        rcases hnew io hmem with h1 | h1
        · rw [linkOf_of_map s.archive s2.archive hmap io]
          exact hh io h1
        · exact h1
      exact ih s2 hl2 hh2 hc2 (fun o ho => halloc o (List.mem_cons_of_mem _ ho)) (by omega) hrun

/-- On a session with valid links, a call on an open handle (or `SZ_openRead`)
returns. -/
theorem step_isSome (extract : Decoder) (s : Session) (op : Op)
    (hl : linksOk s.archive) (hh : handlesOk s) (huse : usesOpen s op) :
    ∃ s1, step extract s op = some s1 := by
  have hhandle : ∀ io ∈ s.handles, ∃ file fi folder, s.archive.files[io]? = some file ∧
      file.folder = some fi ∧ s.archive.folders[fi]? = some folder := by
    intro io hmem
    have h1 := hh io hmem
    unfold linkOf at h1
    cases hfile : s.archive.files[io]? with
    | none => rw [hfile] at h1; simp at h1
    | some file =>
      rw [hfile] at h1
      cases hfolder : file.folder with
      | none => simp [hfolder] at h1
      | some fi =>
        have hlt := hl file (List.getElem?_mem hfile) fi hfolder
        exact ⟨file, fi, s.archive.folders[fi], rfl, hfolder, List.getElem?_eq_getElem hlt⟩
  cases op with
  | openRead mallocOk path =>
    simp only [step]
    rcases SZ_openRead_shape mallocOk s.archive path hl with h | h | ⟨_, _, _, _, _, _, _, h⟩
    · rw [h]; exact ⟨_, rfl⟩
    · rw [h]; exact ⟨_, rfl⟩
    · rw [h]
      cases mallocOk
      · exact ⟨_, rfl⟩
      · exact ⟨_, rfl⟩
  | read io len =>
    simp only [usesOpen] at huse
    obtain ⟨file, fi, folder, hfile, hfolder, hfo⟩ := hhandle io huse
    obtain ⟨r, file1, folder1, hread, _⟩ :=
      SZ_read_shape extract s.archive io len fi file folder hfile hfolder hfo
    simp only [step, if_pos huse, hread]
    exact ⟨_, rfl⟩
  | seek io offset =>
    simp only [usesOpen] at huse
    obtain ⟨file, fi, folder, hfile, hfolder, hfo⟩ := hhandle io huse
    obtain ⟨r, file1, hseek, _⟩ := SZ_seek_shape s.archive io offset file hfile
    simp only [step, if_pos huse, hseek]
    exact ⟨_, rfl⟩
  | destroy io =>
    simp only [usesOpen] at huse
    obtain ⟨file, fi, folder, hfile, hfolder, hfo⟩ := hhandle io huse
    simp only [step, if_pos huse, SZ_destroy_folder s.archive io fi file folder hfile hfolder hfo]
    exact ⟨_, rfl⟩

theorem freshArchive_folders (db : CSzArEx) (archive : SZarchive)
    (h : freshArchive db = some archive) :
    archive.folders = List.replicate db.NumFolders emptyFolder := by
  obtain ⟨a, fs, ha, hf, _⟩ := sz_files_init_table db
    { files := [], folders := List.replicate db.NumFolders emptyFolder }
  unfold freshArchive at h
  rw [h] at ha
  rw [Option.some.inj ha]
  exact hf

theorem freshArchive_linksOk (db : CSzArEx) (archive : SZarchive) (hdb : dbLinksOk db)
    (h : freshArchive db = some archive) : linksOk archive := by
  intro f hf fi hfi
  obtain ⟨j, m, hm, hj⟩ := sz_files_init_member db _ archive h f hf
  simp only [sz_file_init, hm, Option.some.injEq] at hj
  rw [freshArchive_folders db archive h, List.length_replicate]
  rw [← hj] at hfi
  simp only [Option.mem_def] at hfi
  split_ifs at hfi with h1
  · rw [← Option.some.inj hfi]
    rcases hdb m (List.getElem?_mem hm) with h2 | h2
    · exact absurd h2 h1
    · exact h2

theorem freshArchive_countsOk (db : CSzArEx) (archive : SZarchive)
    (h : freshArchive db = some archive) :
    countsOk { archive := archive, handles := [] } := by
  intro k fo hk
  simp only [] at hk
  rw [freshArchive_folders db archive h, List.getElem?_replicate] at hk
  split_ifs at hk
  rw [← Option.some.inj hk]
  exact ⟨rfl, fun hc => absurd rfl hc⟩

/-- In every state reached from a freshly opened archive by calls on open handles
in which every handle object is allocated (fewer than `2 ^ 32` calls), each
reference count is the number of open handles bound to the folder, a folder has
a cache only if its reference count is positive, and every further call on an
open handle returns. -/
theorem references_count_open_handles (extract : Decoder) (db : CSzArEx)
    (archive0 : SZarchive) (hdb : dbLinksOk db) (hfresh : freshArchive db = some archive0)
    (ops : List Op) (halloc : allocates ops) (hlen : ops.length < UINT32_MOD) (s : Session)
    (hrun : run extract ops { archive := archive0, handles := [] } = some s) :
    (∀ fi folder, s.archive.folders[fi]? = some folder →
      folder.references = boundTo s fi ∧ (folder.cache ≠ none → 0 < folder.references)) ∧
    ∀ op, usesOpen s op → ∃ s1, step extract s op = some s1 := by
  obtain ⟨hl, hh, hc⟩ := run_session extract ops _ s
    (freshArchive_linksOk db archive0 hdb hfresh) (fun io hmem => by simp at hmem)
    (freshArchive_countsOk db archive0 hfresh) halloc (by simpa using hlen) hrun
  exact ⟨hc, fun op huse => step_isSome extract s op hl hh huse⟩

/-- C25, the code at the failing input: from the freshly opened
archive of `pairDb`, one `SZ_openRead` of `a.txt` whose handle allocation fails
leaves no handle open, yet folder 0 has reference count 1. -/
theorem references_after_failed_open :
    run pairDecoder [Op.openRead false (cstr "a.txt")]
        { archive := pairArchive0, handles := [] } =
      some { archive := pairArchive1, handles := [] } ∧
    freshArchive pairDb = some pairArchive0 ∧
    boundTo { archive := pairArchive1, handles := [] } 0 = 0 ∧
    (pairArchive1.folders[0]?).map SZfolder.references = some 1 := by
  decide

/-! ## The FILETIME conversion -/

theorem filetime_value (ft : CNtfsFileTime) (hlow : ft.Low < 2 ^ 32) (hhigh : ft.High < 2 ^ 32) :
    ft.Low ||| ((ft.High % SIZE_MOD) <<< 32) % SIZE_MOD = ft.High * 2 ^ 32 + ft.Low := by
  have h1 : ft.High % SIZE_MOD = ft.High := Nat.mod_eq_of_lt (by unfold SIZE_MOD; omega)
  have h2 : (ft.High * 2 ^ 32) % SIZE_MOD = ft.High * 2 ^ 32 :=
    Nat.mod_eq_of_lt (by unfold SIZE_MOD; omega)
  rw [h1, Nat.shiftLeft_eq, h2, Nat.lor_comm, Nat.mul_comm, ← Nat.mul_add_lt_is_or hlow]

theorem timestamp_of_seconds (q : Nat) (hq : q < 2 ^ 63) :
    toSint64 (sub64 q 11644473600) = (q : Int) - 11644473600 := by
  unfold toSint64 sub64
  simp only [SIZE_MOD]
  split_ifs <;> omega

theorem sz_filetime_to_unix_timestamp_eq (ft : CNtfsFileTime) (hlow : ft.Low < 2 ^ 32)
    (hhigh : ft.High < 2 ^ 32) :
    sz_filetime_to_unix_timestamp ft =
      (((ft.High * 2 ^ 32 + ft.Low) / 10000000 : Nat) : Int) - 11644473600 := by
  unfold sz_filetime_to_unix_timestamp
  simp only []
  rw [filetime_value ft hlow hhigh]
  exact timestamp_of_seconds _ (by omega)

/-- C31: for every FILETIME whose halves `Low` and `High` are 32-bit values, with
`t = High * 2 ^ 32 + Low`, `sz_filetime_to_unix_timestamp` returns exactly
`t / 10000000 - 11644473600` (the division rounding down), a value within the
signed 64-bit range, negative for `t` before 1970-01-01 and 0 for
`t = 116444736000000000`; and it is non-decreasing in `t`. -/
theorem sz_filetime_to_unix_timestamp_exact (ft : CNtfsFileTime) (hlow : ft.Low < 2 ^ 32)
    (hhigh : ft.High < 2 ^ 32) :
    sz_filetime_to_unix_timestamp ft =
      (((ft.High * 2 ^ 32 + ft.Low) / 10000000 : Nat) : Int) - 11644473600 ∧
    -(2 ^ 63 : Int) ≤ sz_filetime_to_unix_timestamp ft ∧
    sz_filetime_to_unix_timestamp ft < 2 ^ 63 ∧
    (ft.High * 2 ^ 32 + ft.Low < 116444736000000000 → sz_filetime_to_unix_timestamp ft < 0) ∧
    (ft.High * 2 ^ 32 + ft.Low = 116444736000000000 → sz_filetime_to_unix_timestamp ft = 0) ∧
    (∀ ft1 : CNtfsFileTime, ft1.Low < 2 ^ 32 → ft1.High < 2 ^ 32 →
      ft.High * 2 ^ 32 + ft.Low ≤ ft1.High * 2 ^ 32 + ft1.Low →
      sz_filetime_to_unix_timestamp ft ≤ sz_filetime_to_unix_timestamp ft1) := by
  have h := sz_filetime_to_unix_timestamp_eq ft hlow hhigh
  refine ⟨h, ?_, ?_, ?_, ?_, ?_⟩
  · rw [h]; omega
  · rw [h]; omega
  · intro ht; rw [h]; omega
  · intro ht; rw [h, ht]; norm_num
  · intro ft1 hl1 hh1 hle
    rw [h, sz_filetime_to_unix_timestamp_eq ft1 hl1 hh1]
    have := Nat.div_le_div_right (c := 10000000) hle
    omega

/-- Witness of C31: the FILETIME of 1970-01-01. -/
theorem sz_filetime_to_unix_timestamp_exact_witness :
    sz_filetime_to_unix_timestamp unixEpoch =
      (((unixEpoch.High * 2 ^ 32 + unixEpoch.Low) / 10000000 : Nat) : Int) - 11644473600 ∧
    -(2 ^ 63 : Int) ≤ sz_filetime_to_unix_timestamp unixEpoch ∧
    sz_filetime_to_unix_timestamp unixEpoch < 2 ^ 63 ∧
    (unixEpoch.High * 2 ^ 32 + unixEpoch.Low < 116444736000000000 →
      sz_filetime_to_unix_timestamp unixEpoch < 0) ∧
    (unixEpoch.High * 2 ^ 32 + unixEpoch.Low = 116444736000000000 →
      sz_filetime_to_unix_timestamp unixEpoch = 0) ∧
    (∀ ft1 : CNtfsFileTime, ft1.Low < 2 ^ 32 → ft1.High < 2 ^ 32 →
      unixEpoch.High * 2 ^ 32 + unixEpoch.Low ≤ ft1.High * 2 ^ 32 + ft1.Low →
      sz_filetime_to_unix_timestamp unixEpoch ≤ sz_filetime_to_unix_timestamp ft1) :=
  sz_filetime_to_unix_timestamp_exact unixEpoch (by decide) (by decide)

/-- The FILETIME 0 (1601-01-01) is 11644473600 seconds before 1970. -/
theorem sz_filetime_to_unix_timestamp_zero :
    sz_filetime_to_unix_timestamp { Low := 0, High := 0 } = -11644473600 := by
  decide

/-! ## The two versions of the handle operations -/

theorem Legacy_sz_find_file_eq (archive : SZarchive) (name : List Nat) :
    Legacy.sz_find_file archive name = sz_find_file archive name := rfl

theorem Legacy_sz_err_snd (codes : Legacy.Codes) (rc : Int) : (Legacy.sz_err codes rc).2 = rc := by
  unfold Legacy.sz_err
  split_ifs <;> rfl

theorem sz_err_snd (rc : Int) : (sz_err rc).2 = rc := by
  by_cases h0 : rc = SZ_OK
  · rw [h0]; rfl
  by_cases h1 : rc = SZ_ERROR_DATA
  · rw [h1]; rfl
  by_cases h2 : rc = SZ_ERROR_MEM
  · rw [h2]; rfl
  by_cases h3 : rc = SZ_ERROR_CRC
  · rw [h3]; rfl
  by_cases h4 : rc = SZ_ERROR_UNSUPPORTED
  · rw [h4]; rfl
  by_cases h5 : rc = SZ_ERROR_PARAM
  · rw [h5]; rfl
  by_cases h6 : rc = SZ_ERROR_INPUT_EOF
  · rw [h6]; rfl
  by_cases h7 : rc = SZ_ERROR_OUTPUT_EOF
  · rw [h7]; rfl
  by_cases h8 : rc = SZ_ERROR_READ
  · rw [h8]; rfl
  by_cases h9 : rc = SZ_ERROR_WRITE
  · rw [h9]; rfl
  by_cases h16 : rc = SZ_ERROR_ARCHIVE
  · rw [h16]; rfl
  rw [sz_err_default rc h0 h1 h2 h3 h4 h5 h6 h7 h8 h9 h16]

theorem clampedSize_le (file : SZfile) (len : Nat) (hpos : file.position ≤ file.item.Size) :
    clampedSize file len ≤ file.item.Size := by
  unfold clampedSize sub64
  simp only [SIZE_MOD]
  split_ifs <;> omega

/-- The two versions of the middle of `SZ_read` on a request that fits the
entry, when the decoder fails or reports the size of the entry. -/
theorem Legacy_SZ_read_fill_agrees (codes : Legacy.Codes) (extract : Decoder)
    (archive : SZarchive) (io fi w : Nat) (file : SZfile) (folder : SZfolder)
    (hw : w ≤ file.item.Size)
    (hdec : folder.cache = none →
      (extract file.index folder.index none folder.size file.offset).res ≠ SZ_OK ∨
      (extract file.index folder.index none folder.size file.offset).outSizeProcessed =
        file.item.Size) :
    (Legacy.SZ_read_fill codes extract archive io fi file folder w).2 =
      (SZ_read_fill extract archive io fi file folder w).2 ∧
    (Legacy.SZ_read_fill codes extract archive io fi file folder w).1.ret =
      (SZ_read_fill extract archive io fi file folder w).1.ret ∧
    (Legacy.SZ_read_fill codes extract archive io fi file folder w).1.outBuf =
      (SZ_read_fill extract archive io fi file folder w).1.outBuf ∧
    (Legacy.SZ_read_fill codes extract archive io fi file folder w).1.extracted =
      (SZ_read_fill extract archive io fi file folder w).1.extracted ∧
    ((Legacy.SZ_read_fill codes extract archive io fi file folder w).1.err =
        (SZ_read_fill extract archive io fi file folder w).1.err ∨
      (folder.cache = none ∧
        (extract file.index folder.index none folder.size file.offset).res ≠ SZ_OK ∧
        (Legacy.SZ_read_fill codes extract archive io fi file folder w).1.err =
          (Legacy.sz_err codes
            (extract file.index folder.index none folder.size file.offset).res).1 ∧
        (SZ_read_fill extract archive io fi file folder w).1.err =
          (sz_err (extract file.index folder.index none folder.size file.offset).res).1)) := by
  cases hcache : folder.cache with
  | some bytes =>
    unfold Legacy.SZ_read_fill SZ_read_fill
    rw [hcache]
    exact ⟨rfl, rfl, rfl, rfl, Or.inl rfl⟩
  | none =>
    unfold Legacy.SZ_read_fill SZ_read_fill
    rw [hcache]
    simp only [Legacy_sz_err_snd, sz_err_snd]
    by_cases hres : (extract file.index folder.index none folder.size file.offset).res = SZ_OK
    · have hsize : (extract file.index folder.index none folder.size file.offset).outSizeProcessed =
          file.item.Size := by
        rcases hdec hcache with h | h
        · exact absurd hres h
        · exact h
      simp only [hres, ne_eq, not_true_eq_false, if_false, hsize]
      rw [if_neg (by omega)]
      exact ⟨rfl, rfl, rfl, rfl, Or.inl rfl⟩
    · simp only [ne_eq, hres, not_false_eq_true, if_true]
      simp

theorem Legacy_SZ_read_effective (codes : Legacy.Codes) (extract : Decoder)
    (archive : SZarchive) (io len fi : Nat) (file : SZfile) (folder : SZfolder)
    (hfile : archive.files[io]? = some file) (hfolder : file.folder = some fi)
    (hfo : archive.folders[fi]? = some folder)
    (hlen : len % SIZE_MOD ≠ 0) (hrem : sub64 file.item.Size file.position ≠ 0) :
    Legacy.SZ_read codes extract archive io len =
      some (Legacy.SZ_read_fill codes extract archive io fi file folder
        (clampedSize file len)) := by
  unfold Legacy.SZ_read clampedSize
  rw [hfile]
  simp only []
  rw [if_neg hlen, if_neg hrem, hfolder]
  simp only []
  rw [hfo]

/-- C32: on a valid handle whose position is at most the size of its entry, and
for a decoder whose answer, when the folder is not cached, is a failure or a
success that reports the size of the entry, `SZ_read` of `archiver_7z.c` and of
`physfs_archiver_7z_upstream.c` return the same value, copy the same bytes, call
the decoder alike and leave the same archive state (positions, offsets,
reference counts and caches); the error code set is the same too, except on a
decoder failure, where each file translates the decoder's code by its own
`sz_err`.  `SZ_seek`, `SZ_tell`, `SZ_length`, `SZ_openRead` and `SZ_destroy` of
the two files are the same functions. -/
theorem legacy_handle_operations_agree (codes : Legacy.Codes) (extract : Decoder)
    (archive : SZarchive) (io len fi : Nat) (file : SZfile) (folder : SZfolder)
    (hfile : archive.files[io]? = some file) (hfolder : file.folder = some fi)
    (hfo : archive.folders[fi]? = some folder) (hpos : file.position ≤ file.item.Size)
    (hdec : folder.cache = none →
      (extract file.index folder.index none folder.size file.offset).res ≠ SZ_OK ∨
      (extract file.index folder.index none folder.size file.offset).outSizeProcessed =
        file.item.Size) :
    (∃ r r1 archive1,
      SZ_read extract archive io len = some (r, archive1) ∧
      Legacy.SZ_read codes extract archive io len = some (r1, archive1) ∧
      r1.ret = r.ret ∧ r1.outBuf = r.outBuf ∧ r1.extracted = r.extracted ∧
      (r1.err = r.err ∨
        (folder.cache = none ∧
          (extract file.index folder.index none folder.size file.offset).res ≠ SZ_OK ∧
          r1.err = (Legacy.sz_err codes
            (extract file.index folder.index none folder.size file.offset).res).1 ∧
          r.err = (sz_err (extract file.index folder.index none folder.size file.offset).res).1))) ∧
    (∀ offset : Nat, Legacy.SZ_seek archive io offset = SZ_seek archive io offset) ∧
    Legacy.SZ_tell archive io = SZ_tell archive io ∧
    Legacy.SZ_length archive io = SZ_length archive io ∧
    (∀ (mallocOk : Bool) (path : List Nat),
      Legacy.SZ_openRead mallocOk archive path = SZ_openRead mallocOk archive path) ∧
    Legacy.SZ_destroy archive io = SZ_destroy archive io := by
  refine ⟨?_, fun _ => rfl, rfl, rfl, fun _ _ => rfl, rfl⟩
  by_cases hlen : len % SIZE_MOD = 0
  · refine ⟨{ ret := 0, err := none, outBuf := OutBuf.untouched, extracted := false },
      { ret := 0, err := none, outBuf := OutBuf.untouched, extracted := false }, archive,
      SZ_read_zero extract archive io len file hfile hlen, ?_, rfl, rfl, rfl, Or.inl rfl⟩
    simp [Legacy.SZ_read, hfile, hlen]
  by_cases hrem : sub64 file.item.Size file.position = 0
  · refine ⟨{ ret := 0, err := some PHYSFS_ERR_PAST_EOF, outBuf := OutBuf.untouched,
              extracted := false },
      { ret := 0, err := some PHYSFS_ERR_PAST_EOF, outBuf := OutBuf.untouched,
        extracted := false }, archive,
      SZ_read_eof extract archive io len file hfile hlen hrem, ?_, rfl, rfl, rfl, Or.inl rfl⟩
    simp [Legacy.SZ_read, hfile, hlen, hrem]
  obtain ⟨h1, h2, h3, h4, h5⟩ := Legacy_SZ_read_fill_agrees codes extract archive io fi
    (clampedSize file len) file folder (clampedSize_le file len hpos) hdec
  refine ⟨(SZ_read_fill extract archive io fi file folder (clampedSize file len)).1,
    (Legacy.SZ_read_fill codes extract archive io fi file folder (clampedSize file len)).1,
    (SZ_read_fill extract archive io fi file folder (clampedSize file len)).2,
    ?_, ?_, h2, h3, h4, h5⟩
  · rw [SZ_read_effective extract archive io len fi file folder hfile hfolder hfo hlen hrem]
  · rw [Legacy_SZ_read_effective codes extract archive io len fi file folder hfile hfolder hfo
      hlen hrem, ← h1]

/-- Witness of C32: 5 bytes asked of the 2-byte entry `a.txt` of `pairDb`, folder
not cached. -/
theorem legacy_handle_operations_agree_witness :
    (∃ r r1 archive1,
      SZ_read pairDecoder pairArchive1 0 5 = some (r, archive1) ∧
      Legacy.SZ_read sampleCodes pairDecoder pairArchive1 0 5 = some (r1, archive1) ∧
      r1.ret = r.ret ∧ r1.outBuf = r.outBuf ∧ r1.extracted = r.extracted ∧
      (r1.err = r.err ∨
        (pairFolderOpen.cache = none ∧
          (pairDecoder pairFileA.index pairFolderOpen.index none pairFolderOpen.size
            pairFileA.offset).res ≠ SZ_OK ∧
          r1.err = (Legacy.sz_err sampleCodes
            (pairDecoder pairFileA.index pairFolderOpen.index none pairFolderOpen.size
              pairFileA.offset).res).1 ∧
          r.err = (sz_err
            (pairDecoder pairFileA.index pairFolderOpen.index none pairFolderOpen.size
              pairFileA.offset).res).1))) ∧
    (∀ offset : Nat, Legacy.SZ_seek pairArchive1 0 offset = SZ_seek pairArchive1 0 offset) ∧
    Legacy.SZ_tell pairArchive1 0 = SZ_tell pairArchive1 0 ∧
    Legacy.SZ_length pairArchive1 0 = SZ_length pairArchive1 0 ∧
    (∀ (mallocOk : Bool) (path : List Nat),
      Legacy.SZ_openRead mallocOk pairArchive1 path = SZ_openRead mallocOk pairArchive1 path) ∧
    Legacy.SZ_destroy pairArchive1 0 = SZ_destroy pairArchive1 0 :=
  legacy_handle_operations_agree sampleCodes pairDecoder pairArchive1 0 5 0 pairFileA
    pairFolderOpen (by decide) (by decide) (by decide) (by decide)
    (fun _ => Or.inr (by decide))

/-- When the decoder succeeds but reports another size than the entry's, the
two versions differ: the newer `SZ_read` fails, the older one returns the bytes
asked for. -/
theorem legacy_differs_on_size_mismatch :
    (SZ_read shortDecoder fiveArchive 0 5).map (fun x => x.1.ret) = some (-1) ∧
    (Legacy.SZ_read sampleCodes shortDecoder fiveArchive 0 5).map (fun x => x.1.ret) =
      some 5 := by
  decide

end SZ
